import Mathlib

/-!
# crisscross: the Registration reconciler and the external callout client

A shallow embedding of

* `internal/controller/registration.go` (`Reconciler.Reconcile`),
* `internal/client/client.go` (`ControllerClient.post`, `Observe`, `Create`,
  `Update`, `Delete`),
* `pkg/models/observation.go`, `pkg/models/update.go` (wire types and their
  JSON tags),

together with the parts of the Go standard library they run through
(`encoding/json`, `encoding/base64`, `unicode/utf8`).

Conventions.  A Go `string` or `[]byte` is a list of bytes (`List Nat`, every
element below 256).  Collaborators that the reconciler reaches through an
interface (store, engine, finalizer) are fields of the `Reconciler`
structure; every call made on them is appended to an effect trace.
-/

namespace Crisscross

/-! ## `internal/controller/registration.go` -/

/-- A Go `time.Duration`: a count of nanoseconds. -/
abbrev Duration := Nat

/-- Go `time.Second`. -/
def Second : Duration := 1000000000

/-- Go `time.Minute`. -/
def Minute : Duration := 60 * Second

def tinyWait : Duration := 3 * Second
def shortWait : Duration := 30 * Second
def timeout : Duration := 2 * Minute
def maxConcurrency : Nat := 5
def finalizer : String := "defined.apiextensions.crossplane.io"

def errGetRegistration : String := "cannot get Registration"
def errStartController : String := "cannot start managed resource controller"
def errUpdateStatus : String := "cannot update Registration status"
def errAddFinalizer : String := "cannot add finalizer to Registration"

def reasonStartController : String := "EstablishComposite"
def reasonTerminateController : String := "TerminateManagedController"

/-- Go error values as the reconciler sees them: an API status error with
reason NotFound, any other error, or an error wrapped by `errors.Wrap`. -/
inductive GoError where
  | notFound (msg : String)
  | other (msg : String)
  | wrapped (cause : GoError) (msg : String)
  deriving DecidableEq, Repr

/-- The text of `err.Error()`; `errors.Wrap` prints `msg: cause`. -/
def GoError.Error : GoError → String
  | .notFound m => m
  | .other m => m
  | .wrapped c m => m ++ ": " ++ c.Error

/-- The check `kerrors.IsNotFound`: whether the error it is given is an API
status error with reason NotFound.  It reads the reason off the error itself
and does not unwrap, so a not-found error inside `errors.Wrap` is not one. -/
def IsNotFound : GoError → Bool
  | .notFound _ => true
  | .other _ => false
  | .wrapped _ _ => false

/-- The helper `resource.IgnoreNotFound`: nil for a not-found error, the
error itself otherwise. -/
def IgnoreNotFound (err : Option GoError) : Option GoError :=
  match err with
  | none => none
  | some e => if IsNotFound e then none else some e

/-- The helper `errors.Wrap`: nil stays nil. -/
def Wrap (err : Option GoError) (msg : String) : Option GoError :=
  match err with
  | none => none
  | some e => some (.wrapped e msg)

/-- The `spec.typeRef` of a Registration. -/
structure TypeReference where
  APIVersion : String
  Kind : String
  deriving DecidableEq, Repr

/-- The fields of a `v1alpha1.Registration` that `Reconcile` reads. -/
structure Registration where
  Name : String
  UID : String
  ResourceVersion : String
  Finalizers : List String
  DeletionTimestamp : Option Nat
  TypeRef : TypeReference
  Endpoint : String
  deriving DecidableEq, Repr

/-- The check `meta.WasDeleted`: the deletion timestamp is set. -/
def WasDeleted (d : Registration) : Bool := d.DeletionTimestamp.isSome

/-- Go `reconcile.Result`. -/
structure Result where
  Requeue : Bool := false
  RequeueAfter : Duration := 0
  deriving DecidableEq, Repr

/-- Go `schema.GroupVersionKind`. -/
structure GroupVersionKind where
  Group : String
  Version : String
  Kind : String
  deriving DecidableEq, Repr

/-- Go `schema.ParseGroupVersion`: the group and version of an `apiVersion`
string.  The empty string and `/` give the empty pair, a string without a
slash is a version of the core group, one slash separates group from version,
and more than one slash is an error. -/
def ParseGroupVersion (gv : String) : Option (String × String) :=
  if gv.data = [] ∨ gv.data = ['/'] then some ("", "")
  else
    match gv.data.count '/' with
    | 0 => some ("", gv)
    | 1 =>
      some (String.mk (gv.data.takeWhile (fun c => c != '/')),
        String.mk ((gv.data.dropWhile (fun c => c != '/')).drop 1))
    | _ => none

/-- Go `schema.FromAPIVersionAndKind`: the parsed group and version with the
kind, or the kind alone when the `apiVersion` does not parse. -/
def FromAPIVersionAndKind (apiVersion kind : String) : GroupVersionKind :=
  match ParseGroupVersion apiVersion with
  | some (g, v) => { Group := g, Version := v, Kind := kind }
  | none => { Group := "", Version := "", Kind := kind }

/-- What `Reconcile` hands to `controllerEngine.Start` besides the entry name:
the connector endpoint, the group/version/kind that the managed reconciler and
the watch are built for, and the name of its logger. -/
structure StartOptions where
  endpoint : String
  gvk : GroupVersionKind
  loggerName : String
  deriving DecidableEq, Repr

inductive EventType where
  | Normal
  | Warning
  deriving DecidableEq, Repr

/-- An `event.Event` handed to the recorder. -/
structure Event where
  type : EventType
  reason : String
  message : String
  deriving DecidableEq, Repr

/-- One call made by `Reconcile` on a collaborator. -/
inductive Effect where
  | debug (msg : String)
  | get (name : String)
  | engineIsRunning (entry : String)
  | engineStop (entry : String)
  | engineErr (entry : String)
  | engineStart (entry : String) (o : StartOptions)
  | addFinalizer (name : String)
  | statusUpdate (d : Registration)
  | event (name : String) (e : Event)
  deriving DecidableEq, Repr

/-- Whether an effect is a call on the `controllerEngine` interface. -/
def Effect.isEngineOp : Effect → Bool
  | .engineIsRunning _ => true
  | .engineStop _ => true
  | .engineErr _ => true
  | .engineStart _ _ => true
  | _ => false

def Effect.isEngineStart : Effect → Bool
  | .engineStart _ _ => true
  | _ => false

def Effect.isAddFinalizer : Effect → Bool
  | .addFinalizer _ => true
  | _ => false

def Effect.isStatusUpdate : Effect → Bool
  | .statusUpdate _ => true
  | _ => false

def Effect.isWarningEvent : Effect → Bool
  | .event _ e => e.type == .Warning
  | _ => false

def Effect.isNormalEvent : Effect → Bool
  | .event _ e => e.type == .Normal
  | _ => false

/-- The entry name of an engine operation. -/
def Effect.entryName : Effect → Option String
  | .engineIsRunning n => some n
  | .engineStop n => some n
  | .engineErr n => some n
  | .engineStart n _ => some n
  | _ => none

/-- A `Reconciler` with its collaborators.  `clientGet` is the store read,
`clientStatusUpdate` the status write, `controllerErr` and `controllerStart`
the engine, `addFinalizer` the `resource.Finalizer`.  The finalizer works on
the object through a pointer: it returns the finalizer list and the resource
version the object holds afterwards (the name, UID and spec of a stored object
are not its to change), with its error. -/
structure Reconciler where
  clientGet : String → Except GoError Registration
  clientStatusUpdate : Registration → Option GoError
  controllerErr : String → Option GoError
  controllerStart : String → StartOptions → Option GoError
  addFinalizer : Registration → List String × String × Option GoError

/-- What one call of `Reconcile` returns and does. -/
structure Outcome where
  result : Result
  err : Option GoError
  trace : List Effect

/-- The function `event.Normal`. -/
def Normal (reason message : String) : Event := ⟨.Normal, reason, message⟩

/-- The function `event.Warning`: the message is the error text. -/
def Warning (reason : String) (err : GoError) : Event := ⟨.Warning, reason, err.Error⟩

/-- The method `Reconciler.Reconcile` of `registration.go`. -/
def Reconciler.Reconcile (r : Reconciler) (req : String) : Outcome :=
  let t0 : List Effect := [.debug "Reconciling", .get req]
  match r.clientGet req with
  | .error err =>
    { result := {}
      err := Wrap (IgnoreNotFound (some err)) errGetRegistration
      trace := t0 ++ [.debug errGetRegistration] }
  | .ok d =>
    if WasDeleted d then
      { result := { RequeueAfter := tinyWait }
        err := none
        trace := t0 ++
          [ .engineStop ("managed/" ++ d.Name),
            .debug "Stopped managed resource controller",
            .event d.Name (Normal reasonTerminateController "Stopped managed resource controller") ] }
    else
      let t1 := t0 ++ [.addFinalizer d.Name]
      match r.addFinalizer d with
      | (_, _, some err) =>
        { result := { RequeueAfter := shortWait }
          err := none
          trace := t1 ++
            [ .debug errAddFinalizer,
              .event d.Name (Warning reasonStartController (.wrapped err errAddFinalizer)) ] }
      | (fs, rv, none) =>
        let d : Registration := { d with Finalizers := fs, ResourceVersion := rv }
        let t2 := t1 ++ [.engineErr ("managed/" ++ d.Name)] ++
          (match r.controllerErr ("managed/" ++ d.Name) with
           | some _ => [.debug "Managed resource controller encountered an error"]
           | none => [])
        let o : StartOptions :=
          { endpoint := d.Endpoint
            gvk := FromAPIVersionAndKind d.TypeRef.APIVersion d.TypeRef.Kind
            loggerName := "managed/" ++ d.Name }
        let t3 := t2 ++ [.engineStart ("managed/" ++ d.Name) o]
        match r.controllerStart ("managed/" ++ d.Name) o with
        | some err =>
          { result := { RequeueAfter := shortWait }
            err := none
            trace := t3 ++
              [ .debug errStartController,
                .event d.Name (Warning reasonStartController (.wrapped err errStartController)) ] }
        | none =>
          { result := { Requeue := false }
            err := Wrap (r.clientStatusUpdate d) errUpdateStatus
            trace := t3 ++
              [ .event d.Name (Normal reasonStartController "(Re)started managed resource controller"),
                .statusUpdate d ] }

/-- The condition under which Reconcile reaches its last statement: the
registration is found, is not marked for deletion, AddFinalizer succeeded and
engine Start succeeded. -/
def startSucceeded (r : Reconciler) (req : String) : Prop :=
  ∃ d, r.clientGet req = .ok d ∧ d.DeletionTimestamp.isSome = false ∧
    (r.addFinalizer d).2.2 = none ∧
    r.controllerStart ("managed/" ++ d.Name)
      { endpoint := d.Endpoint, gvk := FromAPIVersionAndKind d.TypeRef.APIVersion d.TypeRef.Kind,
        loggerName := "managed/" ++ d.Name } = none

/-! ## Bytes -/

/-- A Go `[]byte` or `string`: a sequence of bytes, each below 256. -/
abbrev Bytes := List Nat

/-- The bytes of an ASCII literal. -/
def ascii (s : String) : Bytes := s.data.map Char.toNat

/-! ## `unicode/utf8` -/

/-- Go `utf8.RuneError`, U+FFFD. -/
def RuneError : Nat := 0xFFFD

/-- Go `utf8.DecodeRune`: the first rune of `p` and its width in bytes;
`(RuneError, 1)` for an invalid encoding, `(RuneError, 0)` for empty input.
Masks and shifts are written as remainders and products. -/
def DecodeRune (p : Bytes) : Nat × Nat :=
  match p with
  | [] => (RuneError, 0)
  | p0 :: t0 =>
    if p0 < 0x80 then (p0, 1)
    else if p0 < 0xC2 ∨ 0xF4 < p0 then (RuneError, 1)
    else
      let lo := if p0 = 0xE0 then 0xA0 else if p0 = 0xF0 then 0x90 else 0x80
      let hi := if p0 = 0xED then 0x9F else if p0 = 0xF4 then 0x8F else 0xBF
      match t0 with
      | [] => (RuneError, 1)
      | b1 :: t1 =>
        if b1 < lo ∨ hi < b1 then (RuneError, 1)
        else if p0 < 0xE0 then (p0 % 32 * 64 + b1 % 64, 2)
        else
          match t1 with
          | [] => (RuneError, 1)
          | b2 :: t2 =>
            if b2 < 0x80 ∨ 0xBF < b2 then (RuneError, 1)
            else if p0 < 0xF0 then (p0 % 16 * 4096 + b1 % 64 * 64 + b2 % 64, 3)
            else
              match t2 with
              | [] => (RuneError, 1)
              | b3 :: _ =>
                if b3 < 0x80 ∨ 0xBF < b3 then (RuneError, 1)
                else (p0 % 8 * 262144 + b1 % 64 * 4096 + b2 % 64 * 64 + b3 % 64, 4)

/-- Go `utf8.AppendRune` on an empty buffer: the UTF-8 encoding of `r`;
surrogates and values above U+10FFFF are written as U+FFFD. -/
def EncodeRune (r : Nat) : Bytes :=
  if r < 0x80 then [r]
  else if r < 0x800 then [0xC0 + r / 64, 0x80 + r % 64]
  else if 0x10FFFF < r ∨ (0xD800 ≤ r ∧ r ≤ 0xDFFF) then [0xEF, 0xBF, 0xBD]
  else if r < 0x10000 then [0xE0 + r / 4096, 0x80 + r / 64 % 64, 0x80 + r % 64]
  else [0xF0 + r / 262144, 0x80 + r / 4096 % 64, 0x80 + r / 64 % 64, 0x80 + r % 64]

/-- One step of a Go loop `r, size := DecodeRune(s[i:]); ...; i += size`. -/
structure RuneSpan where
  rune : Nat
  size : Nat
  bytes : Bytes
  deriving DecidableEq, Repr

/-- The spans a Go loop `for i < len(s) { r, size := DecodeRune(s[i:]); i += size }`
visits.  The first argument counts the bytes of the current span still to be
passed over. -/
def runeSpansFrom : Nat → Bytes → List RuneSpan
  | _, [] => []
  | k + 1, _ :: rest => runeSpansFrom k rest
  | 0, b :: rest =>
    let d := DecodeRune (b :: rest)
    ⟨d.1, d.2, (b :: rest).take d.2⟩ :: runeSpansFrom (d.2 - 1) rest

def runeSpans (s : Bytes) : List RuneSpan := runeSpansFrom 0 s

/-- Whether a span is an invalid byte, which `DecodeRune` reports as
`(RuneError, 1)`. -/
def RuneSpan.invalid (x : RuneSpan) : Bool := x.rune = RuneError ∧ x.size = 1

/-- Go `utf8.Valid`, with every byte below 256. -/
def Valid (s : Bytes) : Bool :=
  s.all (fun b => decide (b < 256)) && (runeSpans s).all (fun x => !x.invalid)

/-! ## `encoding/base64`, `StdEncoding` -/

/-- The alphabet of `base64.StdEncoding`: the character of a 6-bit value. -/
def encodeStd (v : Nat) : Nat :=
  if v < 26 then 65 + v
  else if v < 52 then 71 + v
  else if v < 62 then v - 4
  else if v = 62 then 43
  else 47

/-- The `decodeMap` of `base64.StdEncoding`: the 6-bit value of a character,
`none` where the Go table holds `0xff`. -/
def decodeMap (c : Nat) : Option Nat :=
  if 65 ≤ c ∧ c ≤ 90 then some (c - 65)
  else if 97 ≤ c ∧ c ≤ 122 then some (c - 71)
  else if 48 ≤ c ∧ c ≤ 57 then some (c + 4)
  else if c = 43 then some 62
  else if c = 47 then some 63
  else none

/-- Go `base64.StdEncoding.EncodeToString`. -/
def EncodeToString : Bytes → Bytes
  | [] => []
  | [a] => [encodeStd (a / 4), encodeStd (a % 4 * 16), 61, 61]
  | [a, b] => [encodeStd (a / 4), encodeStd (a % 4 * 16 + b / 16), encodeStd (b % 16 * 4), 61]
  | a :: b :: c :: rest =>
    encodeStd (a / 4) :: encodeStd (a % 4 * 16 + b / 16) ::
      encodeStd (b % 16 * 4 + c / 64) :: encodeStd (c % 64) :: EncodeToString rest

/-- The inner loops of `decodeQuantum` that pass over `\n` and `\r`. -/
def skipNewlines : Bytes → Bytes
  | [] => []
  | c :: rest => if c = 10 ∨ c = 13 then skipNewlines rest else c :: rest

/-- The bytes that `decodeQuantum` writes for the collected 6-bit values
(`dlen - 1` of them). -/
def quantumBytes (q : List Nat) : Bytes :=
  match q with
  | [s0, s1] => [(s0 * 262144 + s1 * 4096) / 65536 % 256]
  | [s0, s1, s2] =>
    [(s0 * 262144 + s1 * 4096 + s2 * 64) / 65536 % 256,
     (s0 * 262144 + s1 * 4096 + s2 * 64) / 256 % 256]
  | [s0, s1, s2, s3] =>
    [(s0 * 262144 + s1 * 4096 + s2 * 64 + s3) / 65536 % 256,
     (s0 * 262144 + s1 * 4096 + s2 * 64 + s3) / 256 % 256,
     (s0 * 262144 + s1 * 4096 + s2 * 64 + s3) % 256]
  | _ => []

/-- Go `base64.StdEncoding.Decode` (non-strict, padded): `q` holds the 6-bit
values of the current quantum.  `none` is a `CorruptInputError`. -/
def decodeFrom : List Nat → Bytes → Option Bytes
  | [], [] => some []
  | _ :: _, [] => none
  | q, c :: rest =>
    match decodeMap c with
    | some v =>
      if q.length = 3 then (quantumBytes (q ++ [v]) ++ ·) <$> decodeFrom [] rest
      else decodeFrom (q ++ [v]) rest
    | none =>
      if c = 10 ∨ c = 13 then decodeFrom q rest
      else if c = 61 then
        if q.length = 2 then
          match skipNewlines rest with
          | c2 :: rest2 =>
            if c2 = 61 ∧ skipNewlines rest2 = [] then some (quantumBytes q) else none
          | [] => none
        else if q.length = 3 then
          if skipNewlines rest = [] then some (quantumBytes q) else none
        else none
      else none

/-- Go `base64.StdEncoding.DecodeString`. -/
def DecodeString (s : Bytes) : Option Bytes := decodeFrom [] s

/-! ## `encoding/json`: string literals -/

/-- The table `hex = "0123456789abcdef"` of `encoding/json`. -/
def hex (n : Nat) : Nat := if n < 10 then 48 + n else 87 + n

/-- What `appendString` (with HTML escaping, as `json.Marshal` sets it) writes
for one span of the source string: an ASCII byte is copied when it is in
`htmlSafeSet`, else escaped; an invalid byte becomes the six characters of the
escape for U+FFFD; U+2028 and U+2029 are escaped; any other rune is copied.
(The bytes 0x08 and 0x0C are written in the six-character form; Go releases
that write them in the two-character form produce text that `unquoteFrom`
reads back to the same bytes.) -/
def escapeSpan (x : RuneSpan) : Bytes :=
  if x.rune < 0x80 ∧ x.size = 1 then
    let b := x.rune
    if b = 0x22 ∨ b = 0x5C then [0x5C, b]
    else if b = 0x0A then [0x5C, 0x6E]
    else if b = 0x0D then [0x5C, 0x72]
    else if b = 0x09 then [0x5C, 0x74]
    else if b < 0x20 ∨ b = 0x3C ∨ b = 0x3E ∨ b = 0x26 then
      [0x5C, 0x75, 0x30, 0x30, hex (b / 16), hex (b % 16)]
    else [b]
  else if x.invalid then [0x5C, 0x75, 0x66, 0x66, 0x66, 0x64]
  else if x.rune = 0x2028 ∨ x.rune = 0x2029 then
    [0x5C, 0x75, 0x32, 0x30, 0x32, hex (x.rune % 16)]
  else x.bytes

/-- The characters `appendString` writes between the two quotes. -/
def escapeString (s : Bytes) : Bytes := (runeSpans s).flatMap escapeSpan

/-- Go `appendString`: a JSON string literal for `s`. -/
def appendString (s : Bytes) : Bytes := 0x22 :: escapeString s ++ [0x22]

/-- The value of a hexadecimal digit, as in `getu4`. -/
def hexVal (c : Nat) : Option Nat :=
  if 48 ≤ c ∧ c ≤ 57 then some (c - 48)
  else if 97 ≤ c ∧ c ≤ 102 then some (c - 87)
  else if 65 ≤ c ∧ c ≤ 70 then some (c - 55)
  else none

/-- Go `getu4`: the value of `\uXXXX` at the start of `s`, `none` (Go: -1)
when `s` does not start with such an escape. -/
def getu4 (s : Bytes) : Option Nat :=
  match s with
  | b :: u :: h1 :: h2 :: h3 :: h4 :: _ =>
    if b = 0x5C ∧ u = 0x75 then
      match hexVal h1, hexVal h2, hexVal h3, hexVal h4 with
      | some x1, some x2, some x3, some x4 => some (x1 * 4096 + x2 * 256 + x3 * 16 + x4)
      | _, _, _, _ => none
    else none
  | _ => none

/-- Go `utf16.IsSurrogate`. -/
def IsSurrogate (r : Nat) : Bool := 0xD800 ≤ r ∧ r < 0xE000

/-- Go `utf16.DecodeRune`: the rune of a surrogate pair, U+FFFD when the pair
is not valid. -/
def DecodeRune16 (r1 r2 : Nat) : Nat :=
  if 0xD800 ≤ r1 ∧ r1 < 0xDC00 ∧ 0xDC00 ≤ r2 ∧ r2 < 0xE000 then
    (r1 - 0xD800) * 1024 + (r2 - 0xDC00) + 0x10000
  else RuneError

/-- The loop of Go `unquoteBytes` over the characters between the quotes.  The
first argument counts the bytes still to be passed over after an escape or
a multi-byte rune has been read (Go: `r += 6`, `r += size`).  `none` is the
`ok = false` result. -/
def unquoteFrom : Nat → Bytes → Option Bytes
  | _, [] => some []
  | k + 1, _ :: rest => unquoteFrom k rest
  | 0, c :: rest =>
    if c = 0x5C then
      match rest with
      | [] => none
      | e :: _ =>
        if e = 0x22 ∨ e = 0x5C ∨ e = 0x2F ∨ e = 0x27 then (e :: ·) <$> unquoteFrom 1 rest
        else if e = 0x62 then (0x08 :: ·) <$> unquoteFrom 1 rest
        else if e = 0x66 then (0x0C :: ·) <$> unquoteFrom 1 rest
        else if e = 0x6E then (0x0A :: ·) <$> unquoteFrom 1 rest
        else if e = 0x72 then (0x0D :: ·) <$> unquoteFrom 1 rest
        else if e = 0x74 then (0x09 :: ·) <$> unquoteFrom 1 rest
        else if e = 0x75 then
          match getu4 (c :: rest) with
          | none => none
          | some rr =>
            if IsSurrogate rr then
              match getu4 (rest.drop 5) with
              | some rr1 =>
                if DecodeRune16 rr rr1 ≠ RuneError then
                  (EncodeRune (DecodeRune16 rr rr1) ++ ·) <$> unquoteFrom 11 rest
                else (EncodeRune RuneError ++ ·) <$> unquoteFrom 5 rest
              | none => (EncodeRune RuneError ++ ·) <$> unquoteFrom 5 rest
            else (EncodeRune rr ++ ·) <$> unquoteFrom 5 rest
        else none
    else if c = 0x22 ∨ c < 0x20 then none
    else if c < 0x80 then (c :: ·) <$> unquoteFrom 0 rest
    else
      let d := DecodeRune (c :: rest)
      (EncodeRune d.1 ++ ·) <$> unquoteFrom (d.2 - 1) rest

/-- Go `unquoteBytes` applied to the characters between the quotes of a
literal. -/
def unquote (raw : Bytes) : Option Bytes := unquoteFrom 0 raw

instance instDecidableEqExcept {ε α : Type} [DecidableEq ε] [DecidableEq α] :
    DecidableEq (Except ε α)
  | .ok a, .ok b =>
    if h : a = b then isTrue (by rw [h]) else isFalse (by intro h2; cases h2; exact h rfl)
  | .error a, .error b =>
    if h : a = b then isTrue (by rw [h]) else isFalse (by intro h2; cases h2; exact h rfl)
  | .ok _, .error _ => isFalse (by intro h; cases h)
  | .error _, .ok _ => isFalse (by intro h; cases h)

/-! ## `encoding/json`: the scanner -/

/-- The errors `Decoder.Decode` can return. -/
inductive DecodeError where
  | EOF
  | ErrUnexpectedEOF
  | SyntaxError
  | UnmarshalTypeError
  | CorruptInputError
  deriving DecidableEq, Repr

/-- A JSON value as the decoder walks it: number literals keep their text,
string literals are unquoted, object members keep their order. -/
inductive JSON where
  | null
  | bool (b : Bool)
  | num (lit : Bytes)
  | str (s : Bytes)
  | arr (xs : List JSON)
  | obj (kvs : List (Bytes × JSON))

/-- An entry of the scanner's `parseState` stack, with the members or elements
read so far.  Go's `parseObjectKey` is `objKey` while the key is read and
`objColon` once it is read; `parseObjectValue` is `objValue` and then
`objComma`; `parseArrayValue` is `arrValue` and then `arrComma`. -/
inductive ParseState where
  | objKey (acc : List (Bytes × JSON))
  | objColon (acc : List (Bytes × JSON)) (key : Bytes)
  | objValue (acc : List (Bytes × JSON)) (key : Bytes)
  | objComma (acc : List (Bytes × JSON))
  | arrValue (acc : List JSON)
  | arrComma (acc : List JSON)

/-- The scanner's `step` function, with the text of the literal being read.
`Literal want v` stands for `stateT`, `stateTr`, ... : the characters still
expected and the value they spell. -/
inductive Step where
  | BeginValueOrEmpty
  | BeginValue
  | BeginStringOrEmpty
  | BeginString
  | EndValue
  | InString (raw : Bytes)
  | InStringEsc (raw : Bytes)
  | InStringEscU (raw : Bytes) (n : Nat)
  | Neg (raw : Bytes)
  | N1 (raw : Bytes)
  | N0 (raw : Bytes)
  | Dot (raw : Bytes)
  | Dot0 (raw : Bytes)
  | E (raw : Bytes)
  | ESign (raw : Bytes)
  | E0 (raw : Bytes)
  | Literal (want : Bytes) (v : JSON)

/-- The `scanner` of `encoding/json`. -/
structure Scanner where
  step : Step
  parseState : List ParseState

/-- What one byte does to the scanner: go on, end of the top-level value
(Go: `scanEnd`), or a malformed-input error (Go: `scanError`). -/
inductive Scan where
  | continue (s : Scanner)
  | finish (v : JSON)
  | error

def maxNestingDepth : Nat := 10000

def isSpace (c : Nat) : Bool := c = 0x20 ∨ c = 0x09 ∨ c = 0x0D ∨ c = 0x0A

def isDigit (c : Nat) : Bool := 0x30 ≤ c ∧ c ≤ 0x39

def isHexDigit (c : Nat) : Bool :=
  (0x30 ≤ c ∧ c ≤ 0x39) ∨ (0x61 ≤ c ∧ c ≤ 0x66) ∨ (0x41 ≤ c ∧ c ≤ 0x46)

/-- A value has been read: hand it to the enclosing array or object, or end
the scan when there is none. -/
def endValue (ps : List ParseState) (v : JSON) : Scan :=
  match ps with
  | [] => .finish v
  | .objKey acc :: ps =>
    match v with
    | .str k => .continue ⟨.EndValue, .objColon acc k :: ps⟩
    | _ => .error
  | .objValue acc k :: ps => .continue ⟨.EndValue, .objComma (acc ++ [(k, v)]) :: ps⟩
  | .arrValue acc :: ps => .continue ⟨.EndValue, .arrComma (acc ++ [v]) :: ps⟩
  | _ => .error

/-- Go `stateEndValue` below the top level. -/
def stateEndValue (ps : List ParseState) (c : Nat) : Scan :=
  if isSpace c then .continue ⟨.EndValue, ps⟩
  else
    match ps with
    | .objColon acc k :: ps =>
      if c = 0x3A then .continue ⟨.BeginValue, .objValue acc k :: ps⟩ else .error
    | .objComma acc :: ps =>
      if c = 0x2C then .continue ⟨.BeginString, .objKey acc :: ps⟩
      else if c = 0x7D then endValue ps (.obj acc)
      else .error
    | .arrComma acc :: ps =>
      if c = 0x2C then .continue ⟨.BeginValue, .arrValue acc :: ps⟩
      else if c = 0x5D then endValue ps (.arr acc)
      else .error
    | _ => .error

/-- A number literal ends at `c`: at the top level the value is complete
(`stateEndTop` returns `scanEnd` whatever `c` is), below it `c` is read by
`stateEndValue`. -/
def endNumber (ps : List ParseState) (raw : Bytes) (c : Nat) : Scan :=
  match endValue ps (.num raw) with
  | .continue s => stateEndValue s.parseState c
  | r => r

/-- Go `stateBeginValue`. -/
def stateBeginValue (ps : List ParseState) (c : Nat) : Scan :=
  if isSpace c then .continue ⟨.BeginValue, ps⟩
  else if c = 0x7B then
    if ps.length + 1 ≤ maxNestingDepth then .continue ⟨.BeginStringOrEmpty, .objKey [] :: ps⟩
    else .error
  else if c = 0x5B then
    if ps.length + 1 ≤ maxNestingDepth then .continue ⟨.BeginValueOrEmpty, .arrValue [] :: ps⟩
    else .error
  else if c = 0x22 then .continue ⟨.InString [], ps⟩
  else if c = 0x2D then .continue ⟨.Neg [c], ps⟩
  else if c = 0x30 then .continue ⟨.N0 [c], ps⟩
  else if c = 0x74 then .continue ⟨.Literal [0x72, 0x75, 0x65] (.bool true), ps⟩
  else if c = 0x66 then .continue ⟨.Literal [0x61, 0x6C, 0x73, 0x65] (.bool false), ps⟩
  else if c = 0x6E then .continue ⟨.Literal [0x75, 0x6C, 0x6C] .null, ps⟩
  else if 0x31 ≤ c ∧ c ≤ 0x39 then .continue ⟨.N1 [c], ps⟩
  else .error

/-- Go `stateBeginString`. -/
def stateBeginString (ps : List ParseState) (c : Nat) : Scan :=
  if isSpace c then .continue ⟨.BeginString, ps⟩
  else if c = 0x22 then .continue ⟨.InString [], ps⟩
  else .error

/-- Go `state0`: after a leading `0` or the integer digits. -/
def state0 (ps : List ParseState) (raw : Bytes) (c : Nat) : Scan :=
  if c = 0x2E then .continue ⟨.Dot (raw ++ [c]), ps⟩
  else if c = 0x65 ∨ c = 0x45 then .continue ⟨.E (raw ++ [c]), ps⟩
  else endNumber ps raw c

/-- Go `stateESign`. -/
def stateESign (ps : List ParseState) (raw : Bytes) (c : Nat) : Scan :=
  if isDigit c then .continue ⟨.E0 (raw ++ [c]), ps⟩ else .error

/-- One call `s.step(s, c)` of the scanner. -/
def Scanner.next (s : Scanner) (c : Nat) : Scan :=
  match s.step with
  | .BeginValueOrEmpty =>
    if isSpace c then .continue s
    else if c = 0x5D then
      match s.parseState with
      | .arrValue acc :: ps => endValue ps (.arr acc)
      | _ => .error
    else stateBeginValue s.parseState c
  | .BeginValue => stateBeginValue s.parseState c
  | .BeginStringOrEmpty =>
    if isSpace c then .continue s
    else if c = 0x7D then
      match s.parseState with
      | .objKey acc :: ps => endValue ps (.obj acc)
      | _ => .error
    else stateBeginString s.parseState c
  | .BeginString => stateBeginString s.parseState c
  | .EndValue => stateEndValue s.parseState c
  | .InString raw =>
    if c = 0x22 then
      match unquote raw with
      | some t => endValue s.parseState (.str t)
      | none => .error
    else if c = 0x5C then .continue ⟨.InStringEsc (raw ++ [c]), s.parseState⟩
    else if c < 0x20 then .error
    else .continue ⟨.InString (raw ++ [c]), s.parseState⟩
  | .InStringEsc raw =>
    if c = 0x62 ∨ c = 0x66 ∨ c = 0x6E ∨ c = 0x72 ∨ c = 0x74 ∨ c = 0x5C ∨ c = 0x2F ∨ c = 0x22 then
      .continue ⟨.InString (raw ++ [c]), s.parseState⟩
    else if c = 0x75 then .continue ⟨.InStringEscU (raw ++ [c]) 0, s.parseState⟩
    else .error
  | .InStringEscU raw n =>
    if isHexDigit c then
      if n = 3 then .continue ⟨.InString (raw ++ [c]), s.parseState⟩
      else .continue ⟨.InStringEscU (raw ++ [c]) (n + 1), s.parseState⟩
    else .error
  | .Neg raw =>
    if c = 0x30 then .continue ⟨.N0 (raw ++ [c]), s.parseState⟩
    else if 0x31 ≤ c ∧ c ≤ 0x39 then .continue ⟨.N1 (raw ++ [c]), s.parseState⟩
    else .error
  | .N1 raw =>
    if isDigit c then .continue ⟨.N1 (raw ++ [c]), s.parseState⟩
    else state0 s.parseState raw c
  | .N0 raw => state0 s.parseState raw c
  | .Dot raw =>
    if isDigit c then .continue ⟨.Dot0 (raw ++ [c]), s.parseState⟩ else .error
  | .Dot0 raw =>
    if isDigit c then .continue ⟨.Dot0 (raw ++ [c]), s.parseState⟩
    else if c = 0x65 ∨ c = 0x45 then .continue ⟨.E (raw ++ [c]), s.parseState⟩
    else endNumber s.parseState raw c
  | .E raw =>
    if c = 0x2B ∨ c = 0x2D then .continue ⟨.ESign (raw ++ [c]), s.parseState⟩
    else stateESign s.parseState raw c
  | .ESign raw => stateESign s.parseState raw c
  | .E0 raw =>
    if isDigit c then .continue ⟨.E0 (raw ++ [c]), s.parseState⟩
    else endNumber s.parseState raw c
  | .Literal want v =>
    match want with
    | [] => .error
    | [w] => if c = w then endValue s.parseState v else .error
    | w :: ws => if c = w then .continue ⟨.Literal ws v, s.parseState⟩ else .error

/-- The end of the input in `Decoder.readValue`: a number at the top level is
complete, white space alone is `io.EOF`, anything else is
`io.ErrUnexpectedEOF`. -/
def Scanner.eof (s : Scanner) : Except DecodeError JSON :=
  match s.parseState, s.step with
  | [], .BeginValue => .error .EOF
  | [], .N1 raw => .ok (.num raw)
  | [], .N0 raw => .ok (.num raw)
  | [], .Dot0 raw => .ok (.num raw)
  | [], .E0 raw => .ok (.num raw)
  | _, _ => .error .ErrUnexpectedEOF

/-- The loop of `Decoder.readValue`: feed the body to the scanner until the
first value ends. -/
def scanFrom : Scanner → Bytes → Except DecodeError JSON
  | s, [] => s.eof
  | s, c :: rest =>
    match s.next c with
    | .continue s1 => scanFrom s1 rest
    | .finish v => .ok v
    | .error => .error .SyntaxError

/-- Go on with the rest of the body after one step of the scanner. -/
def resume (r : Scan) (rest : Bytes) : Except DecodeError JSON :=
  match r with
  | .continue s => scanFrom s rest
  | .finish v => .ok v
  | .error => .error .SyntaxError

/-- The text `t` is read by the scanner as the value `v`, wherever a value
may begin, when `d` further levels of nesting are left. -/
def Reads (d : Nat) (t : Bytes) (v : JSON) : Prop :=
  ∀ (ps : List ParseState) (rest : Bytes), ps.length + d ≤ maxNestingDepth →
    scanFrom ⟨.BeginValue, ps⟩ (t ++ rest) = resume (endValue ps v) rest

/-- The first JSON value of a body, as `Decoder.Decode` reads it. -/
def readValue (body : Bytes) : Except DecodeError JSON :=
  scanFrom ⟨.BeginValue, []⟩ body

/-! ## `encoding/json`: storing values (`decodeState.literalStore`, `object`,
`array`) for the kinds of field the wire types have -/

/-- Store into a `bool`: `null` leaves the field as it is. -/
def decodeBool (v : JSON) (cur : Bool) : Except DecodeError Bool :=
  match v with
  | .bool b => .ok b
  | .null => .ok cur
  | _ => .error .UnmarshalTypeError

/-- Store into a `string`. -/
def decodeString (v : JSON) (cur : Bytes) : Except DecodeError Bytes :=
  match v with
  | .str s => .ok s
  | .null => .ok cur
  | _ => .error .UnmarshalTypeError

/-- Go `strconv.ParseUint(s, 10, 64)` followed by `OverflowUint` for `uint8`,
on a JSON number literal: digits only, value at most 255. -/
def parseUint8 (lit : Bytes) : Option Nat :=
  if lit.all isDigit ∧ lit ≠ [] then
    let n := lit.foldl (fun a c => a * 10 + (c - 0x30)) 0
    if n ≤ 255 then some n else none
  else none

/-- Store into an element of a `[]byte`. -/
def decodeUint8 (v : JSON) : Except DecodeError Nat :=
  match v with
  | .num lit =>
    match parseUint8 lit with
    | some n => .ok n
    | none => .error .UnmarshalTypeError
  | .null => .ok 0
  | _ => .error .UnmarshalTypeError

/-- Store into a fresh `[]byte`: a string is base64, an array is taken
element by element, `null` is the nil slice. -/
def decodeBytes (v : JSON) : Except DecodeError Bytes :=
  match v with
  | .str s =>
    match DecodeString s with
    | some b => .ok b
    | none => .error .CorruptInputError
  | .arr xs => xs.mapM decodeUint8
  | .null => .ok []
  | _ => .error .UnmarshalTypeError

/-- Go `foldRune` as far as it can reach an ASCII letter: the Kelvin sign
folds to `K`, the long s to `S`; every other rune outside ASCII folds to a rune
outside ASCII and is left in place here. -/
def foldRune (r : Nat) : Nat :=
  if r = 0x212A then 0x4B else if r = 0x17F then 0x53 else r

/-- Go `foldName`: the case-folded form of a key, span by span. -/
def foldName (s : Bytes) : Bytes :=
  (runeSpans s).flatMap fun x =>
    if x.rune < 0x80 ∧ x.size = 1 then
      [if 0x61 ≤ x.rune ∧ x.rune ≤ 0x7A then x.rune - 0x20 else x.rune]
    else EncodeRune (foldRune x.rune)

/-- The field a key selects in `decodeState.object`: an exact match of a field
name first, a match of the folded names otherwise. -/
def lookupField (names : List Bytes) (key : Bytes) : Option Bytes :=
  match names.find? (fun n => n = key) with
  | some n => some n
  | none => names.find? (fun n => foldName n = foldName key)

/-- Go `decodeState.object` into a struct: the members are stored in order by
`set`; `null` leaves the struct as it is; any other value is an
`UnmarshalTypeError`.  The first error ends the walk: Go goes on and returns
the first error it saved, and the callers here drop the struct on any error. -/
def decodeStruct {σ : Type} (set : σ → Bytes → JSON → Except DecodeError σ)
    (v : JSON) (cur : σ) : Except DecodeError σ :=
  match v with
  | .obj kvs => kvs.foldlM (fun s kv => set s kv.1 kv.2) cur
  | .null => .ok cur
  | _ => .error .UnmarshalTypeError

/-! ## `pkg/models` -/

/-- The type `models.ConnectionDetails`, `map[string][]byte`: a list of
entries with distinct keys. -/
abbrev ConnectionDetails := List (Bytes × Bytes)

/-- The map read `m[k]`. -/
def ConnectionDetails.get (m : ConnectionDetails) (k : Bytes) : Option Bytes :=
  (m.find? (fun kv => kv.1 = k)).map (fun kv => kv.2)

/-- The map write `m[k] = v`. -/
def ConnectionDetails.set (m : ConnectionDetails) (k v : Bytes) : ConnectionDetails :=
  if m.any (fun kv => kv.1 = k) then m.map (fun kv => if kv.1 = k then (k, v) else kv)
  else m ++ [(k, v)]

/-- The type `models.ExternalObservation`. -/
structure ExternalObservation where
  ResourceExists : Bool := false
  ResourceUpToDate : Bool := false
  ResourceLateInitialized : Bool := false
  ConnectionDetails : ConnectionDetails := []
  deriving DecidableEq, Repr

/-- The type `models.ObservationResponse`. -/
structure ObservationResponse where
  External : ExternalObservation := {}
  ErrMessage : Bytes := []
  deriving DecidableEq, Repr

/-- The type `models.ExternalUpdate`. -/
structure ExternalUpdate where
  ConnectionDetails : ConnectionDetails := []
  deriving DecidableEq, Repr

/-- The type `models.UpdateResponse`. -/
structure UpdateResponse where
  External : ExternalUpdate := {}
  ErrMessage : Bytes := []
  deriving DecidableEq, Repr

/-- Store into a `ConnectionDetails` field: an object is written member by
member into the map the field holds; `null` sets the nil map. -/
def decodeConnectionDetails (v : JSON) (cur : ConnectionDetails) :
    Except DecodeError ConnectionDetails :=
  match v with
  | .obj kvs => kvs.foldlM (fun m kv => (fun b => m.set kv.1 b) <$> decodeBytes kv.2) cur
  | .null => .ok []
  | _ => .error .UnmarshalTypeError

/-- The JSON names of the fields of `ExternalObservation`. -/
def externalObservationFields : List Bytes :=
  [ascii "resourceExists", ascii "resourceUpToDate", ascii "resourceLateInitialized",
   ascii "connectionDetails"]

/-- One member of an object stored into an `ExternalObservation`. -/
def ExternalObservation.setField (o : ExternalObservation) (key : Bytes) (v : JSON) :
    Except DecodeError ExternalObservation :=
  match lookupField externalObservationFields key with
  | none => .ok o
  | some f =>
    if f = ascii "resourceExists" then
      (fun b => { o with ResourceExists := b }) <$> decodeBool v o.ResourceExists
    else if f = ascii "resourceUpToDate" then
      (fun b => { o with ResourceUpToDate := b }) <$> decodeBool v o.ResourceUpToDate
    else if f = ascii "resourceLateInitialized" then
      (fun b => { o with ResourceLateInitialized := b }) <$>
        decodeBool v o.ResourceLateInitialized
    else
      (fun m => { o with ConnectionDetails := m }) <$>
        decodeConnectionDetails v o.ConnectionDetails

/-- The JSON names of the fields of `ObservationResponse`. -/
def observationResponseFields : List Bytes :=
  [ascii "externalObservation", ascii "errMessage"]

/-- One member of an object stored into an `ObservationResponse`. -/
def ObservationResponse.setField (r : ObservationResponse) (key : Bytes) (v : JSON) :
    Except DecodeError ObservationResponse :=
  match lookupField observationResponseFields key with
  | none => .ok r
  | some f =>
    if f = ascii "externalObservation" then
      (fun e => { r with External := e }) <$>
        decodeStruct ExternalObservation.setField v r.External
    else
      (fun s => { r with ErrMessage := s }) <$> decodeString v r.ErrMessage

/-- One member of an object stored into an `ExternalUpdate`. -/
def ExternalUpdate.setField (o : ExternalUpdate) (key : Bytes) (v : JSON) :
    Except DecodeError ExternalUpdate :=
  match lookupField [ascii "connectionDetails"] key with
  | none => .ok o
  | some _ =>
    (fun m => { o with ConnectionDetails := m }) <$>
      decodeConnectionDetails v o.ConnectionDetails

/-- The JSON names of the fields of `UpdateResponse`. -/
def updateResponseFields : List Bytes :=
  [ascii "externalUpdate", ascii "errMessage"]

/-- One member of an object stored into an `UpdateResponse`. -/
def UpdateResponse.setField (r : UpdateResponse) (key : Bytes) (v : JSON) :
    Except DecodeError UpdateResponse :=
  match lookupField updateResponseFields key with
  | none => .ok r
  | some f =>
    if f = ascii "externalUpdate" then
      (fun e => { r with External := e }) <$>
        decodeStruct ExternalUpdate.setField v r.External
    else
      (fun s => { r with ErrMessage := s }) <$> decodeString v r.ErrMessage

/-- The call `json.NewDecoder(body).Decode(&res)` of `post`, with `res`
holding a pointer to an `ObservationResponse` that is `cur`: the first value
of the body is read and stored.  A top-level `null` is stored into the
interface variable `res` itself and leaves the response untouched. -/
def ObservationResponse.Decode (body : Bytes) (cur : ObservationResponse) :
    Except DecodeError ObservationResponse :=
  match readValue body with
  | .error e => .error e
  | .ok v => decodeStruct ObservationResponse.setField v cur

/-- The call `json.NewDecoder(body).Decode(&res)` of `post` for an
`UpdateResponse`. -/
def UpdateResponse.Decode (body : Bytes) (cur : UpdateResponse) :
    Except DecodeError UpdateResponse :=
  match readValue body with
  | .error e => .error e
  | .ok v => decodeStruct UpdateResponse.setField v cur

/-! ## `encoding/json`: `Marshal` of the wire types -/

/-- The members of an object, a comma before each but the first. -/
def joinMembers : List Bytes → Bytes
  | [] => []
  | [m] => m
  | m :: ms => m ++ 0x2C :: joinMembers ms

/-- The members of an object, separated by commas, between braces. -/
def writeObject (members : List Bytes) : Bytes :=
  0x7B :: joinMembers members ++ [0x7D]

/-- One struct member: the quoted field name, a colon, the value. -/
def member (name : String) (value : Bytes) : Bytes :=
  0x22 :: ascii name ++ [0x22, 0x3A] ++ value

/-- The text of a `[]byte`: its base64 form between quotes. -/
def writeBytes (b : Bytes) : Bytes := 0x22 :: EncodeToString b ++ [0x22]

/-- The text of a boolean. -/
def writeBool (b : Bool) : Bytes := if b then ascii "true" else ascii "false"

/-- The text of a JSON object with the given string keys and `[]byte` values,
in the order given. -/
def writeEntries (m : List (Bytes × Bytes)) : Bytes :=
  writeObject (m.map fun kv => appendString kv.1 ++ [0x3A] ++ writeBytes kv.2)

/-- Go `json.Marshal` of a `ConnectionDetails`: the keys in sorted order,
each value as a base64 string. -/
def ConnectionDetails.Marshal (m : ConnectionDetails) : Bytes :=
  writeEntries (m.insertionSort (fun a b => a.1 ≤ b.1))

/-- Go `json.Marshal` of an `ExternalObservation`: every field is tagged
`omitempty`, so a false boolean and an empty map are left out. -/
def ExternalObservation.Marshal (o : ExternalObservation) : Bytes :=
  writeObject (
    (if o.ResourceExists then [member "resourceExists" (writeBool true)] else []) ++
    (if o.ResourceUpToDate then [member "resourceUpToDate" (writeBool true)] else []) ++
    (if o.ResourceLateInitialized then
      [member "resourceLateInitialized" (writeBool true)] else []) ++
    (if o.ConnectionDetails ≠ [] then
      [member "connectionDetails" o.ConnectionDetails.Marshal] else []))

/-- Go `json.Marshal` of an `ObservationResponse`: `omitempty` never leaves a
struct out, so `externalObservation` is always written; an empty `errMessage`
is left out. -/
def ObservationResponse.Marshal (r : ObservationResponse) : Bytes :=
  writeObject (
    [member "externalObservation" r.External.Marshal] ++
    (if r.ErrMessage ≠ [] then [member "errMessage" (appendString r.ErrMessage)] else []))

/-! ## `internal/client/client.go` -/

/-- The instance handed to the client, a `resource.Managed`, as far as the
client uses it: the outcome of `json.Marshal` on it. -/
structure Managed where
  json : Option Bytes

/-- An HTTP request issued through `http.Client.Post`. -/
structure Request where
  method : String
  url : String
  contentType : String
  body : Bytes
  deriving DecidableEq, Repr

/-- An HTTP response as `post` reads it. -/
structure Response where
  StatusCode : Nat
  Body : Bytes
  deriving DecidableEq, Repr

/-- The errors `post` returns. -/
inductive ClientError where
  | marshal
  | transport (msg : String)
  | decode (e : DecodeError)
  deriving DecidableEq, Repr

/-- The type `ControllerClient`: the endpoint and the HTTP client, which
answers a request with a response or a transport error. -/
structure ControllerClient where
  endpoint : String
  client : Request → Except String Response

/-- Go `json.Marshal` of a request struct `{Managed: mg}` with the tag
`json:"managed"`. -/
def marshalRequest (mg : Managed) : Option Bytes :=
  mg.json.map fun j => writeObject [member "managed" j]

/-- The method `ControllerClient.post`: the requests issued, and either the
error returned or the response struct as `Decode` leaves it.  `decode` is
`Decode` into the struct `res` points to. -/
def ControllerClient.post {α : Type} (c : ControllerClient) (mg : Managed)
    (decode : Bytes → Except DecodeError α) (path : String) :
    List Request × Except ClientError α :=
  match marshalRequest mg with
  | none => ([], .error .marshal)
  | some payload =>
    let req : Request := ⟨"POST", c.endpoint ++ path, "application/json", payload⟩
    match c.client req with
    | .error e => ([req], .error (.transport e))
    | .ok resp =>
      match decode resp.Body with
      | .error e => ([req], .error (.decode e))
      | .ok res => ([req], .ok res)

/-- The type `managed.ExternalObservation` of crossplane-runtime. -/
structure ManagedExternalObservation where
  ResourceExists : Bool := false
  ResourceUpToDate : Bool := false
  ResourceLateInitialized : Bool := false
  ConnectionDetails : ConnectionDetails := []
  deriving DecidableEq, Repr

/-- The type `managed.ExternalUpdate` of crossplane-runtime. -/
structure ManagedExternalUpdate where
  ConnectionDetails : ConnectionDetails := []
  deriving DecidableEq, Repr

/-- What a client operation returns and does. -/
structure Call (α : Type) where
  requests : List Request
  value : α
  err : Option ClientError

/-- The method `ControllerClient.Observe`. -/
def ControllerClient.Observe (c : ControllerClient) (mg : Managed) :
    Call ManagedExternalObservation :=
  match c.post mg (fun body => ObservationResponse.Decode body {}) "/observe" with
  | (reqs, .error err) => ⟨reqs, {}, some err⟩
  | (reqs, .ok o) =>
    ⟨reqs,
     { ResourceExists := o.External.ResourceExists
       ResourceUpToDate := o.External.ResourceUpToDate
       ResourceLateInitialized := o.External.ResourceLateInitialized
       ConnectionDetails := o.External.ConnectionDetails },
     none⟩

/-- The method `ControllerClient.Update`. -/
def ControllerClient.Update (c : ControllerClient) (mg : Managed) :
    Call ManagedExternalUpdate :=
  match c.post mg (fun body => UpdateResponse.Decode body {}) "/update" with
  | (reqs, .error err) => ⟨reqs, {}, some err⟩
  | (reqs, .ok o) => ⟨reqs, { ConnectionDetails := o.External.ConnectionDetails }, none⟩

/-- Modelled from the spec: the type `models.ExternalCreation`, whose file
`creation.go` is not among the sources; the wire contract gives
`externalCreation` the single member `connectionDetails`. -/
structure ExternalCreation where
  ConnectionDetails : ConnectionDetails := []
  deriving DecidableEq, Repr

/-- Modelled from the spec: the type `models.CreationResponse`, whose file
`creation.go` is not among the sources; the wire contract gives the response
of `/create` the members `externalCreation` and `errMessage`. -/
structure CreationResponse where
  External : ExternalCreation := {}
  ErrMessage : Bytes := []
  deriving DecidableEq, Repr

/-- Modelled from the spec: the type `models.DeletionResponse`, whose file
`deletion.go` is not among the sources; the wire contract gives the response
of `/delete` the single member `errMessage`. -/
structure DeletionResponse where
  ErrMessage : Bytes := []
  deriving DecidableEq, Repr

/-- One member of an object stored into an `ExternalCreation`. -/
def ExternalCreation.setField (o : ExternalCreation) (key : Bytes) (v : JSON) :
    Except DecodeError ExternalCreation :=
  match lookupField [ascii "connectionDetails"] key with
  | none => .ok o
  | some _ =>
    (fun m => { o with ConnectionDetails := m }) <$>
      decodeConnectionDetails v o.ConnectionDetails

/-- One member of an object stored into a `CreationResponse`. -/
def CreationResponse.setField (r : CreationResponse) (key : Bytes) (v : JSON) :
    Except DecodeError CreationResponse :=
  match lookupField [ascii "externalCreation", ascii "errMessage"] key with
  | none => .ok r
  | some f =>
    if f = ascii "externalCreation" then
      (fun e => { r with External := e }) <$>
        decodeStruct ExternalCreation.setField v r.External
    else
      (fun s => { r with ErrMessage := s }) <$> decodeString v r.ErrMessage

/-- One member of an object stored into a `DeletionResponse`. -/
def DeletionResponse.setField (r : DeletionResponse) (key : Bytes) (v : JSON) :
    Except DecodeError DeletionResponse :=
  match lookupField [ascii "errMessage"] key with
  | none => .ok r
  | some _ => (fun s => { r with ErrMessage := s }) <$> decodeString v r.ErrMessage

/-- The call `json.NewDecoder(body).Decode(&res)` of `post` for a
`CreationResponse`. -/
def CreationResponse.Decode (body : Bytes) (cur : CreationResponse) :
    Except DecodeError CreationResponse :=
  match readValue body with
  | .error e => .error e
  | .ok v => decodeStruct CreationResponse.setField v cur

/-- The call `json.NewDecoder(body).Decode(&res)` of `post` for a
`DeletionResponse`. -/
def DeletionResponse.Decode (body : Bytes) (cur : DeletionResponse) :
    Except DecodeError DeletionResponse :=
  match readValue body with
  | .error e => .error e
  | .ok v => decodeStruct DeletionResponse.setField v cur

/-- The type `managed.ExternalCreation` of crossplane-runtime. -/
structure ManagedExternalCreation where
  ConnectionDetails : ConnectionDetails := []
  deriving DecidableEq, Repr

/-- The method `ControllerClient.Create`. -/
def ControllerClient.Create (c : ControllerClient) (mg : Managed) :
    Call ManagedExternalCreation :=
  match c.post mg (fun body => CreationResponse.Decode body {}) "/create" with
  | (reqs, .error err) => ⟨reqs, {}, some err⟩
  | (reqs, .ok o) => ⟨reqs, { ConnectionDetails := o.External.ConnectionDetails }, none⟩

/-- The method `ControllerClient.Delete`: it returns an error only. -/
def ControllerClient.Delete (c : ControllerClient) (mg : Managed) : Call Unit :=
  match c.post mg (fun body => DeletionResponse.Decode body {}) "/delete" with
  | (reqs, .error err) => ⟨reqs, (), some err⟩
  | (reqs, .ok _) => ⟨reqs, (), none⟩


/-! ## Response bodies with members left out -/

/-- The members a body carries inside `externalObservation`; `none` is a
member that is absent. -/
structure ExternalMembers where
  resourceExists : Option Bool := none
  resourceUpToDate : Option Bool := none
  resourceLateInitialized : Option Bool := none
  connectionDetails : Option (List (Bytes × Bytes)) := none

/-- The members a response body carries; `none` is a member that is absent. -/
structure ResponseMembers where
  externalObservation : Option ExternalMembers := none
  errMessage : Option Bytes := none

/-- A member that is written when it is present. -/
def optMember (name : String) (value : Option Bytes) : List Bytes :=
  match value with
  | none => []
  | some t => [member name t]

/-- The JSON object that carries exactly the members present in `f`. -/
def ExternalMembers.body (f : ExternalMembers) : Bytes :=
  writeObject (
    optMember "resourceExists" (f.resourceExists.map writeBool) ++
    optMember "resourceUpToDate" (f.resourceUpToDate.map writeBool) ++
    optMember "resourceLateInitialized" (f.resourceLateInitialized.map writeBool) ++
    optMember "connectionDetails" (f.connectionDetails.map writeEntries))

/-- The JSON object body that carries exactly the members present in `f`. -/
def ResponseMembers.body (f : ResponseMembers) : Bytes :=
  writeObject (
    optMember "externalObservation" (f.externalObservation.map ExternalMembers.body) ++
    optMember "errMessage" (f.errMessage.map appendString))

/-- The observation the members stand for: an absent boolean is false, absent
connection details are the empty map. -/
def ExternalMembers.value (f : ExternalMembers) : ExternalObservation :=
  { ResourceExists := f.resourceExists.getD false
    ResourceUpToDate := f.resourceUpToDate.getD false
    ResourceLateInitialized := f.resourceLateInitialized.getD false
    ConnectionDetails := f.connectionDetails.getD [] }

/-- The response the members stand for: an absent `errMessage` is the empty
string, an absent `externalObservation` the zero observation. -/
def ResponseMembers.value (f : ResponseMembers) : ObservationResponse :=
  { External := (f.externalObservation.map ExternalMembers.value).getD {}
    ErrMessage := f.errMessage.getD [] }

/-- Map entries a Go map can hold and JSON can carry unchanged: distinct keys,
each valid UTF-8, and values made of bytes. -/
def EntriesOK (m : List (Bytes × Bytes)) : Prop :=
  (m.map (fun kv => kv.1)).Nodup ∧ ∀ kv ∈ m, Valid kv.1 = true ∧ ∀ b ∈ kv.2, b < 256

instance (m : List (Bytes × Bytes)) : Decidable (EntriesOK m) := by
  unfold EntriesOK
  infer_instance

/-- The members of a body are well formed: `errMessage` is valid UTF-8 and the
connection details are `EntriesOK`. -/
def ResponseMembers.OK (f : ResponseMembers) : Prop :=
  (∀ s, f.errMessage = some s → Valid s = true) ∧
    ∀ e, f.externalObservation = some e → ∀ m, e.connectionDetails = some m → EntriesOK m

/-- The members `json.Marshal` writes for an `ExternalObservation`. -/
def ExternalObservation.members (o : ExternalObservation) : ExternalMembers :=
  { resourceExists := if o.ResourceExists then some true else none
    resourceUpToDate := if o.ResourceUpToDate then some true else none
    resourceLateInitialized := if o.ResourceLateInitialized then some true else none
    connectionDetails :=
      if o.ConnectionDetails ≠ [] then
        some (o.ConnectionDetails.insertionSort (fun a b => a.1 ≤ b.1))
      else none }

/-- The members `json.Marshal` writes for an `ObservationResponse`. -/
def ObservationResponse.members (r : ObservationResponse) : ResponseMembers :=
  { externalObservation := some r.External.members
    errMessage := if r.ErrMessage ≠ [] then some r.ErrMessage else none }

/-! ## Well-formed UTF-8 -/

/-- A span that holds a well-formed UTF-8 encoding of one to four bytes, with
the rune it encodes (the ranges are those of `utf8.DecodeRune`). -/
inductive RuneSpan.WellFormed : RuneSpan → Prop where
  | one (b : Nat) (h : b < 0x80) : WellFormed ⟨b, 1, [b]⟩
  | two (p0 b1 : Nat) (h0 : 0xC2 ≤ p0 ∧ p0 ≤ 0xDF) (h1 : 0x80 ≤ b1 ∧ b1 ≤ 0xBF) :
    WellFormed ⟨p0 % 32 * 64 + b1 % 64, 2, [p0, b1]⟩
  | three (p0 b1 b2 : Nat) (h0 : 0xE0 ≤ p0 ∧ p0 ≤ 0xEF)
    (h1 : 0x80 ≤ b1 ∧ b1 ≤ 0xBF ∧ (p0 = 0xE0 → 0xA0 ≤ b1) ∧ (p0 = 0xED → b1 ≤ 0x9F))
    (h2 : 0x80 ≤ b2 ∧ b2 ≤ 0xBF) :
    WellFormed ⟨p0 % 16 * 4096 + b1 % 64 * 64 + b2 % 64, 3, [p0, b1, b2]⟩
  | four (p0 b1 b2 b3 : Nat) (h0 : 0xF0 ≤ p0 ∧ p0 ≤ 0xF4)
    (h1 : 0x80 ≤ b1 ∧ b1 ≤ 0xBF ∧ (p0 = 0xF0 → 0x90 ≤ b1) ∧ (p0 = 0xF4 → b1 ≤ 0x8F))
    (h2 : 0x80 ≤ b2 ∧ b2 ≤ 0xBF) (h3 : 0x80 ≤ b3 ∧ b3 ≤ 0xBF) :
    WellFormed ⟨p0 % 8 * 262144 + b1 % 64 * 4096 + b2 % 64 * 64 + b3 % 64, 4,
      [p0, b1, b2, b3]⟩

/-! ## The JSON values of response bodies -/

/-- A member of a JSON object that is there when its value is. -/
def optKV (name : String) (v : Option JSON) : List (Bytes × JSON) :=
  match v with
  | none => []
  | some v => [(ascii name, v)]

/-- A member with its key, its text and its value, there when text and value
are. -/
def optTriple (name : String) (x : Option (Bytes × JSON)) : List (Bytes × Bytes × JSON) :=
  match x with
  | none => []
  | some tv => [(ascii name, tv.1, tv.2)]

/-- The JSON value of `writeEntries m`. -/
def entriesTree (m : List (Bytes × Bytes)) : JSON :=
  .obj (m.map fun kv => (kv.1, .str (EncodeToString kv.2)))

/-- The JSON value of `ExternalMembers.body`. -/
def ExternalMembers.tree (f : ExternalMembers) : JSON :=
  .obj (
    optKV "resourceExists" (f.resourceExists.map .bool) ++
    optKV "resourceUpToDate" (f.resourceUpToDate.map .bool) ++
    optKV "resourceLateInitialized" (f.resourceLateInitialized.map .bool) ++
    optKV "connectionDetails" (f.connectionDetails.map entriesTree))

/-- The JSON value of `ResponseMembers.body`. -/
def ResponseMembers.tree (f : ResponseMembers) : JSON :=
  .obj (
    optKV "externalObservation" (f.externalObservation.map ExternalMembers.tree) ++
    optKV "errMessage" (f.errMessage.map .str))

/-! ## Members that are absent from an object -/

/-- Whether the key of a member selects the field `name` among the fields
`names` of a struct, by the rule of `decodeState.object`. -/
def selects (names : List Bytes) (name : String) (kv : Bytes × JSON) : Bool :=
  lookupField names kv.1 = some (ascii name)

/-- The field `name` of a struct with fields `names` is absent from an object:
no member selects it. -/
def absent (names : List Bytes) (name : String) (kvs : List (Bytes × JSON)) : Bool :=
  kvs.all fun kv => !selects names name kv

/-- The field `name` of `externalObservation` is absent from a response
object: every member that selects `externalObservation` and holds an object
has no member that selects `name`. -/
def externalAbsent (name : String) (kvs : List (Bytes × JSON)) : Bool :=
  kvs.all fun kv =>
    !selects observationResponseFields "externalObservation" kv ||
      match kv.2 with
      | .obj inner => absent externalObservationFields name inner
      | _ => true

/-- The response of the spec's round-trip example: `resourceExists` true and
the connection detail `user` = `alice`. -/
def aliceResponse : ObservationResponse :=
  { External := { ResourceExists := true,
                  ConnectionDetails := [(ascii "user", ascii "alice")] } }

/-- A response whose `errMessage` is the single byte `0xFF`, which is not
valid UTF-8. -/
def invalidMessageResponse : ObservationResponse := { ErrMessage := [0xFF] }

/-- The members of a body that carries `resourceUpToDate` alone. -/
def upToDateOnly : ResponseMembers :=
  { externalObservation := some { resourceUpToDate := some true } }

/-! ## Wrongly typed members -/

/-- A value that `decodeBool` rejects: anything but a boolean or `null`. -/
def JSON.notBool : JSON → Bool
  | .bool _ => false
  | .null => false
  | _ => true

/-- A value that `decodeString` rejects: anything but a string or `null`. -/
def JSON.notString : JSON → Bool
  | .str _ => false
  | .null => false
  | _ => true

/-- A value that cannot be stored into a struct or a map: anything but an
object or `null`. -/
def JSON.notObject : JSON → Bool
  | .obj _ => false
  | .null => false
  | _ => true

/-- A value that `decodeUint8` rejects: a number that is not an integer from 0
to 255, or anything else but `null`. -/
def JSON.notUint8 : JSON → Bool
  | .num lit => (parseUint8 lit).isNone
  | .null => false
  | _ => true

/-- A value that `decodeBytes` rejects: a string that is not base64, an array
with an element that is not a byte, or anything else but `null`. -/
def JSON.notBytes : JSON → Bool
  | .str s => (DecodeString s).isNone
  | .arr xs => xs.any JSON.notUint8
  | .null => false
  | _ => true

/-- A value that cannot be stored into a struct or map whose members are
checked by `bad`: an object with a member that `bad` marks, or anything else
but `null`. -/
def rejectsStruct (bad : Bytes × JSON → Bool) : JSON → Bool
  | .obj kvs => kvs.any bad
  | v => v.notObject

/-- A value that `decodeConnectionDetails` rejects: an object with a value
that is not a `[]byte`, or anything else but `null`. -/
def JSON.notDetails (v : JSON) : Bool :=
  rejectsStruct (fun kv => kv.2.notBytes) v

/-- A member of `externalObservation` bound to a value of the wrong type: a
boolean field bound to something other than a boolean or `null`,
`connectionDetails` bound to something that is not a map of `[]byte`. -/
def ExternalObservation.badMember (kv : Bytes × JSON) : Bool :=
  match lookupField externalObservationFields kv.1 with
  | none => false
  | some f => if f = ascii "connectionDetails" then kv.2.notDetails else kv.2.notBool

/-- A member of an observation response bound to a value of the wrong type:
`errMessage` bound to something other than a string or `null`,
`externalObservation` bound to something other than an object or `null`, or to
an object with a wrongly typed member. -/
def ObservationResponse.badMember (kv : Bytes × JSON) : Bool :=
  match lookupField observationResponseFields kv.1 with
  | none => false
  | some f =>
    if f = ascii "externalObservation" then rejectsStruct ExternalObservation.badMember kv.2
    else kv.2.notString

/-- A member of `externalUpdate` bound to a value of the wrong type. -/
def ExternalUpdate.badMember (kv : Bytes × JSON) : Bool :=
  match lookupField [ascii "connectionDetails"] kv.1 with
  | none => false
  | some _ => kv.2.notDetails

/-- A member of an update response bound to a value of the wrong type. -/
def UpdateResponse.badMember (kv : Bytes × JSON) : Bool :=
  match lookupField updateResponseFields kv.1 with
  | none => false
  | some f =>
    if f = ascii "externalUpdate" then rejectsStruct ExternalUpdate.badMember kv.2
    else kv.2.notString

/-- A member of `externalCreation` bound to a value of the wrong type. -/
def ExternalCreation.badMember (kv : Bytes × JSON) : Bool :=
  match lookupField [ascii "connectionDetails"] kv.1 with
  | none => false
  | some _ => kv.2.notDetails

/-- A member of a creation response bound to a value of the wrong type. -/
def CreationResponse.badMember (kv : Bytes × JSON) : Bool :=
  match lookupField [ascii "externalCreation", ascii "errMessage"] kv.1 with
  | none => false
  | some f =>
    if f = ascii "externalCreation" then rejectsStruct ExternalCreation.badMember kv.2
    else kv.2.notString

/-- A member of a deletion response bound to a value of the wrong type. -/
def DeletionResponse.badMember (kv : Bytes × JSON) : Bool :=
  match lookupField [ascii "errMessage"] kv.1 with
  | none => false
  | some _ => kv.2.notString

/-! ## Bodies that are not JSON text, and bodies cut short -/

/-- A byte that can begin a JSON value: an opening brace or bracket, a quote, a
minus sign, a digit, or the first letter of `true`, `false` or `null`. -/
def startsValue (c : Nat) : Bool :=
  c = 0x7B ∨ c = 0x5B ∨ c = 0x22 ∨ c = 0x2D ∨ isDigit c ∨ c = 0x74 ∨ c = 0x66 ∨ c = 0x6E

/-- The scanner is inside a number at the top level. -/
def Scanner.inTopNumber (s : Scanner) : Bool :=
  match s.parseState, s.step with
  | [], .Neg _ => true
  | [], .N1 _ => true
  | [], .N0 _ => true
  | [], .Dot _ => true
  | [], .Dot0 _ => true
  | [], .E _ => true
  | [], .ESign _ => true
  | [], .E0 _ => true
  | _, _ => false

/-- Each of the four operations returns the decode failure `e`, and with it the
zero value of its result. -/
def ControllerClient.failsWith (c : ControllerClient) (mg : Managed) (e : DecodeError) : Prop :=
  (c.Observe mg).err = some (.decode e) ∧ (c.Observe mg).value = {} ∧
    (c.Create mg).err = some (.decode e) ∧ (c.Create mg).value = {} ∧
    (c.Update mg).err = some (.decode e) ∧ (c.Update mg).value = {} ∧
    (c.Delete mg).err = some (.decode e)

/-! ## Fixtures: concrete reconcilers -/

/-- A Registration named `n`, with the given deletion timestamp. -/
def sampleRegistration (n : String) (del : Option Nat) : Registration :=
  { Name := n, UID := "u1", ResourceVersion := "7", Finalizers := [],
    DeletionTimestamp := del,
    TypeRef := ⟨"example.org/v1", "Widget"⟩, Endpoint := "http://localhost:8081" }

/-- A reconciler over a store in which every name is found with deletion
timestamp `del`, whose finalizer returns `ferr` and whose engine `Start`
returns `serr`. -/
def sampleReconciler (del : Option Nat) (ferr serr : Option GoError) : Reconciler where
  clientGet := fun n => .ok (sampleRegistration n del)
  clientStatusUpdate := fun _ => none
  controllerErr := fun _ => none
  controllerStart := fun _ _ => serr
  addFinalizer := fun d =>
    (if finalizer ∈ d.Finalizers then d.Finalizers else d.Finalizers ++ [finalizer],
     d.ResourceVersion, ferr)

/-- A reconciler over a store whose `Get` fails with `e` for every name. -/
def failingGetReconciler (e : GoError) : Reconciler where
  clientGet := fun _ => .error e
  clientStatusUpdate := fun _ => none
  controllerErr := fun _ => none
  controllerStart := fun _ _ => none
  addFinalizer := fun d => (d.Finalizers, d.ResourceVersion, none)

/-! ## Fixtures: concrete clients -/

/-- A client of the endpoint `http://localhost:8081` whose every request is
answered with the given status and body. -/
def fixedClient (status : Nat) (body : Bytes) : ControllerClient where
  endpoint := "http://localhost:8081"
  client := fun _ => .ok ⟨status, body⟩

/-- An instance that marshals to the empty object. -/
def sampleManaged : Managed := ⟨some [0x7B, 0x7D]⟩

/-- The payload of a request for `sampleManaged`. -/
def samplePayload : Bytes := ascii "\x7b\"managed\":\x7b\x7d\x7d"

/-- A response body with an observation and a populated `errMessage`. -/
def observedBody : Bytes :=
  ascii ("\x7b\"externalObservation\":\x7b\"resourceExists\":true," ++
    "\"connectionDetails\":\x7b\"user\":\"YWxpY2U=\"\x7d\x7d,\"errMessage\":\"boom\"\x7d")

/-! ## The finalizer of `NewReconciler` and repeated reconciles -/

/-- The function `meta.AddFinalizer` of crossplane-runtime on a finalizer list:
the name is appended unless the list already holds it. -/
def AddFinalizer (fs : List String) (name : String) : List String :=
  if name ∈ fs then fs else fs ++ [name]

/-- The finalizer of the reconciler is the one `NewReconciler` installs,
`resource.NewAPIFinalizer(kube, finalizer)`, taken as idempotent insertion of
the name `finalizer`: whatever its write to the store answers, the object holds
afterwards the list `AddFinalizer d.Finalizers finalizer`. -/
def Reconciler.insertsFinalizer (r : Reconciler) : Prop :=
  ∀ d, (r.addFinalizer d).1 = AddFinalizer d.Finalizers finalizer

/-- One reconcile of the registration `d`, found and not marked for deletion,
reports success (nil error, no requeue delay) and leaves the registration
`d1`, the object its status update writes. -/
def Reconciler.succeeds (r : Reconciler) (req : String) (d d1 : Registration) : Prop :=
  r.clientGet req = .ok d ∧ d.DeletionTimestamp.isSome = false ∧
    (r.Reconcile req).err = none ∧ (r.Reconcile req).result.RequeueAfter = 0 ∧
    Effect.statusUpdate d1 ∈ (r.Reconcile req).trace

/-- The registration `d0` becomes `dn` by `n` successful reconciles in a row,
each by a reconciler whose finalizer is idempotent insertion and whose store
returns the registration the reconcile before it left. -/
inductive Reconciled : Nat → Registration → Registration → Prop where
  | start (d : Registration) : Reconciled 0 d d
  | next (n : Nat) (d0 d d1 : Registration) (r : Reconciler) (req : String)
    (before : Reconciled n d0 d) (hr : r.insertsFinalizer) (hs : r.succeeds req d d1) :
    Reconciled (n + 1) d0 d1

/-- A reconciler over a store that holds the registration `d` under every
name, with the finalizer of `NewReconciler` and an engine that starts. -/
def storeReconciler (d : Registration) : Reconciler where
  clientGet := fun _ => .ok d
  clientStatusUpdate := fun _ => none
  controllerErr := fun _ => none
  controllerStart := fun _ _ => none
  addFinalizer := fun x => (AddFinalizer x.Finalizers finalizer, x.ResourceVersion, none)

/-- The registration `foo` once it carries the finalizer. -/
def finalizedRegistration : Registration :=
  { sampleRegistration "foo" none with Finalizers := [finalizer] }

/-! # Theorems -/

/-! ## The Registration reconciler -/

theorem managed_entry_injective (a b : String) (h : "managed/" ++ a = "managed/" ++ b) :
    a = b := by
  have h1 : ("managed/" ++ a).data = ("managed/" ++ b).data := by rw [h]
  simp only [String.data_append] at h1
  exact String.ext (List.append_cancel_left h1)

/-- The engine operations of one reconcile of a found registration: none, a
single Stop, or Err followed by Start, all on the entry of that registration. -/
theorem Reconcile_engine_ops (r : Reconciler) (req : String) (d : Registration)
    (hget : r.clientGet req = .ok d) :
    (r.Reconcile req).trace.filter Effect.isEngineOp = [] ∨
      (r.Reconcile req).trace.filter Effect.isEngineOp
        = [Effect.engineStop ("managed/" ++ d.Name)] ∨
      (r.Reconcile req).trace.filter Effect.isEngineOp =
        [ Effect.engineErr ("managed/" ++ d.Name),
          Effect.engineStart ("managed/" ++ d.Name)
            { endpoint := d.Endpoint, gvk := FromAPIVersionAndKind d.TypeRef.APIVersion d.TypeRef.Kind,
              loggerName := "managed/" ++ d.Name } ] := by
  simp only [Reconciler.Reconcile, hget]
  cases hdel : WasDeleted d
  · rcases hf : r.addFinalizer d with ⟨fs, rv, ferr⟩
    cases ferr with
    | some err => simp [Effect.isEngineOp]
    | none =>
      cases hs : r.controllerStart ("managed/" ++ d.Name)
          { endpoint := d.Endpoint, gvk := FromAPIVersionAndKind d.TypeRef.APIVersion d.TypeRef.Kind,
            loggerName := "managed/" ++ d.Name } <;>
        cases hc : r.controllerErr ("managed/" ++ d.Name) <;>
        simp [hs, hc, Effect.isEngineOp]
  · simp [Effect.isEngineOp]

/-- C1: for a registration that is found and has its deletionTimestamp set,
Reconcile issues Stop on the entry "managed/"+name as its first and only
engine operation, calls neither AddFinalizer nor a status update, and returns a
nil error with RequeueAfter of 3 seconds (3 000 000 000 ns). -/
theorem Reconcile_deleted_stops_and_requeues (r : Reconciler) (req : String)
    (d : Registration) (hget : r.clientGet req = .ok d)
    (hdel : d.DeletionTimestamp.isSome = true) :
    (r.Reconcile req).trace.filter Effect.isEngineOp
        = [Effect.engineStop ("managed/" ++ d.Name)] ∧
      (r.Reconcile req).trace.filter Effect.isAddFinalizer = [] ∧
      (r.Reconcile req).trace.filter Effect.isStatusUpdate = [] ∧
      (r.Reconcile req).err = none ∧
      (r.Reconcile req).result.Requeue = false ∧
      (r.Reconcile req).result.RequeueAfter = 3 * Second ∧
      (3 * Second : Duration) = 3000000000 := by
  simp [Reconciler.Reconcile, hget, WasDeleted, hdel, Effect.isEngineOp,
    Effect.isAddFinalizer, Effect.isStatusUpdate, tinyWait, Second]

theorem Reconcile_deleted_stops_and_requeues_witness :
    ((sampleReconciler (some 1600000000) none none).Reconcile "foo").trace.filter
        Effect.isEngineOp = [Effect.engineStop ("managed/" ++ "foo")] ∧
      ((sampleReconciler (some 1600000000) none none).Reconcile "foo").err = none ∧
      ((sampleReconciler (some 1600000000) none none).Reconcile "foo").result.RequeueAfter
        = 3000000000 :=
  have h := Reconcile_deleted_stops_and_requeues (sampleReconciler (some 1600000000) none none)
    "foo" (sampleRegistration "foo" (some 1600000000)) rfl rfl
  ⟨h.1, h.2.2.2.1, h.2.2.2.2.2.1.trans h.2.2.2.2.2.2⟩

/-- C2: when the store reports not-found for the requested name, that is the
error of Get is one `kerrors.IsNotFound` holds of (the API status error itself,
not an error wrapped around it), Reconcile returns the empty result (no
requeue, no delay) with a nil error and performs no engine operation, no
AddFinalizer and no status update. -/
theorem Reconcile_not_found_is_terminal (r : Reconciler) (req : String) (e : GoError)
    (hget : r.clientGet req = .error e) (hnf : IsNotFound e = true) :
    (r.Reconcile req).result = { Requeue := false, RequeueAfter := 0 } ∧
      (r.Reconcile req).err = none ∧
      (r.Reconcile req).trace.filter Effect.isEngineOp = [] ∧
      (r.Reconcile req).trace.filter Effect.isAddFinalizer = [] ∧
      (r.Reconcile req).trace.filter Effect.isStatusUpdate = [] := by
  simp [Reconciler.Reconcile, hget, IgnoreNotFound, hnf, Wrap, Effect.isEngineOp,
    Effect.isAddFinalizer, Effect.isStatusUpdate]

theorem Reconcile_not_found_is_terminal_witness :
    ((failingGetReconciler (.notFound "registration foo not found")).Reconcile "foo").result
        = { Requeue := false, RequeueAfter := 0 } ∧
      ((failingGetReconciler (.notFound "registration foo not found")).Reconcile "foo").err
        = none ∧
      ((failingGetReconciler (.notFound "registration foo not found")).Reconcile
        "foo").trace.filter Effect.isEngineOp = [] :=
  have h := Reconcile_not_found_is_terminal
    (failingGetReconciler (.notFound "registration foo not found")) "foo"
    (.notFound "registration foo not found") rfl rfl
  ⟨h.1, h.2.1, h.2.2.1⟩

/-- Every other Get error is returned wrapped with `errGetRegistration`, a
not-found error inside `errors.Wrap` among them: `kerrors.IsNotFound` does not
look inside a wrapper. -/
theorem Reconcile_get_error_is_returned (r : Reconciler) (req : String) (e : GoError)
    (hget : r.clientGet req = .error e) (hnf : IsNotFound e = false) :
    (r.Reconcile req).result = { Requeue := false, RequeueAfter := 0 } ∧
      (r.Reconcile req).err = some (.wrapped e errGetRegistration) ∧
      (r.Reconcile req).trace.filter Effect.isEngineOp = [] := by
  simp [Reconciler.Reconcile, hget, IgnoreNotFound, hnf, Wrap, Effect.isEngineOp]

theorem Reconcile_get_error_is_returned_witness :
    ((failingGetReconciler (.wrapped (.notFound "registration foo not found") "cache")).Reconcile
        "foo").err =
      some (.wrapped (.wrapped (.notFound "registration foo not found") "cache")
        errGetRegistration) :=
  (Reconcile_get_error_is_returned
    (failingGetReconciler (.wrapped (.notFound "registration foo not found") "cache")) "foo"
    (.wrapped (.notFound "registration foo not found") "cache") rfl rfl).2.1

/-- The check `kerrors.IsNotFound` holds of the not-found status error alone. -/
theorem IsNotFound_iff (e : GoError) : IsNotFound e = true ↔ ∃ msg, e = .notFound msg := by
  cases e <;> simp [IsNotFound]

/-- C3: every engine operation that Reconcile issues for a found registration
named n (Stop on the deletion path, Err and Start on the active path) carries
the entry name "managed/" ++ n; the map n ↦ "managed/" ++ n is injective; and
"foo" yields "managed/foo". -/
theorem Reconcile_entry_name_deterministic :
    (∀ (r : Reconciler) (req : String) (d : Registration), r.clientGet req = .ok d →
        ∀ e ∈ (r.Reconcile req).trace, e.isEngineOp = true →
          e.entryName = some ("managed/" ++ d.Name)) ∧
      (∀ (r : Reconciler) (req : String) (d : Registration), r.clientGet req = .ok d →
        d.DeletionTimestamp.isSome = true →
          Effect.engineStop ("managed/" ++ d.Name) ∈ (r.Reconcile req).trace) ∧
      (∀ (r : Reconciler) (req : String) (d : Registration), r.clientGet req = .ok d →
        d.DeletionTimestamp.isSome = false → (r.addFinalizer d).2.2 = none →
          (r.Reconcile req).trace.filter Effect.isEngineOp =
            [ Effect.engineErr ("managed/" ++ d.Name),
              Effect.engineStart ("managed/" ++ d.Name)
                { endpoint := d.Endpoint, gvk := FromAPIVersionAndKind d.TypeRef.APIVersion d.TypeRef.Kind,
                  loggerName := "managed/" ++ d.Name } ]) ∧
      Function.Injective (fun n : String => "managed/" ++ n) ∧
      "managed/" ++ "foo" = "managed/foo" := by
  refine ⟨?_, ?_, ?_, fun a b h => managed_entry_injective a b h, by decide⟩
  · intro r req d hget e he hop
    have hmem : e ∈ (r.Reconcile req).trace.filter Effect.isEngineOp :=
      List.mem_filter.mpr ⟨he, hop⟩
    rcases Reconcile_engine_ops r req d hget with h | h | h <;> rw [h] at hmem
    · simp at hmem
    · simp at hmem
      subst hmem
      rfl
    · simp at hmem
      rcases hmem with hmem | hmem <;> subst hmem <;> rfl
  · intro r req d hget hdel
    simp [Reconciler.Reconcile, hget, WasDeleted, hdel]
  · intro r req d hget hdel hf
    rcases hf2 : r.addFinalizer d with ⟨fs, rv, ferr⟩
    rw [hf2] at hf
    simp only at hf
    subst hf
    simp only [Reconciler.Reconcile, hget, WasDeleted, hdel, hf2]
    cases hs : r.controllerStart ("managed/" ++ d.Name)
        { endpoint := d.Endpoint, gvk := FromAPIVersionAndKind d.TypeRef.APIVersion d.TypeRef.Kind,
          loggerName := "managed/" ++ d.Name } <;>
      cases hc : r.controllerErr ("managed/" ++ d.Name) <;>
      simp [hs, hc, Effect.isEngineOp]

theorem Reconcile_entry_name_deterministic_witness :
    (∀ e ∈ ((sampleReconciler none none none).Reconcile "foo").trace, e.isEngineOp = true →
        e.entryName = some ("managed/" ++ "foo")) ∧
      "managed/" ++ "foo" = "managed/foo" :=
  ⟨Reconcile_entry_name_deterministic.1 (sampleReconciler none none none) "foo"
      (sampleRegistration "foo" none) rfl,
    Reconcile_entry_name_deterministic.2.2.2.2⟩

/-- C9: for a found, non-deleting registration, a failing AddFinalizer makes
Reconcile return a nil error with RequeueAfter of 30 seconds, record one
warning event and issue no engine Start; a succeeding AddFinalizer followed by
a failing engine Start likewise gives a nil error, RequeueAfter of 30 seconds
and one warning event. -/
theorem Reconcile_setup_failure_requeues :
    (∀ (r : Reconciler) (req : String) (d : Registration) (err : GoError),
        r.clientGet req = .ok d → d.DeletionTimestamp.isSome = false →
        (r.addFinalizer d).2.2 = some err →
          (r.Reconcile req).err = none ∧
          (r.Reconcile req).result = { Requeue := false, RequeueAfter := 30 * Second } ∧
          (r.Reconcile req).trace.filter Effect.isWarningEvent =
            [Effect.event d.Name
              (Warning reasonStartController (.wrapped err errAddFinalizer))] ∧
          (r.Reconcile req).trace.filter Effect.isEngineStart = []) ∧
      (∀ (r : Reconciler) (req : String) (d : Registration) (err : GoError),
        r.clientGet req = .ok d → d.DeletionTimestamp.isSome = false →
        (r.addFinalizer d).2.2 = none →
        r.controllerStart ("managed/" ++ d.Name)
            { endpoint := d.Endpoint, gvk := FromAPIVersionAndKind d.TypeRef.APIVersion d.TypeRef.Kind,
              loggerName := "managed/" ++ d.Name } = some err →
          (r.Reconcile req).err = none ∧
          (r.Reconcile req).result = { Requeue := false, RequeueAfter := 30 * Second } ∧
          (r.Reconcile req).trace.filter Effect.isWarningEvent =
            [Effect.event d.Name
              (Warning reasonStartController (.wrapped err errStartController))]) ∧
      (30 * Second : Duration) = 30000000000 := by
  refine ⟨?_, ?_, by decide⟩
  · intro r req d err hget hdel hf
    rcases hf2 : r.addFinalizer d with ⟨fs, rv, ferr⟩
    rw [hf2] at hf
    simp only at hf
    subst hf
    simp [Reconciler.Reconcile, hget, WasDeleted, hdel, hf2, shortWait,
      Effect.isWarningEvent, Effect.isEngineStart, Warning]
  · intro r req d err hget hdel hf hs
    rcases hf2 : r.addFinalizer d with ⟨fs, rv, ferr⟩
    rw [hf2] at hf
    simp only at hf
    subst hf
    simp only [Reconciler.Reconcile, hget, WasDeleted, hdel, hf2]
    cases hc : r.controllerErr ("managed/" ++ d.Name) <;>
      simp [hs, hc, shortWait, Effect.isWarningEvent, Warning]

theorem Reconcile_setup_failure_requeues_witness :
    (((sampleReconciler none (some (.other "conflict")) none).Reconcile "foo").err = none ∧
      ((sampleReconciler none (some (.other "conflict")) none).Reconcile "foo").result
        = { Requeue := false, RequeueAfter := 30 * Second } ∧
      ((sampleReconciler none (some (.other "conflict")) none).Reconcile "foo").trace.filter
          Effect.isWarningEvent =
        [Effect.event "foo"
          (Warning reasonStartController (.wrapped (.other "conflict") errAddFinalizer))] ∧
      ((sampleReconciler none (some (.other "conflict")) none).Reconcile "foo").trace.filter
          Effect.isEngineStart = []) ∧
    (((sampleReconciler none none (some (.other "no kind"))).Reconcile "foo").err = none ∧
      ((sampleReconciler none none (some (.other "no kind"))).Reconcile "foo").result
        = { Requeue := false, RequeueAfter := 30 * Second } ∧
      ((sampleReconciler none none (some (.other "no kind"))).Reconcile "foo").trace.filter
          Effect.isWarningEvent =
        [Effect.event "foo"
          (Warning reasonStartController (.wrapped (.other "no kind") errStartController))]) :=
  ⟨Reconcile_setup_failure_requeues.1 (sampleReconciler none (some (.other "conflict")) none)
      "foo" (sampleRegistration "foo" none) (.other "conflict") rfl rfl rfl,
    Reconcile_setup_failure_requeues.2.1 (sampleReconciler none none (some (.other "no kind")))
      "foo" (sampleRegistration "foo" none) (.other "no kind") rfl rfl rfl rfl⟩

/-- C10: Reconcile issues a status update if and only if the registration was
found, is not marked for deletion, AddFinalizer succeeded and engine Start
succeeded (then exactly one); when Start succeeds the result requests no
requeue (Requeue=false, RequeueAfter=0) and exactly one normal event is
recorded. -/
theorem Reconcile_status_update_iff_started (r : Reconciler) (req : String) :
    ((∃ e ∈ (r.Reconcile req).trace, e.isStatusUpdate = true) ↔ startSucceeded r req) ∧
      (¬ startSucceeded r req →
        (r.Reconcile req).trace.filter Effect.isStatusUpdate = []) ∧
      (startSucceeded r req →
        ((r.Reconcile req).trace.filter Effect.isStatusUpdate).length = 1 ∧
        (r.Reconcile req).result = { Requeue := false, RequeueAfter := 0 } ∧
        ((r.Reconcile req).trace.filter Effect.isNormalEvent).length = 1) := by
  have key : (startSucceeded r req →
        ((r.Reconcile req).trace.filter Effect.isStatusUpdate).length = 1 ∧
        (r.Reconcile req).result = { Requeue := false, RequeueAfter := 0 } ∧
        ((r.Reconcile req).trace.filter Effect.isNormalEvent).length = 1) ∧
      (¬ startSucceeded r req →
        (r.Reconcile req).trace.filter Effect.isStatusUpdate = []) := by
    unfold startSucceeded
    cases hget : r.clientGet req with
    | error e => simp [Reconciler.Reconcile, hget, Effect.isStatusUpdate]
    | ok d =>
      cases hdt : d.DeletionTimestamp with
      | none =>
        rcases hf2 : r.addFinalizer d with ⟨fs, rv, ferr⟩
        cases ferr with
        | some err =>
          simp [Reconciler.Reconcile, hget, WasDeleted, hdt, hf2, Effect.isStatusUpdate]
        | none =>
          cases hs : r.controllerStart ("managed/" ++ d.Name)
              { endpoint := d.Endpoint, gvk := FromAPIVersionAndKind d.TypeRef.APIVersion d.TypeRef.Kind,
                loggerName := "managed/" ++ d.Name } <;>
            cases hc : r.controllerErr ("managed/" ++ d.Name) <;>
            simp [Reconciler.Reconcile, hget, WasDeleted, hdt, hf2, hs, hc,
              Effect.isStatusUpdate, Effect.isNormalEvent, Normal]
      | some ts =>
        simp [Reconciler.Reconcile, hget, WasDeleted, hdt, Effect.isStatusUpdate]
  refine ⟨⟨?_, ?_⟩, key.2, key.1⟩
  · rintro ⟨e, he, hs⟩
    by_contra hn
    have h0 := key.2 hn
    have hmem : e ∈ (r.Reconcile req).trace.filter Effect.isStatusUpdate :=
      List.mem_filter.mpr ⟨he, hs⟩
    rw [h0] at hmem
    simp at hmem
  · intro h
    have h1 := (key.1 h).1
    have hpos : 0 < ((r.Reconcile req).trace.filter Effect.isStatusUpdate).length := by
      rw [h1]
      exact Nat.one_pos
    obtain ⟨e, he⟩ := List.exists_mem_of_length_pos hpos
    exact ⟨e, (List.mem_filter.mp he).1, (List.mem_filter.mp he).2⟩

theorem Reconcile_status_update_iff_started_witness :
    startSucceeded (sampleReconciler none none none) "foo" ∧
      (((sampleReconciler none none none).Reconcile "foo").trace.filter
          Effect.isStatusUpdate).length = 1 ∧
      ((sampleReconciler none none none).Reconcile "foo").result
        = { Requeue := false, RequeueAfter := 0 } ∧
      (((sampleReconciler none none none).Reconcile "foo").trace.filter
          Effect.isNormalEvent).length = 1 :=
  have hs : startSucceeded (sampleReconciler none none none) "foo" :=
    ⟨sampleRegistration "foo" none, rfl, rfl, rfl, rfl⟩
  ⟨hs, (Reconcile_status_update_iff_started (sampleReconciler none none none) "foo").2.2 hs⟩

/-! ## The external callout client -/

/-- What `post` does once the request has been marshalled and answered: one
request, and the outcome of decoding the body, whatever the status code. -/
theorem post_of_response {α : Type} (c : ControllerClient) (mg : Managed)
    (decode : Bytes → Except DecodeError α) (path : String) (payload : Bytes)
    (resp : Response) (hmg : marshalRequest mg = some payload)
    (hresp : c.client ⟨"POST", c.endpoint ++ path, "application/json", payload⟩ = .ok resp) :
    c.post mg decode path =
      ([⟨"POST", c.endpoint ++ path, "application/json", payload⟩],
        match decode resp.Body with
        | .error e => .error (.decode e)
        | .ok res => .ok res) := by
  simp only [ControllerClient.post, hmg, hresp]
  cases decode resp.Body <;> rfl

/-- Observe once the request has been marshalled and answered. -/
theorem Observe_of_response (c : ControllerClient) (mg : Managed) (payload : Bytes)
    (resp : Response) (hmg : marshalRequest mg = some payload)
    (hresp : c.client ⟨"POST", c.endpoint ++ "/observe", "application/json", payload⟩ = .ok resp) :
    c.Observe mg =
      match ObservationResponse.Decode resp.Body {} with
      | .error e =>
        ⟨[⟨"POST", c.endpoint ++ "/observe", "application/json", payload⟩], {}, some (.decode e)⟩
      | .ok o =>
        ⟨[⟨"POST", c.endpoint ++ "/observe", "application/json", payload⟩],
          { ResourceExists := o.External.ResourceExists
            ResourceUpToDate := o.External.ResourceUpToDate
            ResourceLateInitialized := o.External.ResourceLateInitialized
            ConnectionDetails := o.External.ConnectionDetails },
          none⟩ := by
  rw [ControllerClient.Observe,
    post_of_response c mg _ "/observe" payload resp hmg hresp]
  cases ObservationResponse.Decode resp.Body {} <;> rfl

/-- C4: when the response body decodes to an ObservationResponse r, Observe
issues exactly one POST, to endpoint ++ "/observe", and returns a nil error
with ResourceExists, ResourceUpToDate, ResourceLateInitialized and
ConnectionDetails equal to those of r.External, whatever r.ErrMessage is. -/
theorem Observe_passes_observation_through (c : ControllerClient) (mg : Managed)
    (payload : Bytes) (resp : Response) (r : ObservationResponse)
    (hmg : marshalRequest mg = some payload)
    (hresp : c.client ⟨"POST", c.endpoint ++ "/observe", "application/json", payload⟩ = .ok resp)
    (hdec : ObservationResponse.Decode resp.Body {} = .ok r) :
    (c.Observe mg).requests = [⟨"POST", c.endpoint ++ "/observe", "application/json", payload⟩] ∧
      (c.Observe mg).err = none ∧
      (c.Observe mg).value =
        { ResourceExists := r.External.ResourceExists
          ResourceUpToDate := r.External.ResourceUpToDate
          ResourceLateInitialized := r.External.ResourceLateInitialized
          ConnectionDetails := r.External.ConnectionDetails } := by
  simp [ControllerClient.Observe, post_of_response c mg _ "/observe" payload resp hmg hresp,
    hdec]

theorem Observe_passes_observation_through_witness :
    ((fixedClient 200 observedBody).Observe sampleManaged).requests =
        [⟨"POST", "http://localhost:8081" ++ "/observe", "application/json", samplePayload⟩] ∧
      ((fixedClient 200 observedBody).Observe sampleManaged).err = none ∧
      ((fixedClient 200 observedBody).Observe sampleManaged).value =
        { ResourceExists := true, ResourceUpToDate := false, ResourceLateInitialized := false,
          ConnectionDetails := [(ascii "user", ascii "alice")] } :=
  Observe_passes_observation_through (fixedClient 200 observedBody) sampleManaged
    samplePayload ⟨200, observedBody⟩
    { External := { ResourceExists := true,
                    ConnectionDetails := [(ascii "user", ascii "alice")] },
      ErrMessage := ascii "boom" }
    (by decide) rfl (by decide)

/-- Counterexample to C5 as stated: a response with status 500 (not a success
status) whose body is a valid ObservationResponse makes Observe return the
decoded observation with a nil error. -/
theorem Observe_status_500_returns_nil_error :
    ¬ (200 ≤ (500 : Nat) ∧ (500 : Nat) < 300) ∧
      ((fixedClient 500 observedBody).Observe sampleManaged).err = none ∧
      ((fixedClient 500 observedBody).Observe sampleManaged).value =
        { ResourceExists := true, ResourceUpToDate := false, ResourceLateInitialized := false,
          ConnectionDetails := [(ascii "user", ascii "alice")] } := by
  decide

/-- The error of each operation once the request has been marshalled and
answered: the decode error of the body, if any. -/
theorem err_of_response (c : ControllerClient) (mg : Managed)
    (payload : Bytes) (status : Nat) (body : Bytes)
    (hmg : marshalRequest mg = some payload)
    (hresp : ∀ path, c.client ⟨"POST", c.endpoint ++ path, "application/json", payload⟩
      = .ok ⟨status, body⟩) :
    ((c.Observe mg).err =
        match ObservationResponse.Decode body {} with
        | .error e => some (.decode e)
        | .ok _ => none) ∧
      ((c.Create mg).err =
        match CreationResponse.Decode body {} with
        | .error e => some (.decode e)
        | .ok _ => none) ∧
      ((c.Update mg).err =
        match UpdateResponse.Decode body {} with
        | .error e => some (.decode e)
        | .ok _ => none) ∧
      ((c.Delete mg).err =
        match DeletionResponse.Decode body {} with
        | .error e => some (.decode e)
        | .ok _ => none) := by
  refine ⟨?_, ?_, ?_, ?_⟩
  · rw [ControllerClient.Observe,
      post_of_response c mg _ "/observe" payload ⟨status, body⟩ hmg (hresp _)]
    cases ObservationResponse.Decode body {} <;> rfl
  · rw [ControllerClient.Create,
      post_of_response c mg _ "/create" payload ⟨status, body⟩ hmg (hresp _)]
    cases CreationResponse.Decode body {} <;> rfl
  · rw [ControllerClient.Update,
      post_of_response c mg _ "/update" payload ⟨status, body⟩ hmg (hresp _)]
    cases UpdateResponse.Decode body {} <;> rfl
  · rw [ControllerClient.Delete,
      post_of_response c mg _ "/delete" payload ⟨status, body⟩ hmg (hresp _)]
    cases DeletionResponse.Decode body {} <;> rfl

/-- C5 (amended): `post` does not inspect the status code.  For every verb and
every answered request, whatever the status, the operation returns a nil error
exactly when the body decodes into the response type, and the decode error
otherwise. -/
theorem status_code_is_not_inspected (c : ControllerClient) (mg : Managed)
    (payload : Bytes) (status : Nat) (body : Bytes)
    (hmg : marshalRequest mg = some payload)
    (hresp : ∀ path, c.client ⟨"POST", c.endpoint ++ path, "application/json", payload⟩
      = .ok ⟨status, body⟩) :
    ((c.Observe mg).err =
        match ObservationResponse.Decode body {} with
        | .error e => some (.decode e)
        | .ok _ => none) ∧
      ((c.Create mg).err =
        match CreationResponse.Decode body {} with
        | .error e => some (.decode e)
        | .ok _ => none) ∧
      ((c.Update mg).err =
        match UpdateResponse.Decode body {} with
        | .error e => some (.decode e)
        | .ok _ => none) ∧
      ((c.Delete mg).err =
        match DeletionResponse.Decode body {} with
        | .error e => some (.decode e)
        | .ok _ => none) :=
  err_of_response c mg payload status body hmg hresp

theorem status_code_is_not_inspected_witness :
    ((fixedClient 404 (ascii "404 page not found")).Observe sampleManaged).err
        = some (.decode .UnmarshalTypeError) ∧
      ((fixedClient 404 (ascii "404 page not found")).Create sampleManaged).err
        = some (.decode .UnmarshalTypeError) ∧
      ((fixedClient 404 (ascii "404 page not found")).Update sampleManaged).err
        = some (.decode .UnmarshalTypeError) ∧
      ((fixedClient 404 (ascii "404 page not found")).Delete sampleManaged).err
        = some (.decode .UnmarshalTypeError) :=
  status_code_is_not_inspected (fixedClient 404 (ascii "404 page not found")) sampleManaged
    samplePayload 404 (ascii "404 page not found") (by decide) (fun _ => rfl)

/-- A walk over members fails as soon as one member is rejected in every
state. -/
theorem foldlM_error_of_any {σ α : Type} (f : σ → α → Except DecodeError σ)
    (bad : α → Bool) (hbad : ∀ s x, bad x = true → ∃ e, f s x = .error e) :
    ∀ (l : List α) (init : σ), l.any bad = true → ∃ e, l.foldlM f init = .error e := by
  intro l
  induction l with
  | nil => intro init h; simp at h
  | cons x xs ih =>
    intro init h
    rw [List.foldlM_cons]
    cases hx : f init x with
    | error e => exact ⟨e, rfl⟩
    | ok s1 =>
      have hxs : xs.any bad = true := by
        rw [List.any_cons, Bool.or_eq_true] at h
        rcases h with h | h
        · obtain ⟨e, he⟩ := hbad init x h
          rw [he] at hx
          cases hx
        · exact h
      obtain ⟨e, he⟩ := ih s1 hxs
      exact ⟨e, he⟩

/-- Counterexample to C6 as stated: the body `null`, a top-level value that is
not an object, makes Observe return the zero-valued observation with a nil
error. -/
theorem Observe_null_body_returns_zero_value :
    ((fixedClient 200 (ascii "null")).Observe sampleManaged).err = none ∧
      ((fixedClient 200 (ascii "null")).Observe sampleManaged).value =
        { ResourceExists := false, ResourceUpToDate := false,
          ResourceLateInitialized := false, ConnectionDetails := [] } := by
  decide

/-- Create once the request has been marshalled and answered. -/
theorem Create_of_response (c : ControllerClient) (mg : Managed) (payload : Bytes)
    (resp : Response) (hmg : marshalRequest mg = some payload)
    (hresp : c.client ⟨"POST", c.endpoint ++ "/create", "application/json", payload⟩
      = .ok resp) :
    c.Create mg =
      match CreationResponse.Decode resp.Body {} with
      | .error e =>
        ⟨[⟨"POST", c.endpoint ++ "/create", "application/json", payload⟩], {},
          some (.decode e)⟩
      | .ok o =>
        ⟨[⟨"POST", c.endpoint ++ "/create", "application/json", payload⟩],
          { ConnectionDetails := o.External.ConnectionDetails }, none⟩ := by
  rw [ControllerClient.Create,
    post_of_response c mg _ "/create" payload resp hmg hresp]
  cases CreationResponse.Decode resp.Body {} <;> rfl

/-- Update once the request has been marshalled and answered. -/
theorem Update_of_response (c : ControllerClient) (mg : Managed) (payload : Bytes)
    (resp : Response) (hmg : marshalRequest mg = some payload)
    (hresp : c.client ⟨"POST", c.endpoint ++ "/update", "application/json", payload⟩
      = .ok resp) :
    c.Update mg =
      match UpdateResponse.Decode resp.Body {} with
      | .error e =>
        ⟨[⟨"POST", c.endpoint ++ "/update", "application/json", payload⟩], {},
          some (.decode e)⟩
      | .ok o =>
        ⟨[⟨"POST", c.endpoint ++ "/update", "application/json", payload⟩],
          { ConnectionDetails := o.External.ConnectionDetails }, none⟩ := by
  rw [ControllerClient.Update,
    post_of_response c mg _ "/update" payload resp hmg hresp]
  cases UpdateResponse.Decode resp.Body {} <;> rfl

/-- Delete once the request has been marshalled and answered. -/
theorem Delete_of_response (c : ControllerClient) (mg : Managed) (payload : Bytes)
    (resp : Response) (hmg : marshalRequest mg = some payload)
    (hresp : c.client ⟨"POST", c.endpoint ++ "/delete", "application/json", payload⟩
      = .ok resp) :
    c.Delete mg =
      match DeletionResponse.Decode resp.Body {} with
      | .error e =>
        ⟨[⟨"POST", c.endpoint ++ "/delete", "application/json", payload⟩], (),
          some (.decode e)⟩
      | .ok _ =>
        ⟨[⟨"POST", c.endpoint ++ "/delete", "application/json", payload⟩], (), none⟩ := by
  rw [ControllerClient.Delete,
    post_of_response c mg _ "/delete" payload resp hmg hresp]
  cases DeletionResponse.Decode resp.Body {} <;> rfl

/-- The four decoders fail with the scanner's error when the scanner rejects
the body, and with a type error when the first value of the body is not an
object and not null. -/
theorem Decode_rejects (body : Bytes) :
    (∀ e, readValue body = .error e →
        ObservationResponse.Decode body {} = .error e ∧
        CreationResponse.Decode body {} = .error e ∧
        UpdateResponse.Decode body {} = .error e ∧
        DeletionResponse.Decode body {} = .error e) ∧
      (∀ v, readValue body = .ok v → v.notObject = true →
        ObservationResponse.Decode body {} = .error .UnmarshalTypeError ∧
        CreationResponse.Decode body {} = .error .UnmarshalTypeError ∧
        UpdateResponse.Decode body {} = .error .UnmarshalTypeError ∧
        DeletionResponse.Decode body {} = .error .UnmarshalTypeError) := by
  constructor
  · intro e he
    simp only [ObservationResponse.Decode, CreationResponse.Decode, UpdateResponse.Decode,
      DeletionResponse.Decode, he, and_self]
  · intro v hv hno
    simp only [ObservationResponse.Decode, CreationResponse.Decode, UpdateResponse.Decode,
      DeletionResponse.Decode, hv]
    cases v <;> simp [JSON.notObject] at hno <;> exact ⟨rfl, rfl, rfl, rfl⟩

/-! ## `encoding/base64`: decoding what was encoded -/

theorem decodeMap_encodeStd : ∀ v, v < 64 → decodeMap (encodeStd v) = some v := by
  decide

theorem decodeMap_pad : decodeMap 61 = none := by decide

theorem decodeFrom_quantum (v0 v1 v2 v3 : Nat) (h0 : v0 < 64) (h1 : v1 < 64) (h2 : v2 < 64)
    (h3 : v3 < 64) (rest : Bytes) :
    decodeFrom [] (encodeStd v0 :: encodeStd v1 :: encodeStd v2 :: encodeStd v3 :: rest) =
      (quantumBytes [v0, v1, v2, v3] ++ ·) <$> decodeFrom [] rest := by
  simp [decodeFrom, decodeMap_encodeStd, h0, h1, h2, h3]

theorem DecodeString_EncodeToString :
    ∀ (bs : Bytes), (∀ b ∈ bs, b < 256) → DecodeString (EncodeToString bs) = some bs := by
  intro bs
  unfold DecodeString
  induction bs using EncodeToString.induct with
  | case1 => intro _; rfl
  | case2 a =>
    intro h
    have ha : a < 256 := h a (by simp)
    have e0 : decodeMap (encodeStd (a / 4)) = some (a / 4) :=
      decodeMap_encodeStd _ (by omega)
    have e1 : decodeMap (encodeStd (a % 4 * 16)) = some (a % 4 * 16) :=
      decodeMap_encodeStd _ (by omega)
    simp [EncodeToString, decodeFrom, e0, e1, decodeMap_pad, skipNewlines, quantumBytes]
    omega
  | case3 a b =>
    intro h
    have ha : a < 256 := h a (by simp)
    have hb : b < 256 := h b (by simp)
    have e0 : decodeMap (encodeStd (a / 4)) = some (a / 4) :=
      decodeMap_encodeStd _ (by omega)
    have e1 : decodeMap (encodeStd (a % 4 * 16 + b / 16)) = some (a % 4 * 16 + b / 16) :=
      decodeMap_encodeStd _ (by omega)
    have e2 : decodeMap (encodeStd (b % 16 * 4)) = some (b % 16 * 4) :=
      decodeMap_encodeStd _ (by omega)
    simp [EncodeToString, decodeFrom, e0, e1, e2, decodeMap_pad, skipNewlines, quantumBytes]
    omega
  | case4 a b c rest ih =>
    intro h
    have ha : a < 256 := h a (by simp)
    have hb : b < 256 := h b (by simp)
    have hc : c < 256 := h c (by simp)
    have hrest : ∀ x ∈ rest, x < 256 := fun x hx => h x (by simp [hx])
    rw [EncodeToString, decodeFrom_quantum _ _ _ _ (by omega) (by omega) (by omega) (by omega),
      ih hrest]
    simp [quantumBytes]
    omega

theorem ExternalObservation_Marshal_eq_body (o : ExternalObservation) :
    o.Marshal = o.members.body := by
  rcases o with ⟨a, b, c, m⟩
  cases a <;> cases b <;> cases c <;> by_cases hm : m = [] <;>
    simp [ExternalObservation.Marshal, ExternalObservation.members, ExternalMembers.body,
      optMember, hm, ConnectionDetails.Marshal]

theorem ObservationResponse_Marshal_eq_body (r : ObservationResponse) :
    r.Marshal = r.members.body := by
  rcases r with ⟨o, e⟩
  by_cases he : e = [] <;>
    simp [ObservationResponse.Marshal, ObservationResponse.members, ResponseMembers.body,
      optMember, he, ExternalObservation_Marshal_eq_body]

/-! ## `unicode/utf8`: spans of a valid string -/

theorem DecodeRune_wellFormed (b : Nat) (rest : Bytes)
    (h : ¬ ((DecodeRune (b :: rest)).1 = RuneError ∧ (DecodeRune (b :: rest)).2 = 1)) :
    RuneSpan.WellFormed
      ⟨(DecodeRune (b :: rest)).1, (DecodeRune (b :: rest)).2,
        (b :: rest).take (DecodeRune (b :: rest)).2⟩ := by
  unfold DecodeRune at h ⊢
  by_cases c1 : b < 0x80
  · simp only [c1, if_true]
    exact .one b c1
  · simp only [c1, if_false] at h ⊢
    by_cases c2 : b < 0xC2 ∨ 0xF4 < b
    · simp [c2] at h
    · simp only [c2, if_false] at h ⊢
      cases rest with
      | nil => simp at h
      | cons b1 t1 =>
        simp only at h ⊢
        by_cases c3 : b1 < (if b = 0xE0 then 0xA0 else if b = 0xF0 then 0x90 else 0x80) ∨
            (if b = 0xED then 0x9F else if b = 0xF4 then 0x8F else 0xBF) < b1
        · simp [c3] at h
        · simp only [c3, if_false] at h ⊢
          by_cases c4 : b < 0xE0
          · simp only [c4, if_true]
            refine .two b b1 (by omega) ?_
            split_ifs at c3 <;> omega
          · simp only [c4, if_false] at h ⊢
            cases t1 with
            | nil => simp at h
            | cons b2 t2 =>
              simp only at h ⊢
              by_cases c5 : b2 < 0x80 ∨ 0xBF < b2
              · simp [c5] at h
              · simp only [c5, if_false] at h ⊢
                by_cases c6 : b < 0xF0
                · simp only [c6, if_true]
                  refine .three b b1 b2 (by omega) ?_ (by omega)
                  split_ifs at c3 <;> omega
                · simp only [c6, if_false] at h ⊢
                  cases t2 with
                  | nil => simp at h
                  | cons b3 t3 =>
                    simp only at h ⊢
                    by_cases c7 : b3 < 0x80 ∨ 0xBF < b3
                    · simp [c7] at h
                    · simp only [c7, if_false]
                      refine .four b b1 b2 b3 (by omega) ?_ (by omega) (by omega)
                      split_ifs at c3 <;> omega

theorem WellFormed_DecodeRune (x : RuneSpan) (h : x.WellFormed) (more : Bytes) :
    DecodeRune (x.bytes ++ more) = (x.rune, x.size) := by
  cases h with
  | one b h => simp [DecodeRune, h]
  | two p0 b1 h0 h1 =>
    have c1 : ¬ p0 < 0x80 := by omega
    have c2 : ¬ (p0 < 0xC2 ∨ 0xF4 < p0) := by omega
    have c3 : ¬ (b1 < (if p0 = 0xE0 then 0xA0 else if p0 = 0xF0 then 0x90 else 0x80) ∨
        (if p0 = 0xED then 0x9F else if p0 = 0xF4 then 0x8F else 0xBF) < b1) := by
      split_ifs <;> omega
    have c4 : p0 < 0xE0 := by omega
    simp only [DecodeRune, List.cons_append, List.nil_append, c1, c2, c3, c4, if_true, if_false]
  | three p0 b1 b2 h0 h1 h2 =>
    have c1 : ¬ p0 < 0x80 := by omega
    have c2 : ¬ (p0 < 0xC2 ∨ 0xF4 < p0) := by omega
    have c3 : ¬ (b1 < (if p0 = 0xE0 then 0xA0 else if p0 = 0xF0 then 0x90 else 0x80) ∨
        (if p0 = 0xED then 0x9F else if p0 = 0xF4 then 0x8F else 0xBF) < b1) := by
      split_ifs <;> omega
    have c4 : ¬ p0 < 0xE0 := by omega
    have c5 : ¬ (b2 < 0x80 ∨ 0xBF < b2) := by omega
    have c6 : p0 < 0xF0 := by omega
    simp only [DecodeRune, List.cons_append, List.nil_append, c1, c2, c3, c4, c5, c6, if_true,
      if_false]
  | four p0 b1 b2 b3 h0 h1 h2 h3 =>
    have c1 : ¬ p0 < 0x80 := by omega
    have c2 : ¬ (p0 < 0xC2 ∨ 0xF4 < p0) := by omega
    have c3 : ¬ (b1 < (if p0 = 0xE0 then 0xA0 else if p0 = 0xF0 then 0x90 else 0x80) ∨
        (if p0 = 0xED then 0x9F else if p0 = 0xF4 then 0x8F else 0xBF) < b1) := by
      split_ifs <;> omega
    have c4 : ¬ p0 < 0xE0 := by omega
    have c5 : ¬ (b2 < 0x80 ∨ 0xBF < b2) := by omega
    have c6 : ¬ p0 < 0xF0 := by omega
    have c7 : ¬ (b3 < 0x80 ∨ 0xBF < b3) := by omega
    simp only [DecodeRune, List.cons_append, List.nil_append, c1, c2, c3, c4, c5, c6, c7,
      if_true, if_false]

theorem WellFormed_EncodeRune (x : RuneSpan) (h : x.WellFormed) :
    EncodeRune x.rune = x.bytes := by
  cases h with
  | one b h => simp [EncodeRune, h]
  | two p0 b1 h0 h1 =>
    have c1 : ¬ p0 % 32 * 64 + b1 % 64 < 0x80 := by omega
    have c2 : p0 % 32 * 64 + b1 % 64 < 0x800 := by omega
    simp only [EncodeRune, c1, c2, if_true, if_false, List.cons.injEq, and_true]
    omega
  | three p0 b1 b2 h0 h1 h2 =>
    have c1 : ¬ p0 % 16 * 4096 + b1 % 64 * 64 + b2 % 64 < 0x80 := by omega
    have c2 : ¬ p0 % 16 * 4096 + b1 % 64 * 64 + b2 % 64 < 0x800 := by omega
    have c3 : ¬ (0x10FFFF < p0 % 16 * 4096 + b1 % 64 * 64 + b2 % 64 ∨
        (0xD800 ≤ p0 % 16 * 4096 + b1 % 64 * 64 + b2 % 64 ∧
          p0 % 16 * 4096 + b1 % 64 * 64 + b2 % 64 ≤ 0xDFFF)) := by omega
    have c4 : p0 % 16 * 4096 + b1 % 64 * 64 + b2 % 64 < 0x10000 := by omega
    simp only [EncodeRune, c1, c2, c3, c4, if_true, if_false, List.cons.injEq, and_true]
    omega
  | four p0 b1 b2 b3 h0 h1 h2 h3 =>
    have c1 : ¬ p0 % 8 * 262144 + b1 % 64 * 4096 + b2 % 64 * 64 + b3 % 64 < 0x80 := by omega
    have c2 : ¬ p0 % 8 * 262144 + b1 % 64 * 4096 + b2 % 64 * 64 + b3 % 64 < 0x800 := by omega
    have c3 : ¬ (0x10FFFF < p0 % 8 * 262144 + b1 % 64 * 4096 + b2 % 64 * 64 + b3 % 64 ∨
        (0xD800 ≤ p0 % 8 * 262144 + b1 % 64 * 4096 + b2 % 64 * 64 + b3 % 64 ∧
          p0 % 8 * 262144 + b1 % 64 * 4096 + b2 % 64 * 64 + b3 % 64 ≤ 0xDFFF)) := by omega
    have c4 : ¬ p0 % 8 * 262144 + b1 % 64 * 4096 + b2 % 64 * 64 + b3 % 64 < 0x10000 := by
      omega
    simp only [EncodeRune, c1, c2, c3, c4, if_true, if_false, List.cons.injEq, and_true]
    omega

theorem runeSpansFrom_wellFormed :
    ∀ (k : Nat) (s : Bytes), (∀ x ∈ runeSpansFrom k s, x.invalid = false) →
      ∀ x ∈ runeSpansFrom k s, x.WellFormed := by
  intro k s
  induction k, s using runeSpansFrom.induct with
  | case1 k => intro _ x hx; simp [runeSpansFrom] at hx
  | case2 k b rest ih =>
    intro h x hx
    rw [runeSpansFrom] at h hx
    exact ih h x hx
  | case3 b rest d ih =>
    intro h x hx
    rw [runeSpansFrom] at h hx
    simp only [List.mem_cons] at h hx
    rcases hx with hx | hx
    · subst hx
      apply DecodeRune_wellFormed
      have := h _ (Or.inl rfl)
      simpa [RuneSpan.invalid] using this
    · exact ih (fun y hy => h y (Or.inr hy)) x hx

theorem WellFormed_size (x : RuneSpan) (h : x.WellFormed) :
    1 ≤ x.size ∧ x.bytes.length = x.size := by
  cases h <;> simp

theorem DecodeRune_size_pos (b : Nat) (rest : Bytes) : 1 ≤ (DecodeRune (b :: rest)).2 := by
  by_cases h : (DecodeRune (b :: rest)).1 = RuneError ∧ (DecodeRune (b :: rest)).2 = 1
  · omega
  · exact (WellFormed_size _ (DecodeRune_wellFormed b rest h)).1

theorem runeSpansFrom_bytes :
    ∀ (k : Nat) (s : Bytes),
      (runeSpansFrom k s).flatMap (fun x => x.bytes) = s.drop k := by
  intro k s
  induction k, s using runeSpansFrom.induct with
  | case1 k => simp [runeSpansFrom]
  | case2 k b rest ih => rw [runeSpansFrom, ih]; simp
  | case3 b rest d ih =>
    rw [runeSpansFrom]
    simp only [List.flatMap_cons, ih, List.drop_zero]
    have hpos := DecodeRune_size_pos b rest
    have hd : rest.drop ((DecodeRune (b :: rest)).2 - 1)
        = (b :: rest).drop (DecodeRune (b :: rest)).2 := by
      obtain ⟨n, hn⟩ : ∃ n, (DecodeRune (b :: rest)).2 = n + 1 :=
        ⟨(DecodeRune (b :: rest)).2 - 1, by omega⟩
      rw [hn]
      simp
    show List.take _ _ ++ List.drop (d.2 - 1) rest = _
    rw [show d = DecodeRune (b :: rest) from rfl, hd, List.take_append_drop]

/-! ## `encoding/json`: reading back a string literal -/

theorem scanFrom_cons (s : Scanner) (c : Nat) (rest : Bytes) :
    scanFrom s (c :: rest) = resume (s.next c) rest := by
  rw [scanFrom]
  cases s.next c <;> rfl

theorem isHexDigit_hex : ∀ n, n < 16 → isHexDigit (hex n) = true := by decide

theorem hexVal_hex : ∀ n, n < 16 → hexVal (hex n) = some n := by decide

theorem scan_plain (raw : Bytes) (ps : List ParseState) (c : Nat) (more : Bytes)
    (h1 : 0x20 ≤ c) (h2 : c ≠ 0x22) (h3 : c ≠ 0x5C) :
    scanFrom ⟨.InString raw, ps⟩ (c :: more) = scanFrom ⟨.InString (raw ++ [c]), ps⟩ more := by
  have h4 : ¬ c < 0x20 := by omega
  simp only [scanFrom_cons, Scanner.next, h2, h3, h4, if_false, resume]

theorem scan_plain_list (l : Bytes) :
    ∀ (raw : Bytes) (ps : List ParseState) (more : Bytes),
      (∀ c ∈ l, 0x20 ≤ c ∧ c ≠ 0x22 ∧ c ≠ 0x5C) →
      scanFrom ⟨.InString raw, ps⟩ (l ++ more) = scanFrom ⟨.InString (raw ++ l), ps⟩ more := by
  induction l with
  | nil => intro raw ps more _; simp
  | cons c l ih =>
    intro raw ps more h
    have hc := h c (by simp)
    rw [List.cons_append, scan_plain raw ps c _ hc.1 hc.2.1 hc.2.2,
      ih _ ps more (fun x hx => h x (by simp [hx]))]
    simp

theorem scan_escape (raw : Bytes) (ps : List ParseState) (c : Nat) (more : Bytes)
    (h : c = 0x62 ∨ c = 0x66 ∨ c = 0x6E ∨ c = 0x72 ∨ c = 0x74 ∨ c = 0x5C ∨ c = 0x2F ∨
      c = 0x22) :
    scanFrom ⟨.InString raw, ps⟩ (0x5C :: c :: more)
      = scanFrom ⟨.InString (raw ++ [0x5C, c]), ps⟩ more := by
  simp only [scanFrom_cons, Scanner.next, resume, h, if_true]
  simp

theorem scan_escape_u (raw : Bytes) (ps : List ParseState) (h1 h2 h3 h4 : Nat) (more : Bytes)
    (x1 : isHexDigit h1 = true) (x2 : isHexDigit h2 = true) (x3 : isHexDigit h3 = true)
    (x4 : isHexDigit h4 = true) :
    scanFrom ⟨.InString raw, ps⟩ (0x5C :: 0x75 :: h1 :: h2 :: h3 :: h4 :: more)
      = scanFrom ⟨.InString (raw ++ [0x5C, 0x75, h1, h2, h3, h4]), ps⟩ more := by
  simp [scanFrom_cons, Scanner.next, resume, x1, x2, x3, x4]

theorem WellFormed_bytes_high (x : RuneSpan) (h : x.WellFormed) (h2 : ¬ x.rune < 0x80) :
    ∀ c ∈ x.bytes, 0x80 ≤ c := by
  cases h with
  | one b h => exact absurd h h2
  | two p0 b1 h0 h1 => intro c hc; simp at hc; rcases hc with hc | hc <;> omega
  | three p0 b1 b2 h0 h1 h2 =>
    intro c hc; simp at hc; rcases hc with hc | hc | hc <;> omega
  | four p0 b1 b2 b3 h0 h1 h2 h3 =>
    intro c hc; simp at hc; rcases hc with hc | hc | hc | hc <;> omega

theorem WellFormed_rune_small (x : RuneSpan) (h : x.WellFormed) (h2 : x.rune < 0x80) :
    x.size = 1 ∧ x.bytes = [x.rune] := by
  cases h with
  | one b h => exact ⟨rfl, rfl⟩
  | two p0 b1 h0 h1 => simp only at h2; omega
  | three p0 b1 b2 h0 h1 h2 => simp only at h2; omega
  | four p0 b1 b2 b3 h0 h1 h2 h3 => simp only at h2; omega

theorem WellFormed_not_invalid (x : RuneSpan) (h : x.WellFormed) : x.invalid = false := by
  cases h <;> simp [RuneSpan.invalid, RuneError]
  omega

/-- The scanner reads through what `appendString` writes for one span. -/
theorem scan_escapeSpan (x : RuneSpan) (hx : x.invalid = true ∨ x.WellFormed)
    (raw : Bytes) (ps : List ParseState) (more : Bytes) :
    scanFrom ⟨.InString raw, ps⟩ (escapeSpan x ++ more)
      = scanFrom ⟨.InString (raw ++ escapeSpan x), ps⟩ more := by
  unfold escapeSpan
  by_cases c1 : x.rune < 0x80 ∧ x.size = 1
  · simp only [c1, and_self, if_true]
    split_ifs with a1 a2 a3 a4 a5
    · rcases a1 with a1 | a1 <;> rw [a1] <;> exact scan_escape raw ps _ more (by simp)
    · exact scan_escape raw ps _ more (by simp)
    · exact scan_escape raw ps _ more (by simp)
    · exact scan_escape raw ps _ more (by simp)
    · exact scan_escape_u raw ps _ _ _ _ more (by decide) (by decide)
        (isHexDigit_hex _ (by omega)) (isHexDigit_hex _ (by omega))
    · exact scan_plain raw ps _ more (by omega) (by omega) (by omega)
  · simp only [c1, if_false]
    by_cases c2 : x.invalid = true
    · simp only [c2, if_true]
      exact scan_escape_u raw ps _ _ _ _ more (by decide) (by decide) (by decide) (by decide)
    · simp only [c2, Bool.false_eq_true, if_false]
      have hw : x.WellFormed := by
        rcases hx with hx | hx
        · exact absurd hx c2
        · exact hx
      split_ifs with a1
      · exact scan_escape_u raw ps _ _ _ _ more (by decide) (by decide) (by decide)
          (isHexDigit_hex _ (by omega))
      · have hr : ¬ x.rune < 0x80 := by
          intro hlt
          exact c1 ⟨hlt, (WellFormed_rune_small x hw hlt).1⟩
        apply scan_plain_list
        intro c hc
        have := WellFormed_bytes_high x hw hr c hc
        omega

theorem runeSpansFrom_cases :
    ∀ (k : Nat) (s : Bytes), ∀ x ∈ runeSpansFrom k s, x.invalid = true ∨ x.WellFormed := by
  intro k s
  induction k, s using runeSpansFrom.induct with
  | case1 k => intro x hx; simp [runeSpansFrom] at hx
  | case2 k b rest ih => intro x hx; rw [runeSpansFrom] at hx; exact ih x hx
  | case3 b rest d ih =>
    intro x hx
    rw [runeSpansFrom] at hx
    simp only [List.mem_cons] at hx
    rcases hx with hx | hx
    · subst hx
      by_cases h : (DecodeRune (b :: rest)).1 = RuneError ∧ (DecodeRune (b :: rest)).2 = 1
      · left
        simp [RuneSpan.invalid, h]
      · right
        exact DecodeRune_wellFormed b rest h
    · exact ih x hx

/-- The scanner reads through the characters `appendString` writes between
the quotes, for every source string. -/
theorem scan_escapeString (s raw : Bytes) (ps : List ParseState) (more : Bytes) :
    scanFrom ⟨.InString raw, ps⟩ (escapeString s ++ more)
      = scanFrom ⟨.InString (raw ++ escapeString s), ps⟩ more := by
  unfold escapeString runeSpans
  have h := runeSpansFrom_cases 0 s
  generalize runeSpansFrom 0 s = spans at h
  induction spans generalizing raw with
  | nil => simp
  | cons x xs ih =>
    simp only [List.flatMap_cons, List.append_assoc]
    rw [scan_escapeSpan x (h x (by simp)), ih _ (fun y hy => h y (by simp [hy]))]
    simp

theorem unquoteFrom_skip (l : Bytes) :
    ∀ (k : Nat) (more : Bytes), l.length = k → unquoteFrom k (l ++ more) = unquoteFrom 0 more := by
  induction l with
  | nil => intro k more h; simp at h; subst h; rfl
  | cons c l ih =>
    intro k more h
    cases k with
    | zero => simp at h
    | succ k =>
      rw [List.cons_append, unquoteFrom]
      exact ih k more (by simpa using h)

theorem unquoteFrom_plain (c : Nat) (more : Bytes) (h1 : 0x20 ≤ c) (h2 : c < 0x80)
    (h3 : c ≠ 0x22) (h4 : c ≠ 0x5C) :
    unquoteFrom 0 (c :: more) = (c :: ·) <$> unquoteFrom 0 more := by
  have h5 : ¬ (c = 0x22 ∨ c < 0x20) := by omega
  rw [unquoteFrom.eq_def]
  simp only [h4, h5, h2, if_true, if_false]

theorem unquoteFrom_plain_list (l : Bytes) :
    ∀ (more : Bytes), (∀ c ∈ l, 0x20 ≤ c ∧ c < 0x80 ∧ c ≠ 0x22 ∧ c ≠ 0x5C) →
      unquoteFrom 0 (l ++ more) = (l ++ ·) <$> unquoteFrom 0 more := by
  induction l with
  | nil => intro more _; simp
  | cons c l ih =>
    intro more h
    have hc := h c (by simp)
    rw [List.cons_append, unquoteFrom_plain c _ hc.1 hc.2.1 hc.2.2.1 hc.2.2.2,
      ih more (fun x hx => h x (by simp [hx]))]
    cases unquoteFrom 0 more <;> simp

theorem unquoteFrom_u (h1 h2 h3 h4 rr : Nat) (more : Bytes)
    (hg : getu4 [0x5C, 0x75, h1, h2, h3, h4] = some rr) (hs : IsSurrogate rr = false) :
    unquoteFrom 0 (0x5C :: 0x75 :: h1 :: h2 :: h3 :: h4 :: more)
      = (EncodeRune rr ++ ·) <$> unquoteFrom 0 more := by
  have hg2 : getu4 (0x5C :: 0x75 :: h1 :: h2 :: h3 :: h4 :: more) = some rr := by
    simpa [getu4] using hg
  rw [unquoteFrom]
  simp only [if_true, hg2, hs]
  simp [unquoteFrom]

theorem getu4_hex (a b c d : Nat) (ha : a < 16) (hb : b < 16) (hc : c < 16) (hd : d < 16) :
    getu4 [0x5C, 0x75, hex a, hex b, hex c, hex d] = some (a * 4096 + b * 256 + c * 16 + d) := by
  simp [getu4, hexVal_hex, ha, hb, hc, hd]

theorem unquoteFrom_multibyte (x : RuneSpan) (h : x.WellFormed) (hr : ¬ x.rune < 0x80)
    (more : Bytes) :
    unquoteFrom 0 (x.bytes ++ more) = (x.bytes ++ ·) <$> unquoteFrom 0 more := by
  have hd := WellFormed_DecodeRune x h more
  have he := WellFormed_EncodeRune x h
  have hsz := WellFormed_size x h
  have hhigh := WellFormed_bytes_high x h hr
  cases hb : x.bytes with
  | nil => rw [hb] at hsz; simp at hsz; omega
  | cons c t =>
    rw [hb] at hd hhigh hsz
    have hc : 0x80 ≤ c := hhigh c (by simp)
    have c1 : ¬ c = 0x5C := by omega
    have c2 : ¬ (c = 0x22 ∨ c < 0x20) := by omega
    have c3 : ¬ c < 0x80 := by omega
    rw [List.cons_append, unquoteFrom.eq_def]
    simp only [c1, c2, c3, if_false]
    rw [← List.cons_append, hd]
    simp only
    rw [he, hb, unquoteFrom_skip t (x.size - 1) more (by simp at hsz; omega)]

/-- What `unquoteBytes` makes of the text `appendString` wrote for one span of
a valid string: the bytes of the span. -/
theorem unquoteFrom_escapeSpan (x : RuneSpan) (hw : x.WellFormed) (more : Bytes) :
    unquoteFrom 0 (escapeSpan x ++ more) = (x.bytes ++ ·) <$> unquoteFrom 0 more := by
  unfold escapeSpan
  by_cases c1 : x.rune < 0x80 ∧ x.size = 1
  · have hb := (WellFormed_rune_small x hw c1.1).2
    simp only [c1, and_self, if_true, hb]
    split_ifs with a1 a2 a3 a4 a5
    · rcases a1 with a1 | a1 <;> rw [a1] <;> simp [unquoteFrom]
    · rw [a2]; simp [unquoteFrom]
    · rw [a3]; simp [unquoteFrom]
    · rw [a4]; simp [unquoteFrom]
    · have hg := getu4_hex 0 0 (x.rune / 16) (x.rune % 16) (by omega) (by omega) (by omega)
        (by omega)
      have e0 : hex 0 = 0x30 := by decide
      rw [e0] at hg
      have hv : 0 * 4096 + 0 * 256 + x.rune / 16 * 16 + x.rune % 16 = x.rune := by omega
      rw [hv] at hg
      rw [List.cons_append, List.cons_append, List.cons_append, List.cons_append,
        List.cons_append, List.cons_append, List.nil_append,
        unquoteFrom_u _ _ _ _ x.rune more hg (by simp [IsSurrogate]; omega)]
      simp [EncodeRune, c1.1]
    · exact unquoteFrom_plain _ more (by omega) (by omega) (by omega) (by omega)
  · have hinv := WellFormed_not_invalid x hw
    simp only [c1, if_false, hinv, Bool.false_eq_true]
    have hr : ¬ x.rune < 0x80 := by
      intro hlt
      exact c1 ⟨hlt, (WellFormed_rune_small x hw hlt).1⟩
    split_ifs with a1
    · have hg := getu4_hex 2 0 2 (x.rune % 16) (by omega) (by omega) (by omega) (by omega)
      have e0 : hex 0 = 0x30 := by decide
      have e2 : hex 2 = 0x32 := by decide
      rw [e0, e2] at hg
      have hv : 2 * 4096 + 0 * 256 + 2 * 16 + x.rune % 16 = x.rune := by omega
      rw [hv] at hg
      rw [List.cons_append, List.cons_append, List.cons_append, List.cons_append,
        List.cons_append, List.cons_append, List.nil_append,
        unquoteFrom_u _ _ _ _ x.rune more hg (by simp [IsSurrogate]; omega),
        WellFormed_EncodeRune x hw]
    · exact unquoteFrom_multibyte x hw hr more

/-- Unquoting what `appendString` wrote for a valid UTF-8 string gives the
string back. -/
theorem unquote_escapeString (s : Bytes) (h : Valid s = true) :
    unquote (escapeString s) = some s := by
  have hspans : ∀ x ∈ runeSpans s, x.WellFormed := by
    apply runeSpansFrom_wellFormed
    intro x hx
    simp only [Valid, Bool.and_eq_true, List.all_eq_true] at h
    have := h.2 x hx
    simpa using this
  have hbytes : (runeSpans s).flatMap (fun x => x.bytes) = s := by
    simpa [runeSpans] using runeSpansFrom_bytes 0 s
  have key : ∀ (spans : List RuneSpan), (∀ x ∈ spans, x.WellFormed) →
      unquoteFrom 0 (spans.flatMap escapeSpan) = some (spans.flatMap (fun x => x.bytes)) := by
    intro spans
    induction spans with
    | nil => intro _; rfl
    | cons x xs ih =>
      intro hx
      rw [List.flatMap_cons, unquoteFrom_escapeSpan x (hx x (by simp)),
        ih (fun y hy => hx y (by simp [hy]))]
      simp
  unfold unquote escapeString
  rw [key _ hspans, hbytes]

/-! ## `encoding/json`: reading back what `Marshal` wrote -/

theorem scan_string_body (s : Bytes) (h : Valid s = true) (ps : List ParseState)
    (rest : Bytes) :
    scanFrom ⟨.InString [], ps⟩ (escapeString s ++ 0x22 :: rest)
      = resume (endValue ps (.str s)) rest := by
  rw [scan_escapeString, scanFrom_cons]
  simp [Scanner.next, unquote_escapeString s h]

theorem Reads_string (s : Bytes) (h : Valid s = true) : Reads 0 (appendString s) (.str s) := by
  intro ps rest _
  unfold appendString
  simp only [List.cons_append, List.append_assoc, List.singleton_append, List.nil_append]
  rw [scanFrom_cons]
  simp only [Scanner.next, stateBeginValue]
  simp only [isSpace, List.append_assoc, List.singleton_append]
  simp [resume, scan_string_body s h]

theorem scan_key (s : Bytes) (h : Valid s = true) (step : Step)
    (hstep : step = .BeginString ∨ step = .BeginStringOrEmpty) (ps : List ParseState)
    (rest : Bytes) :
    scanFrom ⟨step, ps⟩ (appendString s ++ rest) = resume (endValue ps (.str s)) rest := by
  unfold appendString
  simp only [List.cons_append, List.append_assoc, List.singleton_append, List.nil_append]
  rw [scanFrom_cons]
  rcases hstep with hstep | hstep <;> subst hstep <;>
    simp [Scanner.next, stateBeginString, isSpace, resume, scan_string_body s h]

theorem encodeStd_plain : ∀ v, v < 64 →
    0x20 ≤ encodeStd v ∧ encodeStd v < 0x80 ∧ encodeStd v ≠ 0x22 ∧ encodeStd v ≠ 0x5C := by
  decide

theorem EncodeToString_plain :
    ∀ (bs : Bytes), (∀ b ∈ bs, b < 256) →
      ∀ c ∈ EncodeToString bs, 0x20 ≤ c ∧ c < 0x80 ∧ c ≠ 0x22 ∧ c ≠ 0x5C := by
  intro bs
  induction bs using EncodeToString.induct with
  | case1 => intro _ c hc; simp [EncodeToString] at hc
  | case2 a =>
    intro h c hc
    have ha : a < 256 := h a (by simp)
    simp only [EncodeToString, List.mem_cons, List.mem_singleton, List.not_mem_nil,
      or_false] at hc
    rcases hc with hc | hc | hc | hc
    · rw [hc]; exact encodeStd_plain _ (by omega)
    · rw [hc]; exact encodeStd_plain _ (by omega)
    · omega
    · omega
  | case3 a b =>
    intro h c hc
    have ha : a < 256 := h a (by simp)
    have hb : b < 256 := h b (by simp)
    simp only [EncodeToString, List.mem_cons, List.mem_singleton, List.not_mem_nil,
      or_false] at hc
    rcases hc with hc | hc | hc | hc
    · rw [hc]; exact encodeStd_plain _ (by omega)
    · rw [hc]; exact encodeStd_plain _ (by omega)
    · rw [hc]; exact encodeStd_plain _ (by omega)
    · omega
  | case4 a b c rest ih =>
    intro h x hx
    have ha : a < 256 := h a (by simp)
    have hb : b < 256 := h b (by simp)
    have hc : c < 256 := h c (by simp)
    rw [EncodeToString] at hx
    simp only [List.mem_cons] at hx
    rcases hx with hx | hx | hx | hx | hx
    · rw [hx]; exact encodeStd_plain _ (by omega)
    · rw [hx]; exact encodeStd_plain _ (by omega)
    · rw [hx]; exact encodeStd_plain _ (by omega)
    · rw [hx]; exact encodeStd_plain _ (by omega)
    · exact ih (fun y hy => h y (by simp [hy])) x hx

theorem scan_bytes_body (b : Bytes) (h : ∀ x ∈ b, x < 256) (ps : List ParseState)
    (rest : Bytes) :
    scanFrom ⟨.InString [], ps⟩ (EncodeToString b ++ 0x22 :: rest)
      = resume (endValue ps (.str (EncodeToString b))) rest := by
  have hp := EncodeToString_plain b h
  have hu : unquote (EncodeToString b) = some (EncodeToString b) := by
    have := unquoteFrom_plain_list (EncodeToString b) [] hp
    simpa [unquote, unquoteFrom] using this
  rw [scan_plain_list (EncodeToString b) [] ps _ (fun c hc => ⟨(hp c hc).1, (hp c hc).2.2⟩),
    scanFrom_cons]
  simp [Scanner.next, hu]

theorem Reads_bytes (b : Bytes) (h : ∀ x ∈ b, x < 256) :
    Reads 0 (writeBytes b) (.str (EncodeToString b)) := by
  intro ps rest _
  unfold writeBytes
  simp only [List.cons_append, List.append_assoc, List.singleton_append, List.nil_append]
  rw [scanFrom_cons]
  simp only [Scanner.next, stateBeginValue]
  simp only [isSpace, List.append_assoc, List.singleton_append]
  simp [resume, scan_bytes_body b h]

theorem Reads_bool (b : Bool) : Reads 0 (writeBool b) (.bool b) := by
  intro ps rest _
  cases b
  · have e : writeBool false = [0x66, 0x61, 0x6C, 0x73, 0x65] := by decide
    rw [e]
    simp [scanFrom_cons, Scanner.next, stateBeginValue, isSpace, resume]
  · have e : writeBool true = [0x74, 0x72, 0x75, 0x65] := by decide
    rw [e]
    simp [scanFrom_cons, Scanner.next, stateBeginValue, isSpace, resume]

theorem scan_member (d : Nat) (k t : Bytes) (v : JSON) (hk : Valid k = true)
    (ht : Reads d t v) (step : Step)
    (hstep : step = .BeginString ∨ step = .BeginStringOrEmpty)
    (acc : List (Bytes × JSON)) (ps : List ParseState) (more : Bytes)
    (hd : ps.length + (d + 1) ≤ maxNestingDepth) :
    scanFrom ⟨step, .objKey acc :: ps⟩ ((appendString k ++ 0x3A :: t) ++ more)
      = scanFrom ⟨.EndValue, .objComma (acc ++ [(k, v)]) :: ps⟩ more := by
  rw [List.append_assoc, scan_key k hk step hstep]
  simp only [endValue, resume, List.cons_append]
  rw [scanFrom_cons]
  simp only [Scanner.next, stateEndValue, isSpace]
  norm_num
  simp only [resume]
  rw [ht (.objValue acc k :: ps) more (by simp only [List.length_cons]; omega)]
  simp only [endValue, resume]

theorem scan_members (d : Nat) (ms : List (Bytes × Bytes × JSON))
    (h : ∀ m ∈ ms, Valid m.1 = true ∧ Reads d m.2.1 m.2.2) :
    ∀ (acc : List (Bytes × JSON)) (step : Step),
      (step = .BeginString ∨ step = .BeginStringOrEmpty) →
      ∀ (ps : List ParseState) (rest : Bytes), ms ≠ [] →
        ps.length + (d + 1) ≤ maxNestingDepth →
        scanFrom ⟨step, .objKey acc :: ps⟩
            (joinMembers (ms.map fun m => appendString m.1 ++ 0x3A :: m.2.1) ++ 0x7D :: rest)
          = resume (endValue ps (.obj (acc ++ ms.map fun m => (m.1, m.2.2)))) rest := by
  induction ms with
  | nil => intro acc step _ ps rest hne; exact absurd rfl hne
  | cons m ms ih =>
    intro acc step hstep ps rest _ hd
    have hm := h m (by simp)
    cases ms with
    | nil =>
      simp only [List.map_cons, List.map_nil, joinMembers]
      rw [scan_member d m.1 m.2.1 m.2.2 hm.1 hm.2 step hstep acc ps _ hd, scanFrom_cons]
      simp only [Scanner.next, stateEndValue, isSpace]
      norm_num
    | cons m2 ms2 =>
      simp only [List.map_cons, joinMembers]
      rw [List.append_assoc,
        scan_member d m.1 m.2.1 m.2.2 hm.1 hm.2 step hstep acc ps _ hd]
      simp only [List.cons_append]
      rw [scanFrom_cons]
      simp only [Scanner.next, stateEndValue, isSpace]
      norm_num
      simp only [resume]
      have := ih (fun x hx => h x (by simp [hx])) (acc ++ [(m.1, m.2.2)]) .BeginString
        (Or.inl rfl) ps rest (by simp) hd
      simp only [List.map_cons, List.append_assoc, List.singleton_append] at this
      exact this

/-- An object whose keys are valid strings and whose member texts are read as
values is read as the object of those members. -/
theorem Reads_object (d : Nat) (ms : List (Bytes × Bytes × JSON))
    (h : ∀ m ∈ ms, Valid m.1 = true ∧ Reads d m.2.1 m.2.2) :
    Reads (d + 1) (writeObject (ms.map fun m => appendString m.1 ++ 0x3A :: m.2.1))
      (.obj (ms.map fun m => (m.1, m.2.2))) := by
  intro ps rest hd
  unfold writeObject
  simp only [List.cons_append, List.append_assoc, List.singleton_append]
  rw [scanFrom_cons]
  have hd2 : ps.length + 1 ≤ maxNestingDepth := by omega
  simp only [Scanner.next, stateBeginValue, isSpace, hd2]
  norm_num
  simp only [resume]
  cases hms : ms with
  | nil =>
    simp only [List.map_nil, joinMembers, List.nil_append]
    rw [scanFrom_cons]
    simp only [Scanner.next, isSpace]
    norm_num
    rfl
  | cons m ms2 =>
    have := scan_members d ms h [] .BeginStringOrEmpty (Or.inr rfl) ps rest
      (by rw [hms]; simp) hd
    rw [hms] at this
    simpa using this

theorem Reads_mono (d : Nat) (t : Bytes) (v : JSON) (h : Reads 0 t v) : Reads d t v := by
  intro ps rest hd
  exact h ps rest (by omega)

theorem Reads_mono_succ (d : Nat) (t : Bytes) (v : JSON) (h : Reads d t v) :
    Reads (d + 1) t v := by
  intro ps rest hd
  exact h ps rest (by omega)

theorem Reads_entries (m : List (Bytes × Bytes)) (h : EntriesOK m) :
    Reads 1 (writeEntries m) (entriesTree m) := by
  have := Reads_object 0
    (m.map fun kv => (kv.1, writeBytes kv.2, JSON.str (EncodeToString kv.2)))
    (by
      intro x hx
      simp only [List.mem_map] at hx
      obtain ⟨kv, hkv, rfl⟩ := hx
      exact ⟨(h.2 kv hkv).1, Reads_bytes kv.2 (h.2 kv hkv).2⟩)
  simpa [writeEntries, entriesTree, List.map_map, Function.comp_def] using this

theorem member_eq (name : String) (value : Bytes)
    (hn : escapeString (ascii name) = ascii name) :
    member name value = appendString (ascii name) ++ 0x3A :: value := by
  simp [member, appendString, hn]

theorem optTriple_map_text (name : String) (x : Option (Bytes × JSON))
    (hn : escapeString (ascii name) = ascii name) :
    ((optTriple name x).map fun m => appendString m.1 ++ 0x3A :: m.2.1)
      = optMember name (x.map Prod.fst) := by
  cases x <;> simp [optTriple, optMember, member_eq name _ hn]

theorem optTriple_map_value (name : String) (x : Option (Bytes × JSON)) :
    ((optTriple name x).map fun m => (m.1, m.2.2)) = optKV name (x.map Prod.snd) := by
  cases x <;> simp [optTriple, optKV]

theorem optTriple_reads (d : Nat) (name : String) (x : Option (Bytes × JSON))
    (hn : Valid (ascii name) = true) (hx : ∀ tv, x = some tv → Reads d tv.1 tv.2) :
    ∀ m ∈ optTriple name x, Valid m.1 = true ∧ Reads d m.2.1 m.2.2 := by
  intro m hm
  cases x with
  | none => simp [optTriple] at hm
  | some tv =>
    simp only [optTriple, List.mem_singleton] at hm
    subst hm
    exact ⟨hn, hx tv rfl⟩

theorem Reads_external (f : ExternalMembers)
    (h : ∀ m, f.connectionDetails = some m → EntriesOK m) :
    Reads 2 f.body f.tree := by
  have := Reads_object 1
    (optTriple "resourceExists" (f.resourceExists.map fun b => (writeBool b, JSON.bool b)) ++
      optTriple "resourceUpToDate"
        (f.resourceUpToDate.map fun b => (writeBool b, JSON.bool b)) ++
      optTriple "resourceLateInitialized"
        (f.resourceLateInitialized.map fun b => (writeBool b, JSON.bool b)) ++
      optTriple "connectionDetails"
        (f.connectionDetails.map fun m => (writeEntries m, entriesTree m)))
    (by
      intro x hx
      simp only [List.mem_append] at hx
      rcases hx with ((hx | hx) | hx) | hx
      · refine optTriple_reads 1 _ _ (by decide) ?_ x hx
        intro tv htv
        simp only [Option.map_eq_some'] at htv
        obtain ⟨b, _, rfl⟩ := htv
        exact Reads_mono _ _ _ (Reads_bool b)
      · refine optTriple_reads 1 _ _ (by decide) ?_ x hx
        intro tv htv
        simp only [Option.map_eq_some'] at htv
        obtain ⟨b, _, rfl⟩ := htv
        exact Reads_mono _ _ _ (Reads_bool b)
      · refine optTriple_reads 1 _ _ (by decide) ?_ x hx
        intro tv htv
        simp only [Option.map_eq_some'] at htv
        obtain ⟨b, _, rfl⟩ := htv
        exact Reads_mono _ _ _ (Reads_bool b)
      · refine optTriple_reads 1 _ _ (by decide) ?_ x hx
        intro tv htv
        simp only [Option.map_eq_some'] at htv
        obtain ⟨m, hm, rfl⟩ := htv
        exact Reads_entries m (h m hm))
  simp only [List.map_append, optTriple_map_value, Option.map_map, Function.comp_def,
    optTriple_map_text _ _ (show escapeString (ascii "resourceExists")
      = ascii "resourceExists" by decide),
    optTriple_map_text _ _ (show escapeString (ascii "resourceUpToDate")
      = ascii "resourceUpToDate" by decide),
    optTriple_map_text _ _ (show escapeString (ascii "resourceLateInitialized")
      = ascii "resourceLateInitialized" by decide),
    optTriple_map_text _ _ (show escapeString (ascii "connectionDetails")
      = ascii "connectionDetails" by decide)] at this
  exact this

theorem Reads_response (f : ResponseMembers) (h : f.OK) : Reads 3 f.body f.tree := by
  have := Reads_object 2
    (optTriple "externalObservation"
        (f.externalObservation.map fun e => (e.body, e.tree)) ++
      optTriple "errMessage" (f.errMessage.map fun s => (appendString s, JSON.str s)))
    (by
      intro x hx
      simp only [List.mem_append] at hx
      rcases hx with hx | hx
      · refine optTriple_reads 2 _ _ (by decide) ?_ x hx
        intro tv htv
        simp only [Option.map_eq_some'] at htv
        obtain ⟨e, he, rfl⟩ := htv
        exact Reads_external e (h.2 e he)
      · refine optTriple_reads 2 _ _ (by decide) ?_ x hx
        intro tv htv
        simp only [Option.map_eq_some'] at htv
        obtain ⟨s, hs, rfl⟩ := htv
        exact Reads_mono _ _ _ (Reads_string s (h.1 s hs)))
  simp only [List.map_append, optTriple_map_value, Option.map_map, Function.comp_def,
    optTriple_map_text _ _ (show escapeString (ascii "externalObservation")
      = ascii "externalObservation" by decide),
    optTriple_map_text _ _ (show escapeString (ascii "errMessage")
      = ascii "errMessage" by decide)] at this
  exact this

/-- The scanner reads a body of well-formed members as its JSON value. -/
theorem readValue_body (f : ResponseMembers) (h : f.OK) : readValue f.body = .ok f.tree := by
  have := Reads_response f h [] [] (by decide)
  simpa [readValue, endValue, resume] using this

/-! ## `encoding/json`: storing the value of a body -/

theorem ConnectionDetails_set_new (acc : ConnectionDetails) (k v : Bytes)
    (h : ∀ x ∈ acc, x.1 ≠ k) : acc.set k v = acc ++ [(k, v)] := by
  unfold ConnectionDetails.set
  have : acc.any (fun kv => decide (kv.1 = k)) = false := by
    simp only [List.any_eq_false, decide_eq_true_eq]
    exact h
  simp [this]

theorem decodeEntries_fold (m : List (Bytes × Bytes)) :
    ∀ (acc : ConnectionDetails), (m.map fun kv => kv.1).Nodup →
      (∀ kv ∈ m, ∀ b ∈ kv.2, b < 256) → (∀ kv ∈ m, ∀ x ∈ acc, x.1 ≠ kv.1) →
      (m.map fun kv => (kv.1, JSON.str (EncodeToString kv.2))).foldlM
          (fun (a : ConnectionDetails) (kv : Bytes × JSON) =>
            (fun b => a.set kv.1 b) <$> decodeBytes kv.2) acc
        = .ok (acc ++ m) := by
  induction m with
  | nil => intro acc _ _ _; simp [pure, Except.pure]
  | cons kv m ih =>
    intro acc hnd hb hacc
    simp only [List.map_cons, List.nodup_cons] at hnd
    have hdec : decodeBytes (JSON.str (EncodeToString kv.2)) = .ok kv.2 := by
      simp [decodeBytes, DecodeString_EncodeToString kv.2 (hb kv (by simp))]
    rw [List.map_cons, List.foldlM_cons, hdec]
    change List.foldlM _ (acc.set kv.1 kv.2) _ = _
    rw [ConnectionDetails_set_new acc kv.1 kv.2 (hacc kv (by simp)),
      ih _ hnd.2 (fun x hx => hb x (by simp [hx])) (by
        intro x hx y hy
        simp only [List.mem_append, List.mem_singleton] at hy
        rcases hy with hy | hy
        · exact hacc x (by simp [hx]) y hy
        · subst hy
          intro heq
          apply hnd.1
          simp only [List.mem_map]
          exact ⟨x, hx, heq.symm⟩)]
    simp

theorem decodeConnectionDetails_entries (m : List (Bytes × Bytes)) (h : EntriesOK m) :
    decodeConnectionDetails (entriesTree m) [] = .ok m := by
  have := decodeEntries_fold m [] h.1 (fun kv hkv => (h.2 kv hkv).2) (by simp)
  simpa [decodeConnectionDetails, entriesTree] using this

theorem ExternalObservation_setField_bool (o : ExternalObservation) (b : Bool) :
    o.setField (ascii "resourceExists") (.bool b) = .ok { o with ResourceExists := b } ∧
      o.setField (ascii "resourceUpToDate") (.bool b) = .ok { o with ResourceUpToDate := b } ∧
      o.setField (ascii "resourceLateInitialized") (.bool b)
        = .ok { o with ResourceLateInitialized := b } :=
  ⟨rfl, rfl, rfl⟩

theorem ExternalObservation_setField_details (o : ExternalObservation) (v : JSON) :
    o.setField (ascii "connectionDetails") v =
      (fun m => { o with ConnectionDetails := m }) <$>
        decodeConnectionDetails v o.ConnectionDetails :=
  rfl

theorem decodeStruct_external (f : ExternalMembers)
    (h : ∀ m, f.connectionDetails = some m → EntriesOK m) :
    decodeStruct ExternalObservation.setField f.tree {} = .ok f.value := by
  rcases f with ⟨a, b, c, m⟩
  have hm : ∀ x, m = some x → decodeConnectionDetails (entriesTree x) [] = .ok x :=
    fun x hx => decodeConnectionDetails_entries x (h x hx)
  cases a <;> cases b <;> cases c <;> cases m <;>
    simp [ExternalMembers.tree, ExternalMembers.value, decodeStruct, optKV,
      ExternalObservation_setField_bool, ExternalObservation_setField_details, hm,
      bind, Except.bind, pure, Except.pure, Functor.map, Except.map]

theorem ObservationResponse_setField_known (r : ObservationResponse) (v : JSON) :
    r.setField (ascii "externalObservation") v =
        (fun e => { r with External := e }) <$>
          decodeStruct ExternalObservation.setField v r.External ∧
      r.setField (ascii "errMessage") v =
        (fun s => { r with ErrMessage := s }) <$> decodeString v r.ErrMessage :=
  ⟨rfl, rfl⟩

theorem decodeStruct_response (f : ResponseMembers) (h : f.OK) :
    decodeStruct ObservationResponse.setField f.tree {} = .ok f.value := by
  rcases f with ⟨e, s⟩
  have he : ∀ x, e = some x → decodeStruct ExternalObservation.setField x.tree {}
      = .ok x.value := fun x hx => decodeStruct_external x (h.2 x hx)
  unfold ResponseMembers.tree
  simp only [decodeStruct]
  cases e <;> cases s <;>
    simp [ResponseMembers.value, optKV,
      ObservationResponse_setField_known, he, decodeString,
      bind, Except.bind, pure, Except.pure, Functor.map, Except.map]

/-- Decoding a body of well-formed members gives the response they stand for:
every member that is present is stored, every member that is absent leaves the
zero value. -/
theorem Decode_body (f : ResponseMembers) (h : f.OK) :
    ObservationResponse.Decode f.body {} = .ok f.value := by
  simp only [ObservationResponse.Decode, readValue_body f h]
  exact decodeStruct_response f h

/-! ## The wire round trip -/

theorem get_eq_some_iff (m : ConnectionDetails) (hnd : (m.map fun kv => kv.1).Nodup)
    (k v : Bytes) : m.get k = some v ↔ (k, v) ∈ m := by
  unfold ConnectionDetails.get
  induction m with
  | nil => simp
  | cons x m ih =>
    simp only [List.map_cons, List.nodup_cons] at hnd
    by_cases hx : x.1 = k
    · simp only [List.find?_cons, hx, decide_True, Option.map_some', Option.some.injEq,
        List.mem_cons]
      constructor
      · intro h
        left
        rw [← h, ← hx]
      · rintro (h | h)
        · rw [← h]
        · exfalso
          apply hnd.1
          simp only [List.mem_map]
          exact ⟨(k, v), h, hx.symm⟩
    · simp only [List.find?_cons, hx, decide_False, List.mem_cons]
      rw [ih hnd.2]
      constructor
      · intro h; exact Or.inr h
      · rintro (h | h)
        · exfalso
          apply hx
          rw [← h]
        · exact h

theorem get_perm (m1 m2 : ConnectionDetails) (hp : m1.Perm m2)
    (hnd : (m1.map fun kv => kv.1).Nodup) (k : Bytes) : m1.get k = m2.get k := by
  have hnd2 : (m2.map fun kv => kv.1).Nodup := (hp.map _).nodup_iff.mp hnd
  apply Option.ext
  intro v
  simp only [Option.mem_def]
  rw [get_eq_some_iff m1 hnd, get_eq_some_iff m2 hnd2]
  exact hp.mem_iff

theorem EntriesOK_perm (m1 m2 : List (Bytes × Bytes)) (hp : m1.Perm m2) (h : EntriesOK m1) :
    EntriesOK m2 :=
  ⟨(hp.map _).nodup_iff.mp h.1, fun kv hkv => h.2 kv (hp.mem_iff.mpr hkv)⟩

theorem ObservationResponse_members_OK (r : ObservationResponse)
    (herr : Valid r.ErrMessage = true) (hcd : EntriesOK r.External.ConnectionDetails) :
    r.members.OK := by
  constructor
  · intro s hs
    simp only [ObservationResponse.members] at hs
    split_ifs at hs
    cases hs
    exact herr
  · intro e he m hm
    simp only [ObservationResponse.members, Option.some.injEq] at he
    subst he
    simp only [ExternalObservation.members] at hm
    split_ifs at hm
    cases hm
    exact EntriesOK_perm _ _ (List.perm_insertionSort _ _).symm hcd

/-- What decoding the encoding of a response gives: the response itself, with
the connection details in key order. -/
theorem Decode_Marshal (r : ObservationResponse) (herr : Valid r.ErrMessage = true)
    (hcd : EntriesOK r.External.ConnectionDetails) :
    ObservationResponse.Decode r.Marshal {} =
      .ok { r with External := { r.External with
              ConnectionDetails :=
                r.External.ConnectionDetails.insertionSort (fun a b => a.1 ≤ b.1) } } := by
  rw [ObservationResponse_Marshal_eq_body, Decode_body _ (ObservationResponse_members_OK r herr hcd)]
  rcases r with ⟨⟨a, b, c, m⟩, e⟩
  cases a <;> cases b <;> cases c <;> by_cases hm : m = [] <;> by_cases he : e = [] <;>
    simp [ResponseMembers.value, ObservationResponse.members, ExternalObservation.members,
      ExternalMembers.value, hm, he]

/-- Counterexample to C7 as stated: the encoding of a response whose
errMessage is the byte 0xFF (not valid UTF-8) decodes to a response whose
errMessage is the three bytes of U+FFFD, so errMessage is not preserved. -/
theorem Marshal_replaces_invalid_utf8 :
    ObservationResponse.Decode invalidMessageResponse.Marshal {}
        = .ok { ErrMessage := [0xEF, 0xBF, 0xBD] } ∧
      ¬ ∃ r, ObservationResponse.Decode invalidMessageResponse.Marshal {} = .ok r ∧
          r.ErrMessage = invalidMessageResponse.ErrMessage := by
  have h : ObservationResponse.Decode invalidMessageResponse.Marshal {}
      = .ok { ErrMessage := [0xEF, 0xBF, 0xBD] } := by decide
  refine ⟨h, ?_⟩
  rintro ⟨r, hr, he⟩
  rw [h] at hr
  cases hr
  revert he
  decide

/-- The round trip on one response: decoding the encoding of a response with
valid UTF-8 strings gives the same booleans, the same errMessage and the same
bytes under every connectionDetails key. -/
theorem Decode_Marshal_fields (r : ObservationResponse)
    (herr : Valid r.ErrMessage = true) (hcd : EntriesOK r.External.ConnectionDetails) :
    ∃ r1, ObservationResponse.Decode r.Marshal {} = .ok r1 ∧
      r1.External.ResourceExists = r.External.ResourceExists ∧
      r1.External.ResourceUpToDate = r.External.ResourceUpToDate ∧
      r1.External.ResourceLateInitialized = r.External.ResourceLateInitialized ∧
      r1.ErrMessage = r.ErrMessage ∧
      ∀ k, r1.External.ConnectionDetails.get k = r.External.ConnectionDetails.get k := by
  refine ⟨_, Decode_Marshal r herr hcd, rfl, rfl, rfl, rfl, ?_⟩
  intro k
  exact get_perm _ _ (List.perm_insertionSort _ _)
    ((List.perm_insertionSort _ _).map _ |>.nodup_iff.mpr hcd.1) k

/-- C7 (amended): for every ObservationResponse whose errMessage and
connectionDetails keys are valid UTF-8 (keys distinct, as in a map), decoding
its JSON encoding succeeds and yields the same resourceExists,
resourceUpToDate, resourceLateInitialized and errMessage, and the same byte
value under every key of connectionDetails; in particular the response with
resourceExists=true and connectionDetails={"user":"alice"} is encoded as
`{"externalObservation":{"resourceExists":true,"connectionDetails":{"user":"YWxpY2U="}}}`
and decodes to itself. -/
theorem ObservationResponse_wire_roundtrip :
    (∀ r : ObservationResponse, Valid r.ErrMessage = true →
      EntriesOK r.External.ConnectionDetails →
      ∃ r1, ObservationResponse.Decode r.Marshal {} = .ok r1 ∧
        r1.External.ResourceExists = r.External.ResourceExists ∧
        r1.External.ResourceUpToDate = r.External.ResourceUpToDate ∧
        r1.External.ResourceLateInitialized = r.External.ResourceLateInitialized ∧
        r1.ErrMessage = r.ErrMessage ∧
        ∀ k, r1.External.ConnectionDetails.get k = r.External.ConnectionDetails.get k) ∧
      aliceResponse.Marshal =
        ascii ("\x7b\"externalObservation\":\x7b\"resourceExists\":true," ++
          "\"connectionDetails\":\x7b\"user\":\"YWxpY2U=\"\x7d\x7d\x7d") ∧
      ObservationResponse.Decode aliceResponse.Marshal {} = .ok aliceResponse ∧
      aliceResponse.External.ResourceExists = true ∧
      aliceResponse.External.ConnectionDetails.get (ascii "user") = some (ascii "alice") :=
  ⟨Decode_Marshal_fields, by decide, by decide, by decide, by decide⟩

theorem ObservationResponse_wire_roundtrip_witness :
    ∃ r1, ObservationResponse.Decode aliceResponse.Marshal {} = .ok r1 ∧
      r1.External.ResourceExists = aliceResponse.External.ResourceExists ∧
      r1.External.ResourceUpToDate = aliceResponse.External.ResourceUpToDate ∧
      r1.External.ResourceLateInitialized = aliceResponse.External.ResourceLateInitialized ∧
      r1.ErrMessage = aliceResponse.ErrMessage ∧
      ∀ k, r1.External.ConnectionDetails.get k
        = aliceResponse.External.ConnectionDetails.get k :=
  ObservationResponse_wire_roundtrip.1 aliceResponse (by decide) (by decide)

/-! ## Members that are absent -/

theorem map_eq_ok {α β : Type} (g : α → β) (x : Except DecodeError α) (y : β)
    (h : g <$> x = .ok y) : ∃ a, x = .ok a ∧ y = g a := by
  cases x with
  | error e => cases h
  | ok a =>
    refine ⟨a, rfl, ?_⟩
    have : (Except.ok (g a) : Except DecodeError β) = .ok y := h
    cases this
    rfl

theorem foldlM_invariant {σ α : Type} (f : σ → α → Except DecodeError σ) (P : σ → Prop)
    (good : α → Prop) (hstep : ∀ s x s1, good x → P s → f s x = .ok s1 → P s1) :
    ∀ (l : List α) (init r : σ), (∀ x ∈ l, good x) → P init →
      l.foldlM f init = .ok r → P r := by
  intro l
  induction l with
  | nil =>
    intro init r _ hP h
    have : (Except.ok init : Except DecodeError σ) = .ok r := h
    cases this
    exact hP
  | cons x xs ih =>
    intro init r hgood hP h
    rw [List.foldlM_cons] at h
    cases hx : f init x with
    | error e => rw [hx] at h; cases h
    | ok s1 =>
      rw [hx] at h
      exact ih s1 r (fun y hy => hgood y (by simp [hy]))
        (hstep init x s1 (hgood x (by simp)) hP hx) h

theorem lookupField_mem (names : List Bytes) (key f : Bytes)
    (h : lookupField names key = some f) : f ∈ names := by
  unfold lookupField at h
  cases hf : names.find? (fun n => n = key) with
  | some n =>
    rw [hf] at h
    cases h
    exact List.mem_of_find?_eq_some hf
  | none =>
    rw [hf] at h
    exact List.mem_of_find?_eq_some h

/-- A member stored into an ExternalObservation changes only the field its
key selects. -/
theorem ExternalObservation_setField_frame (o o1 : ExternalObservation) (kv : Bytes × JSON)
    (h : o.setField kv.1 kv.2 = .ok o1) :
    (selects externalObservationFields "resourceExists" kv = false →
        o1.ResourceExists = o.ResourceExists) ∧
      (selects externalObservationFields "resourceUpToDate" kv = false →
        o1.ResourceUpToDate = o.ResourceUpToDate) ∧
      (selects externalObservationFields "resourceLateInitialized" kv = false →
        o1.ResourceLateInitialized = o.ResourceLateInitialized) ∧
      (selects externalObservationFields "connectionDetails" kv = false →
        o1.ConnectionDetails = o.ConnectionDetails) := by
  unfold ExternalObservation.setField at h
  unfold selects
  cases hl : lookupField externalObservationFields kv.1 with
  | none =>
    simp only [hl] at h
    cases h
    simp
  | some f =>
    simp only [hl] at h
    have hmem := lookupField_mem _ _ _ hl
    simp only [externalObservationFields, List.mem_cons, List.mem_singleton,
      List.not_mem_nil, or_false] at hmem
    rcases hmem with hm | hm | hm | hm <;> subst hm
    · rw [if_pos rfl] at h
      obtain ⟨b, _, rfl⟩ := map_eq_ok _ _ _ h
      simp
    · rw [if_neg (by decide), if_pos rfl] at h
      obtain ⟨b, _, rfl⟩ := map_eq_ok _ _ _ h
      simp
    · rw [if_neg (by decide), if_neg (by decide), if_pos rfl] at h
      obtain ⟨b, _, rfl⟩ := map_eq_ok _ _ _ h
      simp
    · rw [if_neg (by decide), if_neg (by decide), if_neg (by decide)] at h
      obtain ⟨b, _, rfl⟩ := map_eq_ok _ _ _ h
      simp

/-- Storing an object into an ExternalObservation leaves a field as it was
when no member selects it. -/
theorem decodeStruct_external_frame (v : JSON) (o o1 : ExternalObservation)
    (h : decodeStruct ExternalObservation.setField v o = .ok o1) :
    ∀ inner, v = .obj inner →
      (absent externalObservationFields "resourceExists" inner = true →
        o1.ResourceExists = o.ResourceExists) ∧
      (absent externalObservationFields "resourceUpToDate" inner = true →
        o1.ResourceUpToDate = o.ResourceUpToDate) ∧
      (absent externalObservationFields "resourceLateInitialized" inner = true →
        o1.ResourceLateInitialized = o.ResourceLateInitialized) ∧
      (absent externalObservationFields "connectionDetails" inner = true →
        o1.ConnectionDetails = o.ConnectionDetails) := by
  intro inner hv
  subst hv
  simp only [decodeStruct] at h
  simp only [absent, List.all_eq_true, Bool.not_eq_true']
  refine ⟨fun ha => ?_, fun ha => ?_, fun ha => ?_, fun ha => ?_⟩
  · exact foldlM_invariant (fun s (kv : Bytes × JSON) => s.setField kv.1 kv.2)
      (fun s => s.ResourceExists = o.ResourceExists)
      (fun kv => selects externalObservationFields "resourceExists" kv = false)
      (fun s x s1 hx hP hs =>
        ((ExternalObservation_setField_frame s s1 x hs).1 hx).trans hP)
      inner o o1 ha rfl h
  · exact foldlM_invariant (fun s (kv : Bytes × JSON) => s.setField kv.1 kv.2)
      (fun s => s.ResourceUpToDate = o.ResourceUpToDate)
      (fun kv => selects externalObservationFields "resourceUpToDate" kv = false)
      (fun s x s1 hx hP hs =>
        ((ExternalObservation_setField_frame s s1 x hs).2.1 hx).trans hP)
      inner o o1 ha rfl h
  · exact foldlM_invariant (fun s (kv : Bytes × JSON) => s.setField kv.1 kv.2)
      (fun s => s.ResourceLateInitialized = o.ResourceLateInitialized)
      (fun kv => selects externalObservationFields "resourceLateInitialized" kv = false)
      (fun s x s1 hx hP hs =>
        ((ExternalObservation_setField_frame s s1 x hs).2.2.1 hx).trans hP)
      inner o o1 ha rfl h
  · exact foldlM_invariant (fun s (kv : Bytes × JSON) => s.setField kv.1 kv.2)
      (fun s => s.ConnectionDetails = o.ConnectionDetails)
      (fun kv => selects externalObservationFields "connectionDetails" kv = false)
      (fun s x s1 hx hP hs =>
        ((ExternalObservation_setField_frame s s1 x hs).2.2.2 hx).trans hP)
      inner o o1 ha rfl h

/-- The condition of `externalAbsent` on one member. -/
theorem externalAbsent_member (name : String) (kvs : List (Bytes × JSON))
    (h : externalAbsent name kvs = true) :
    ∀ kv ∈ kvs, selects observationResponseFields "externalObservation" kv = false ∨
      (∀ inner, kv.2 = .obj inner → absent externalObservationFields name inner = true) := by
  intro kv hkv
  simp only [externalAbsent, List.all_eq_true, Bool.or_eq_true, Bool.not_eq_true'] at h
  rcases h kv hkv with h1 | h1
  · exact Or.inl h1
  · right
    intro inner hi
    rw [hi] at h1
    exact h1

/-- A member stored into an ObservationResponse changes only the field its key
selects, and inside `externalObservation` only the fields its members
select. -/
theorem ObservationResponse_setField_frame (r r1 : ObservationResponse) (kv : Bytes × JSON)
    (h : r.setField kv.1 kv.2 = .ok r1) :
    (selects observationResponseFields "errMessage" kv = false →
        r1.ErrMessage = r.ErrMessage) ∧
      (selects observationResponseFields "externalObservation" kv = false →
        r1.External = r.External) ∧
      ((∀ inner, kv.2 = .obj inner →
          absent externalObservationFields "resourceExists" inner = true) →
        r1.External.ResourceExists = r.External.ResourceExists) ∧
      ((∀ inner, kv.2 = .obj inner →
          absent externalObservationFields "resourceUpToDate" inner = true) →
        r1.External.ResourceUpToDate = r.External.ResourceUpToDate) ∧
      ((∀ inner, kv.2 = .obj inner →
          absent externalObservationFields "resourceLateInitialized" inner = true) →
        r1.External.ResourceLateInitialized = r.External.ResourceLateInitialized) ∧
      ((∀ inner, kv.2 = .obj inner →
          absent externalObservationFields "connectionDetails" inner = true) →
        r1.External.ConnectionDetails = r.External.ConnectionDetails) := by
  unfold ObservationResponse.setField at h
  unfold selects
  cases hl : lookupField observationResponseFields kv.1 with
  | none =>
    simp only [hl] at h
    cases h
    simp
  | some f =>
    simp only [hl] at h
    have hmem := lookupField_mem _ _ _ hl
    simp only [observationResponseFields, List.mem_cons, List.mem_singleton,
      List.not_mem_nil, or_false] at hmem
    rcases hmem with hm | hm <;> subst hm
    · rw [if_pos rfl] at h
      obtain ⟨e, he, rfl⟩ := map_eq_ok _ _ _ h
      refine ⟨by simp, by simp, ?_, ?_, ?_, ?_⟩ <;> intro hab
      all_goals
        cases hv : kv.2 with
        | obj inner =>
          have hf := decodeStruct_external_frame kv.2 r.External e he inner hv
          first
            | exact hf.1 (hab inner hv)
            | exact hf.2.1 (hab inner hv)
            | exact hf.2.2.1 (hab inner hv)
            | exact hf.2.2.2 (hab inner hv)
        | null =>
          rw [hv] at he
          cases he
          rfl
        | bool b => rw [hv] at he; cases he
        | num l => rw [hv] at he; cases he
        | str l => rw [hv] at he; cases he
        | arr l => rw [hv] at he; cases he
    · rw [if_neg (by decide)] at h
      obtain ⟨e, he, rfl⟩ := map_eq_ok _ _ _ h
      simp

/-- Decoding any JSON object leaves at its zero value every field that no
member selects. -/
theorem Decode_absent_fields (body : Bytes) (kvs : List (Bytes × JSON))
    (r : ObservationResponse) (hv : readValue body = .ok (.obj kvs))
    (hd : ObservationResponse.Decode body {} = .ok r) :
    (absent observationResponseFields "errMessage" kvs = true → r.ErrMessage = []) ∧
      (absent observationResponseFields "externalObservation" kvs = true →
        r.External = {}) ∧
      (externalAbsent "resourceExists" kvs = true → r.External.ResourceExists = false) ∧
      (externalAbsent "resourceUpToDate" kvs = true →
        r.External.ResourceUpToDate = false) ∧
      (externalAbsent "resourceLateInitialized" kvs = true →
        r.External.ResourceLateInitialized = false) ∧
      (externalAbsent "connectionDetails" kvs = true →
        r.External.ConnectionDetails = []) := by
  simp only [ObservationResponse.Decode, hv, decodeStruct] at hd
  refine ⟨fun ha => ?_, fun ha => ?_, fun ha => ?_, fun ha => ?_, fun ha => ?_, fun ha => ?_⟩
  · simp only [absent, List.all_eq_true, Bool.not_eq_true'] at ha
    exact foldlM_invariant (fun s (kv : Bytes × JSON) => s.setField kv.1 kv.2)
      (fun s => s.ErrMessage = [])
      (fun kv => selects observationResponseFields "errMessage" kv = false)
      (fun s x s1 hx hP hs =>
        ((ObservationResponse_setField_frame s s1 x hs).1 hx).trans hP)
      kvs {} r ha rfl hd
  · simp only [absent, List.all_eq_true, Bool.not_eq_true'] at ha
    exact foldlM_invariant (fun s (kv : Bytes × JSON) => s.setField kv.1 kv.2)
      (fun s => s.External = {})
      (fun kv => selects observationResponseFields "externalObservation" kv = false)
      (fun s x s1 hx hP hs =>
        ((ObservationResponse_setField_frame s s1 x hs).2.1 hx).trans hP)
      kvs {} r ha rfl hd
  · exact foldlM_invariant (fun s (kv : Bytes × JSON) => s.setField kv.1 kv.2)
      (fun s => s.External.ResourceExists = false)
      (fun kv => selects observationResponseFields "externalObservation" kv = false ∨
        (∀ inner, kv.2 = .obj inner →
          absent externalObservationFields "resourceExists" inner = true))
      (fun s x s1 hx hP hs => by
        have hf := ObservationResponse_setField_frame s s1 x hs
        rcases hx with hx | hx
        · exact (congrArg ExternalObservation.ResourceExists (hf.2.1 hx)).trans hP
        · exact (hf.2.2.1 hx).trans hP)
      kvs {} r (externalAbsent_member _ kvs ha) rfl hd
  · exact foldlM_invariant (fun s (kv : Bytes × JSON) => s.setField kv.1 kv.2)
      (fun s => s.External.ResourceUpToDate = false)
      (fun kv => selects observationResponseFields "externalObservation" kv = false ∨
        (∀ inner, kv.2 = .obj inner →
          absent externalObservationFields "resourceUpToDate" inner = true))
      (fun s x s1 hx hP hs => by
        have hf := ObservationResponse_setField_frame s s1 x hs
        rcases hx with hx | hx
        · exact (congrArg ExternalObservation.ResourceUpToDate (hf.2.1 hx)).trans hP
        · exact (hf.2.2.2.1 hx).trans hP)
      kvs {} r (externalAbsent_member _ kvs ha) rfl hd
  · exact foldlM_invariant (fun s (kv : Bytes × JSON) => s.setField kv.1 kv.2)
      (fun s => s.External.ResourceLateInitialized = false)
      (fun kv => selects observationResponseFields "externalObservation" kv = false ∨
        (∀ inner, kv.2 = .obj inner →
          absent externalObservationFields "resourceLateInitialized" inner = true))
      (fun s x s1 hx hP hs => by
        have hf := ObservationResponse_setField_frame s s1 x hs
        rcases hx with hx | hx
        · exact (congrArg ExternalObservation.ResourceLateInitialized (hf.2.1 hx)).trans hP
        · exact (hf.2.2.2.2.1 hx).trans hP)
      kvs {} r (externalAbsent_member _ kvs ha) rfl hd
  · exact foldlM_invariant (fun s (kv : Bytes × JSON) => s.setField kv.1 kv.2)
      (fun s => s.External.ConnectionDetails = [])
      (fun kv => selects observationResponseFields "externalObservation" kv = false ∨
        (∀ inner, kv.2 = .obj inner →
          absent externalObservationFields "connectionDetails" inner = true))
      (fun s x s1 hx hP hs => by
        have hf := ObservationResponse_setField_frame s s1 x hs
        rcases hx with hx | hx
        · exact (congrArg ExternalObservation.ConnectionDetails (hf.2.1 hx)).trans hP
        · exact (hf.2.2.2.2.2 hx).trans hP)
      kvs {} r (externalAbsent_member _ kvs ha) rfl hd

/-- C8: a JSON object body may leave out any subset of the response members.
For every choice of the members that are present (with well-formed values),
decoding the body succeeds, each absent boolean is false, absent
connectionDetails is the empty map and absent errMessage is the empty string;
in every JSON object body that decodes, a field that no member selects is at
its zero value; and the body {} makes Observe return the all-false observation
without connection details and with a nil error. -/
theorem absent_members_decode_to_zero :
    (∀ f : ResponseMembers, f.OK →
      ∃ r, ObservationResponse.Decode f.body {} = .ok r ∧
        (f.errMessage = none → r.ErrMessage = []) ∧
        (f.externalObservation = none → r.External = {}) ∧
        (∀ e, f.externalObservation = some e →
          (e.resourceExists = none → r.External.ResourceExists = false) ∧
          (e.resourceUpToDate = none → r.External.ResourceUpToDate = false) ∧
          (e.resourceLateInitialized = none → r.External.ResourceLateInitialized = false) ∧
          (e.connectionDetails = none → r.External.ConnectionDetails = []))) ∧
      (∀ (body : Bytes) (kvs : List (Bytes × JSON)) (r : ObservationResponse),
        readValue body = .ok (.obj kvs) → ObservationResponse.Decode body {} = .ok r →
          (absent observationResponseFields "errMessage" kvs = true → r.ErrMessage = []) ∧
          (absent observationResponseFields "externalObservation" kvs = true →
            r.External = {}) ∧
          (externalAbsent "resourceExists" kvs = true →
            r.External.ResourceExists = false) ∧
          (externalAbsent "resourceUpToDate" kvs = true →
            r.External.ResourceUpToDate = false) ∧
          (externalAbsent "resourceLateInitialized" kvs = true →
            r.External.ResourceLateInitialized = false) ∧
          (externalAbsent "connectionDetails" kvs = true →
            r.External.ConnectionDetails = [])) ∧
      (∀ (c : ControllerClient) (mg : Managed) (payload : Bytes) (status : Nat),
        marshalRequest mg = some payload →
        c.client ⟨"POST", c.endpoint ++ "/observe", "application/json", payload⟩
          = .ok ⟨status, [0x7B, 0x7D]⟩ →
          (c.Observe mg).err = none ∧
          (c.Observe mg).value =
            { ResourceExists := false, ResourceUpToDate := false,
              ResourceLateInitialized := false, ConnectionDetails := [] }) := by
  refine ⟨?_, fun body kvs r hv hd => Decode_absent_fields body kvs r hv hd, ?_⟩
  · intro f hf
    refine ⟨f.value, Decode_body f hf, ?_, ?_, ?_⟩
    · intro h
      simp [ResponseMembers.value, h]
    · intro h
      simp [ResponseMembers.value, h]
    · intro e he
      simp only [ResponseMembers.value, he, Option.map_some', Option.getD_some,
        ExternalMembers.value]
      refine ⟨?_, ?_, ?_, ?_⟩ <;> intro h <;> simp [h]
  · intro c mg payload status hmg hresp
    rw [Observe_of_response c mg payload ⟨status, [0x7B, 0x7D]⟩ hmg hresp]
    have hd : ObservationResponse.Decode [0x7B, 0x7D] {} = .ok {} := by decide
    rw [hd]
    exact ⟨rfl, rfl⟩

theorem absent_members_decode_to_zero_witness :
    (∃ r, ObservationResponse.Decode upToDateOnly.body {} = .ok r ∧
        r.ErrMessage = [] ∧ r.External.ResourceExists = false ∧
        r.External.ResourceLateInitialized = false ∧ r.External.ConnectionDetails = []) ∧
      ((fixedClient 200 [0x7B, 0x7D]).Observe sampleManaged).err = none ∧
      ((fixedClient 200 [0x7B, 0x7D]).Observe sampleManaged).value =
        { ResourceExists := false, ResourceUpToDate := false,
          ResourceLateInitialized := false, ConnectionDetails := [] } :=
  have hok : upToDateOnly.OK :=
    ⟨fun s h => (by cases h), fun e he m hm => (by cases he; cases hm)⟩
  have h1 := absent_members_decode_to_zero.1 upToDateOnly hok
  have h3 := absent_members_decode_to_zero.2.2 (fixedClient 200 [0x7B, 0x7D]) sampleManaged
    samplePayload 200 (by decide) rfl
  ⟨h1.elim fun r hr =>
      ⟨r, hr.1, hr.2.1 rfl, (hr.2.2.2 _ rfl).1 rfl, (hr.2.2.2 _ rfl).2.2.1 rfl,
        (hr.2.2.2 _ rfl).2.2.2 rfl⟩,
    h3⟩

/-! ## The finalizer invariant -/

/-- The trace of a reconcile that reports success on a found registration that
is not marked for deletion: AddFinalizer succeeded, it comes before the one
Start, and the one status update writes the object AddFinalizer left. -/
theorem Reconcile_success_trace (r : Reconciler) (req : String) (d : Registration)
    (hget : r.clientGet req = .ok d) (hdel : d.DeletionTimestamp.isSome = false)
    (hreq : (r.Reconcile req).result.RequeueAfter = 0) :
    (r.addFinalizer d).2.2 = none ∧
      (r.Reconcile req).trace.filter (fun e => e.isAddFinalizer || e.isEngineStart) =
        [ Effect.addFinalizer d.Name,
          Effect.engineStart ("managed/" ++ d.Name)
            { endpoint := d.Endpoint, gvk := FromAPIVersionAndKind d.TypeRef.APIVersion d.TypeRef.Kind,
              loggerName := "managed/" ++ d.Name } ] ∧
      (r.Reconcile req).trace.filter Effect.isStatusUpdate =
        [ Effect.statusUpdate
            { d with Finalizers := (r.addFinalizer d).1,
                     ResourceVersion := (r.addFinalizer d).2.1 } ] := by
  cases hdt : d.DeletionTimestamp with
  | some ts => simp [hdt] at hdel
  | none =>
    rcases hf2 : r.addFinalizer d with ⟨fs, rv, ferr⟩
    cases ferr with
    | some err =>
      simp [Reconciler.Reconcile, hget, WasDeleted, hdt, hf2, shortWait, Second] at hreq
    | none =>
      cases hs : r.controllerStart ("managed/" ++ d.Name)
          { endpoint := d.Endpoint, gvk := FromAPIVersionAndKind d.TypeRef.APIVersion d.TypeRef.Kind,
            loggerName := "managed/" ++ d.Name } with
      | some err =>
        simp [Reconciler.Reconcile, hget, WasDeleted, hdt, hf2, hs, shortWait, Second] at hreq
      | none =>
        cases hc : r.controllerErr ("managed/" ++ d.Name) <;>
          simp [Reconciler.Reconcile, hget, WasDeleted, hdt, hf2, hs, hc,
            Effect.isStatusUpdate, Effect.isAddFinalizer, Effect.isEngineStart]

theorem AddFinalizer_mem (fs : List String) (name : String) :
    name ∈ AddFinalizer fs name := by
  unfold AddFinalizer
  split_ifs with h
  · exact h
  · simp

theorem AddFinalizer_count (fs : List String) (name : String) :
    (AddFinalizer fs name).count name = max 1 (fs.count name) := by
  unfold AddFinalizer
  split_ifs with h
  · have := List.count_pos_iff.mpr h
    omega
  · rw [List.count_append, List.count_eq_zero_of_not_mem h]
    simp

theorem AddFinalizer_nodup (fs : List String) (name : String) (h : fs.Nodup) :
    (AddFinalizer fs name).Nodup := by
  unfold AddFinalizer
  split_ifs with hm
  · exact h
  · rw [List.nodup_append]
    refine ⟨h, List.nodup_singleton _, ?_⟩
    intro a ha hb
    simp only [List.mem_singleton] at hb
    subst hb
    exact hm ha

theorem AddFinalizer_of_mem (fs : List String) (name : String) (h : name ∈ fs) :
    AddFinalizer fs name = fs := by
  simp [AddFinalizer, h]

theorem AddFinalizer_idempotent (fs : List String) (name : String) :
    AddFinalizer (AddFinalizer fs name) name = AddFinalizer fs name :=
  AddFinalizer_of_mem _ _ (AddFinalizer_mem fs name)

/-- The registration a successful reconcile leaves holds the finalizer list
that AddFinalizer made of the list it was fetched with. -/
theorem succeeds_finalizers (r : Reconciler) (req : String) (d d1 : Registration)
    (hr : r.insertsFinalizer) (hs : r.succeeds req d d1) :
    d1.Finalizers = AddFinalizer d.Finalizers finalizer := by
  obtain ⟨hget, hdel, _, hreq, hmem⟩ := hs
  have ht := (Reconcile_success_trace r req d hget hdel hreq).2.2
  have hm : Effect.statusUpdate d1 ∈ (r.Reconcile req).trace.filter Effect.isStatusUpdate :=
    List.mem_filter.mpr ⟨hmem, rfl⟩
  rw [ht] at hm
  simp only [List.mem_singleton, Effect.statusUpdate.injEq] at hm
  rw [hm]
  exact hr d

theorem Reconciled_finalizers :
    ∀ (n : Nat) (d0 dn : Registration), Reconciled (n + 1) d0 dn →
      dn.Finalizers = AddFinalizer d0.Finalizers finalizer := by
  intro n
  induction n with
  | zero =>
    intro d0 dn h
    cases h with
    | next _ _ d _ r req before hr hs =>
      cases before
      exact succeeds_finalizers r req d0 dn hr hs
  | succ n ih =>
    intro d0 dn h
    cases h with
    | next _ _ d _ r req before hr hs =>
      rw [succeeds_finalizers r req d dn hr hs, ih d0 d before, AddFinalizer_idempotent]

/-- C11: when Reconcile of a found registration that is not marked for deletion
reports success (nil error, no requeue delay), AddFinalizer was invoked on
that registration, succeeded, and came before the one engine Start, and the
reconcile leaves a registration.  With AddFinalizer as idempotent insertion of
the finalizer name into a finalizer set (a list without duplicates), the
registration left carries the finalizer exactly once, after one successful
reconcile and after any number n + 1 of them in a row.  Whatever list the
first reconcile fetched, the registration left holds the finalizer, and no
reconcile adds a second copy of it. -/
theorem Reconcile_success_carries_finalizer_once :
    (∀ (r : Reconciler) (req : String) (d : Registration),
        r.clientGet req = .ok d → d.DeletionTimestamp.isSome = false →
        (r.Reconcile req).err = none → (r.Reconcile req).result.RequeueAfter = 0 →
          (r.addFinalizer d).2.2 = none ∧
          (r.Reconcile req).trace.filter (fun e => e.isAddFinalizer || e.isEngineStart) =
            [ Effect.addFinalizer d.Name,
              Effect.engineStart ("managed/" ++ d.Name)
                { endpoint := d.Endpoint, gvk := FromAPIVersionAndKind d.TypeRef.APIVersion d.TypeRef.Kind,
                  loggerName := "managed/" ++ d.Name } ] ∧
          ∃ d1, r.succeeds req d d1) ∧
      (∀ (r : Reconciler) (req : String) (d d1 : Registration),
        r.insertsFinalizer → r.succeeds req d d1 → d.Finalizers.Nodup →
          d1.Finalizers.count finalizer = 1 ∧ d1.Finalizers.Nodup) ∧
      (∀ (n : Nat) (d0 dn : Registration),
        Reconciled (n + 1) d0 dn → d0.Finalizers.Nodup →
          dn.Finalizers.count finalizer = 1 ∧ dn.Finalizers.Nodup) ∧
      (∀ (n : Nat) (d0 dn : Registration), Reconciled (n + 1) d0 dn →
          finalizer ∈ dn.Finalizers ∧
          dn.Finalizers.count finalizer = max 1 (d0.Finalizers.count finalizer)) := by
  have once : ∀ (fs : List String), fs.Nodup →
      (AddFinalizer fs finalizer).count finalizer = 1 ∧ (AddFinalizer fs finalizer).Nodup := by
    intro fs hnd
    have hn := AddFinalizer_nodup fs finalizer hnd
    exact ⟨List.count_eq_one_of_mem hn (AddFinalizer_mem fs finalizer), hn⟩
  refine ⟨?_, ?_, ?_, ?_⟩
  · intro r req d hget hdel herr hreq
    have ht := Reconcile_success_trace r req d hget hdel hreq
    have hm : Effect.statusUpdate
        { d with Finalizers := (r.addFinalizer d).1,
                 ResourceVersion := (r.addFinalizer d).2.1 }
        ∈ (r.Reconcile req).trace.filter Effect.isStatusUpdate := by
      rw [ht.2.2]
      exact List.mem_singleton.mpr rfl
    exact ⟨ht.1, ht.2.1,
      { d with Finalizers := (r.addFinalizer d).1,
               ResourceVersion := (r.addFinalizer d).2.1 },
      hget, hdel, herr, hreq, (List.mem_filter.mp hm).1⟩
  · intro r req d d1 hr hs hnd
    rw [succeeds_finalizers r req d d1 hr hs]
    exact once _ hnd
  · intro n d0 dn h hnd
    rw [Reconciled_finalizers n d0 dn h]
    exact once _ hnd
  · intro n d0 dn h
    rw [Reconciled_finalizers n d0 dn h]
    exact ⟨AddFinalizer_mem _ _, AddFinalizer_count _ _⟩

theorem Reconcile_success_carries_finalizer_once_witness :
    (storeReconciler (sampleRegistration "foo" none)).succeeds "foo"
        (sampleRegistration "foo" none) finalizedRegistration ∧
      Reconciled 3 (sampleRegistration "foo" none) finalizedRegistration ∧
      (sampleRegistration "foo" none).Finalizers.Nodup ∧
      finalizedRegistration.Finalizers.count finalizer = 1 ∧
      finalizedRegistration.Finalizers.Nodup :=
  have hr : ∀ d, (storeReconciler d).insertsFinalizer := fun _ _ => rfl
  have h1 : (storeReconciler (sampleRegistration "foo" none)).succeeds "foo"
      (sampleRegistration "foo" none) finalizedRegistration :=
    ⟨rfl, rfl, rfl, rfl, by decide⟩
  have h2 : (storeReconciler finalizedRegistration).succeeds "foo"
      finalizedRegistration finalizedRegistration :=
    ⟨rfl, rfl, rfl, rfl, by decide⟩
  have chain : Reconciled 3 (sampleRegistration "foo" none) finalizedRegistration :=
    .next 2 _ _ _ _ "foo"
      (.next 1 _ _ _ _ "foo" (.next 0 _ _ _ _ "foo" (.start _) (hr _) h1) (hr _) h2)
      (hr _) h2
  have hnd : (sampleRegistration "foo" none).Finalizers.Nodup := List.nodup_nil
  ⟨h1, chain, hnd,
    Reconcile_success_carries_finalizer_once.2.2.1 2 _ _ chain hnd⟩

/-! ## Response bodies that do not decode -/

/-- A walk over members succeeds when every member is accepted in every
state. -/
theorem foldlM_ok_of_all {σ α : Type} (f : σ → α → Except DecodeError σ)
    (bad : α → Bool) (hgood : ∀ s x, bad x = false → ∃ s1, f s x = .ok s1) :
    ∀ (l : List α) (init : σ), l.any bad = false → ∃ s1, l.foldlM f init = .ok s1 := by
  intro l
  induction l with
  | nil => intro init _; exact ⟨init, rfl⟩
  | cons x xs ih =>
    intro init h
    rw [List.any_cons, Bool.or_eq_false_iff] at h
    obtain ⟨s1, hs1⟩ := hgood init x h.1
    rw [List.foldlM_cons, hs1]
    exact ih s1 h.2

theorem decodeUint8_bad (v : JSON) (h : v.notUint8 = true) :
    decodeUint8 v = .error .UnmarshalTypeError := by
  cases v with
  | num lit =>
    simp only [JSON.notUint8, Option.isNone_iff_eq_none] at h
    simp only [decodeUint8, h]
  | null => simp [JSON.notUint8] at h
  | bool b => rfl
  | str s => rfl
  | arr xs => rfl
  | obj kvs => rfl

theorem decodeUint8_good (v : JSON) (h : v.notUint8 = false) :
    ∃ n, decodeUint8 v = .ok n := by
  cases v with
  | num lit =>
    simp only [JSON.notUint8] at h
    cases hp : parseUint8 lit with
    | none => simp [hp] at h
    | some n => exact ⟨n, by simp only [decodeUint8, hp]⟩
  | null => exact ⟨0, rfl⟩
  | bool b => simp [JSON.notUint8] at h
  | str s => simp [JSON.notUint8] at h
  | arr xs => simp [JSON.notUint8] at h
  | obj kvs => simp [JSON.notUint8] at h

theorem mapM_decodeUint8_bad :
    ∀ xs : List JSON, xs.any JSON.notUint8 = true → ∃ e, xs.mapM decodeUint8 = .error e := by
  intro xs
  induction xs with
  | nil => intro h; simp at h
  | cons x xs ih =>
    intro h
    rw [List.mapM_cons]
    cases hx : decodeUint8 x with
    | error e => exact ⟨e, rfl⟩
    | ok n =>
      rw [List.any_cons, Bool.or_eq_true] at h
      rcases h with h | h
      · rw [decodeUint8_bad x h] at hx
        cases hx
      · obtain ⟨e, he⟩ := ih h
        rw [he]
        exact ⟨e, rfl⟩

theorem mapM_decodeUint8_good :
    ∀ xs : List JSON, xs.any JSON.notUint8 = false → ∃ b, xs.mapM decodeUint8 = .ok b := by
  intro xs
  induction xs with
  | nil => intro _; exact ⟨[], rfl⟩
  | cons x xs ih =>
    intro h
    rw [List.any_cons, Bool.or_eq_false_iff] at h
    obtain ⟨n, hn⟩ := decodeUint8_good x h.1
    obtain ⟨b, hb⟩ := ih h.2
    rw [List.mapM_cons, hn, hb]
    exact ⟨n :: b, rfl⟩

theorem decodeBytes_bad (v : JSON) (h : v.notBytes = true) :
    ∃ e, decodeBytes v = .error e := by
  cases v with
  | str s =>
    simp only [JSON.notBytes, Option.isNone_iff_eq_none] at h
    exact ⟨.CorruptInputError, by simp only [decodeBytes, h]⟩
  | arr xs => exact mapM_decodeUint8_bad xs h
  | null => simp [JSON.notBytes] at h
  | bool b => exact ⟨_, rfl⟩
  | num l => exact ⟨_, rfl⟩
  | obj kvs => exact ⟨_, rfl⟩

theorem decodeBytes_good (v : JSON) (h : v.notBytes = false) :
    ∃ b, decodeBytes v = .ok b := by
  cases v with
  | str s =>
    simp only [JSON.notBytes] at h
    cases hp : DecodeString s with
    | none => simp [hp] at h
    | some b => exact ⟨b, by simp only [decodeBytes, hp]⟩
  | arr xs => exact mapM_decodeUint8_good xs h
  | null => exact ⟨[], rfl⟩
  | bool b => simp [JSON.notBytes] at h
  | num l => simp [JSON.notBytes] at h
  | obj kvs => simp [JSON.notBytes] at h

theorem decodeConnectionDetails_bad (v : JSON) (cur : ConnectionDetails)
    (h : v.notDetails = true) : ∃ e, decodeConnectionDetails v cur = .error e := by
  cases v with
  | obj kvs =>
    refine foldlM_error_of_any
      (fun m (kv : Bytes × JSON) => (fun b => ConnectionDetails.set m kv.1 b) <$> decodeBytes kv.2)
      (fun kv => kv.2.notBytes) ?_ kvs cur h
    intro m kv hkv
    obtain ⟨e, he⟩ := decodeBytes_bad kv.2 hkv
    exact ⟨e, by simp only [he]; rfl⟩
  | null => simp [JSON.notDetails, rejectsStruct, JSON.notObject] at h
  | bool b => exact ⟨_, rfl⟩
  | num l => exact ⟨_, rfl⟩
  | str s => exact ⟨_, rfl⟩
  | arr xs => exact ⟨_, rfl⟩

theorem decodeConnectionDetails_good (v : JSON) (cur : ConnectionDetails)
    (h : v.notDetails = false) : ∃ m, decodeConnectionDetails v cur = .ok m := by
  cases v with
  | obj kvs =>
    refine foldlM_ok_of_all
      (fun m (kv : Bytes × JSON) => (fun b => ConnectionDetails.set m kv.1 b) <$> decodeBytes kv.2)
      (fun kv => kv.2.notBytes) ?_ kvs cur h
    intro m kv hkv
    obtain ⟨b, hb⟩ := decodeBytes_good kv.2 hkv
    exact ⟨m.set kv.1 b, by simp only [hb]; rfl⟩
  | null => exact ⟨[], rfl⟩
  | bool b => simp [JSON.notDetails, rejectsStruct, JSON.notObject] at h
  | num l => simp [JSON.notDetails, rejectsStruct, JSON.notObject] at h
  | str s => simp [JSON.notDetails, rejectsStruct, JSON.notObject] at h
  | arr xs => simp [JSON.notDetails, rejectsStruct, JSON.notObject] at h

/-- Storing into a struct fails when the value is an object with a member that
its field rejects, or is neither an object nor null. -/
theorem decodeStruct_rejects {σ : Type} (set : σ → Bytes → JSON → Except DecodeError σ)
    (bad : Bytes × JSON → Bool)
    (hbad : ∀ s kv, bad kv = true → ∃ e, set s kv.1 kv.2 = .error e)
    (v : JSON) (cur : σ) (h : rejectsStruct bad v = true) :
    ∃ e, decodeStruct set v cur = .error e := by
  cases v with
  | obj kvs => exact foldlM_error_of_any (fun s kv => set s kv.1 kv.2) bad hbad kvs cur h
  | null => simp [rejectsStruct, JSON.notObject] at h
  | bool b => exact ⟨_, rfl⟩
  | num l => exact ⟨_, rfl⟩
  | str s => exact ⟨_, rfl⟩
  | arr xs => exact ⟨_, rfl⟩

/-- Storing into a struct succeeds when the value is null or an object none of
whose members is rejected. -/
theorem decodeStruct_accepts {σ : Type} (set : σ → Bytes → JSON → Except DecodeError σ)
    (bad : Bytes × JSON → Bool)
    (hgood : ∀ s kv, bad kv = false → ∃ s1, set s kv.1 kv.2 = .ok s1)
    (v : JSON) (cur : σ) (h : rejectsStruct bad v = false) :
    ∃ s1, decodeStruct set v cur = .ok s1 := by
  cases v with
  | obj kvs => exact foldlM_ok_of_all (fun s kv => set s kv.1 kv.2) bad hgood kvs cur h
  | null => exact ⟨cur, rfl⟩
  | bool b => simp [rejectsStruct, JSON.notObject] at h
  | num l => simp [rejectsStruct, JSON.notObject] at h
  | str s => simp [rejectsStruct, JSON.notObject] at h
  | arr xs => simp [rejectsStruct, JSON.notObject] at h

theorem decodeBool_bad (v : JSON) (cur : Bool) (h : v.notBool = true) :
    decodeBool v cur = .error .UnmarshalTypeError := by
  cases v <;> simp [JSON.notBool] at h <;> rfl

theorem decodeBool_good (v : JSON) (cur : Bool) (h : v.notBool = false) :
    ∃ b, decodeBool v cur = .ok b := by
  cases v <;> simp [JSON.notBool] at h <;> exact ⟨_, rfl⟩

theorem decodeString_bad (v : JSON) (cur : Bytes) (h : v.notString = true) :
    decodeString v cur = .error .UnmarshalTypeError := by
  cases v <;> simp [JSON.notString] at h <;> rfl

theorem decodeString_good (v : JSON) (cur : Bytes) (h : v.notString = false) :
    ∃ s, decodeString v cur = .ok s := by
  cases v <;> simp [JSON.notString] at h <;> exact ⟨_, rfl⟩

theorem ExternalObservation_setField_bad (o : ExternalObservation) (kv : Bytes × JSON)
    (h : ExternalObservation.badMember kv = true) :
    ∃ e, ExternalObservation.setField o kv.1 kv.2 = .error e := by
  unfold ExternalObservation.badMember at h
  unfold ExternalObservation.setField
  cases hl : lookupField externalObservationFields kv.1 with
  | none => simp [hl] at h
  | some f =>
    simp only [hl] at h ⊢
    have hmem := lookupField_mem _ _ _ hl
    simp only [externalObservationFields, List.mem_cons, List.mem_singleton,
      List.not_mem_nil, or_false] at hmem
    rcases hmem with hm | hm | hm | hm <;> subst hm
    · rw [if_neg (by decide)] at h
      rw [if_pos rfl, decodeBool_bad _ _ h]
      exact ⟨_, rfl⟩
    · rw [if_neg (by decide)] at h
      rw [if_neg (by decide), if_pos rfl, decodeBool_bad _ _ h]
      exact ⟨_, rfl⟩
    · rw [if_neg (by decide)] at h
      rw [if_neg (by decide), if_neg (by decide), if_pos rfl, decodeBool_bad _ _ h]
      exact ⟨_, rfl⟩
    · rw [if_pos rfl] at h
      rw [if_neg (by decide), if_neg (by decide), if_neg (by decide)]
      obtain ⟨e, he⟩ := decodeConnectionDetails_bad kv.2 o.ConnectionDetails h
      rw [he]
      exact ⟨e, rfl⟩

theorem ExternalObservation_setField_good (o : ExternalObservation) (kv : Bytes × JSON)
    (h : ExternalObservation.badMember kv = false) :
    ∃ o1, ExternalObservation.setField o kv.1 kv.2 = .ok o1 := by
  unfold ExternalObservation.badMember at h
  unfold ExternalObservation.setField
  cases hl : lookupField externalObservationFields kv.1 with
  | none => exact ⟨o, rfl⟩
  | some f =>
    simp only [hl] at h ⊢
    have hmem := lookupField_mem _ _ _ hl
    simp only [externalObservationFields, List.mem_cons, List.mem_singleton,
      List.not_mem_nil, or_false] at hmem
    rcases hmem with hm | hm | hm | hm <;> subst hm
    · rw [if_neg (by decide)] at h
      obtain ⟨b, hb⟩ := decodeBool_good kv.2 o.ResourceExists h
      rw [if_pos rfl, hb]
      exact ⟨_, rfl⟩
    · rw [if_neg (by decide)] at h
      obtain ⟨b, hb⟩ := decodeBool_good kv.2 o.ResourceUpToDate h
      rw [if_neg (by decide), if_pos rfl, hb]
      exact ⟨_, rfl⟩
    · rw [if_neg (by decide)] at h
      obtain ⟨b, hb⟩ := decodeBool_good kv.2 o.ResourceLateInitialized h
      rw [if_neg (by decide), if_neg (by decide), if_pos rfl, hb]
      exact ⟨_, rfl⟩
    · rw [if_pos rfl] at h
      rw [if_neg (by decide), if_neg (by decide), if_neg (by decide)]
      obtain ⟨m, hm⟩ := decodeConnectionDetails_good kv.2 o.ConnectionDetails h
      rw [hm]
      exact ⟨_, rfl⟩

theorem ExternalUpdate_setField_bad (o : ExternalUpdate) (kv : Bytes × JSON)
    (h : ExternalUpdate.badMember kv = true) :
    ∃ e, ExternalUpdate.setField o kv.1 kv.2 = .error e := by
  unfold ExternalUpdate.badMember at h
  unfold ExternalUpdate.setField
  cases hl : lookupField [ascii "connectionDetails"] kv.1 with
  | none => simp [hl] at h
  | some f =>
    simp only [hl] at h ⊢
    obtain ⟨e, he⟩ := decodeConnectionDetails_bad kv.2 o.ConnectionDetails h
    rw [he]
    exact ⟨e, rfl⟩

theorem ExternalUpdate_setField_good (o : ExternalUpdate) (kv : Bytes × JSON)
    (h : ExternalUpdate.badMember kv = false) :
    ∃ o1, ExternalUpdate.setField o kv.1 kv.2 = .ok o1 := by
  unfold ExternalUpdate.badMember at h
  unfold ExternalUpdate.setField
  cases hl : lookupField [ascii "connectionDetails"] kv.1 with
  | none => exact ⟨o, rfl⟩
  | some f =>
    simp only [hl] at h ⊢
    obtain ⟨m, hm⟩ := decodeConnectionDetails_good kv.2 o.ConnectionDetails h
    rw [hm]
    exact ⟨_, rfl⟩

theorem ExternalCreation_setField_bad (o : ExternalCreation) (kv : Bytes × JSON)
    (h : ExternalCreation.badMember kv = true) :
    ∃ e, ExternalCreation.setField o kv.1 kv.2 = .error e := by
  unfold ExternalCreation.badMember at h
  unfold ExternalCreation.setField
  cases hl : lookupField [ascii "connectionDetails"] kv.1 with
  | none => simp [hl] at h
  | some f =>
    simp only [hl] at h ⊢
    obtain ⟨e, he⟩ := decodeConnectionDetails_bad kv.2 o.ConnectionDetails h
    rw [he]
    exact ⟨e, rfl⟩

theorem ExternalCreation_setField_good (o : ExternalCreation) (kv : Bytes × JSON)
    (h : ExternalCreation.badMember kv = false) :
    ∃ o1, ExternalCreation.setField o kv.1 kv.2 = .ok o1 := by
  unfold ExternalCreation.badMember at h
  unfold ExternalCreation.setField
  cases hl : lookupField [ascii "connectionDetails"] kv.1 with
  | none => exact ⟨o, rfl⟩
  | some f =>
    simp only [hl] at h ⊢
    obtain ⟨m, hm⟩ := decodeConnectionDetails_good kv.2 o.ConnectionDetails h
    rw [hm]
    exact ⟨_, rfl⟩

theorem ObservationResponse_setField_bad (r : ObservationResponse) (kv : Bytes × JSON)
    (h : ObservationResponse.badMember kv = true) :
    ∃ e, ObservationResponse.setField r kv.1 kv.2 = .error e := by
  unfold ObservationResponse.badMember at h
  unfold ObservationResponse.setField
  cases hl : lookupField observationResponseFields kv.1 with
  | none => simp [hl] at h
  | some f =>
    simp only [hl] at h ⊢
    have hmem := lookupField_mem _ _ _ hl
    simp only [observationResponseFields, List.mem_cons, List.mem_singleton,
      List.not_mem_nil, or_false] at hmem
    rcases hmem with hm | hm <;> subst hm
    · rw [if_pos rfl] at h ⊢
      obtain ⟨e, he⟩ := decodeStruct_rejects ExternalObservation.setField
        ExternalObservation.badMember ExternalObservation_setField_bad kv.2 r.External h
      rw [he]
      exact ⟨e, rfl⟩
    · rw [if_neg (by decide)] at h ⊢
      rw [decodeString_bad _ _ h]
      exact ⟨_, rfl⟩

theorem ObservationResponse_setField_good (r : ObservationResponse) (kv : Bytes × JSON)
    (h : ObservationResponse.badMember kv = false) :
    ∃ r1, ObservationResponse.setField r kv.1 kv.2 = .ok r1 := by
  unfold ObservationResponse.badMember at h
  unfold ObservationResponse.setField
  cases hl : lookupField observationResponseFields kv.1 with
  | none => exact ⟨r, rfl⟩
  | some f =>
    simp only [hl] at h ⊢
    have hmem := lookupField_mem _ _ _ hl
    simp only [observationResponseFields, List.mem_cons, List.mem_singleton,
      List.not_mem_nil, or_false] at hmem
    rcases hmem with hm | hm <;> subst hm
    · rw [if_pos rfl] at h ⊢
      obtain ⟨e, he⟩ := decodeStruct_accepts ExternalObservation.setField
        ExternalObservation.badMember ExternalObservation_setField_good kv.2 r.External h
      rw [he]
      exact ⟨_, rfl⟩
    · rw [if_neg (by decide)] at h ⊢
      obtain ⟨s, hs⟩ := decodeString_good kv.2 r.ErrMessage h
      rw [hs]
      exact ⟨_, rfl⟩

theorem UpdateResponse_setField_bad (r : UpdateResponse) (kv : Bytes × JSON)
    (h : UpdateResponse.badMember kv = true) :
    ∃ e, UpdateResponse.setField r kv.1 kv.2 = .error e := by
  unfold UpdateResponse.badMember at h
  unfold UpdateResponse.setField
  cases hl : lookupField updateResponseFields kv.1 with
  | none => simp [hl] at h
  | some f =>
    simp only [hl] at h ⊢
    have hmem := lookupField_mem _ _ _ hl
    simp only [updateResponseFields, List.mem_cons, List.mem_singleton,
      List.not_mem_nil, or_false] at hmem
    rcases hmem with hm | hm <;> subst hm
    · rw [if_pos rfl] at h ⊢
      obtain ⟨e, he⟩ := decodeStruct_rejects ExternalUpdate.setField
        ExternalUpdate.badMember ExternalUpdate_setField_bad kv.2 r.External h
      rw [he]
      exact ⟨e, rfl⟩
    · rw [if_neg (by decide)] at h ⊢
      rw [decodeString_bad _ _ h]
      exact ⟨_, rfl⟩

theorem UpdateResponse_setField_good (r : UpdateResponse) (kv : Bytes × JSON)
    (h : UpdateResponse.badMember kv = false) :
    ∃ r1, UpdateResponse.setField r kv.1 kv.2 = .ok r1 := by
  unfold UpdateResponse.badMember at h
  unfold UpdateResponse.setField
  cases hl : lookupField updateResponseFields kv.1 with
  | none => exact ⟨r, rfl⟩
  | some f =>
    simp only [hl] at h ⊢
    have hmem := lookupField_mem _ _ _ hl
    simp only [updateResponseFields, List.mem_cons, List.mem_singleton,
      List.not_mem_nil, or_false] at hmem
    rcases hmem with hm | hm <;> subst hm
    · rw [if_pos rfl] at h ⊢
      obtain ⟨e, he⟩ := decodeStruct_accepts ExternalUpdate.setField
        ExternalUpdate.badMember ExternalUpdate_setField_good kv.2 r.External h
      rw [he]
      exact ⟨_, rfl⟩
    · rw [if_neg (by decide)] at h ⊢
      obtain ⟨s, hs⟩ := decodeString_good kv.2 r.ErrMessage h
      rw [hs]
      exact ⟨_, rfl⟩

theorem CreationResponse_setField_bad (r : CreationResponse) (kv : Bytes × JSON)
    (h : CreationResponse.badMember kv = true) :
    ∃ e, CreationResponse.setField r kv.1 kv.2 = .error e := by
  unfold CreationResponse.badMember at h
  unfold CreationResponse.setField
  cases hl : lookupField [ascii "externalCreation", ascii "errMessage"] kv.1 with
  | none => simp [hl] at h
  | some f =>
    simp only [hl] at h ⊢
    have hmem := lookupField_mem _ _ _ hl
    simp only [List.mem_cons, List.mem_singleton, List.not_mem_nil, or_false] at hmem
    rcases hmem with hm | hm <;> subst hm
    · rw [if_pos rfl] at h ⊢
      obtain ⟨e, he⟩ := decodeStruct_rejects ExternalCreation.setField
        ExternalCreation.badMember ExternalCreation_setField_bad kv.2 r.External h
      rw [he]
      exact ⟨e, rfl⟩
    · rw [if_neg (by decide)] at h ⊢
      rw [decodeString_bad _ _ h]
      exact ⟨_, rfl⟩

theorem CreationResponse_setField_good (r : CreationResponse) (kv : Bytes × JSON)
    (h : CreationResponse.badMember kv = false) :
    ∃ r1, CreationResponse.setField r kv.1 kv.2 = .ok r1 := by
  unfold CreationResponse.badMember at h
  unfold CreationResponse.setField
  cases hl : lookupField [ascii "externalCreation", ascii "errMessage"] kv.1 with
  | none => exact ⟨r, rfl⟩
  | some f =>
    simp only [hl] at h ⊢
    have hmem := lookupField_mem _ _ _ hl
    simp only [List.mem_cons, List.mem_singleton, List.not_mem_nil, or_false] at hmem
    rcases hmem with hm | hm <;> subst hm
    · rw [if_pos rfl] at h ⊢
      obtain ⟨e, he⟩ := decodeStruct_accepts ExternalCreation.setField
        ExternalCreation.badMember ExternalCreation_setField_good kv.2 r.External h
      rw [he]
      exact ⟨_, rfl⟩
    · rw [if_neg (by decide)] at h ⊢
      obtain ⟨s, hs⟩ := decodeString_good kv.2 r.ErrMessage h
      rw [hs]
      exact ⟨_, rfl⟩

theorem DeletionResponse_setField_bad (r : DeletionResponse) (kv : Bytes × JSON)
    (h : DeletionResponse.badMember kv = true) :
    ∃ e, DeletionResponse.setField r kv.1 kv.2 = .error e := by
  unfold DeletionResponse.badMember at h
  unfold DeletionResponse.setField
  cases hl : lookupField [ascii "errMessage"] kv.1 with
  | none => simp [hl] at h
  | some f =>
    simp only [hl] at h ⊢
    rw [decodeString_bad _ _ h]
    exact ⟨_, rfl⟩

theorem DeletionResponse_setField_good (r : DeletionResponse) (kv : Bytes × JSON)
    (h : DeletionResponse.badMember kv = false) :
    ∃ r1, DeletionResponse.setField r kv.1 kv.2 = .ok r1 := by
  unfold DeletionResponse.badMember at h
  unfold DeletionResponse.setField
  cases hl : lookupField [ascii "errMessage"] kv.1 with
  | none => exact ⟨r, rfl⟩
  | some f =>
    simp only [hl] at h ⊢
    obtain ⟨s, hs⟩ := decodeString_good kv.2 r.ErrMessage h
    rw [hs]
    exact ⟨_, rfl⟩

/-- White space before the first value is skipped. -/
theorem scanFrom_space (ws : Bytes) (h : ws.all isSpace = true) (rest : Bytes) :
    scanFrom ⟨.BeginValue, []⟩ (ws ++ rest) = scanFrom ⟨.BeginValue, []⟩ rest := by
  induction ws with
  | nil => rfl
  | cons c ws ih =>
    rw [List.all_cons, Bool.and_eq_true] at h
    rw [List.cons_append, scanFrom_cons]
    simp only [Scanner.next, stateBeginValue, h.1, if_true, resume]
    exact ih h.2

/-- A body of white space alone, the empty body among them, is `io.EOF`. -/
theorem readValue_space (ws : Bytes) (h : ws.all isSpace = true) :
    readValue ws = .error .EOF := by
  have e := scanFrom_space ws h []
  rw [List.append_nil] at e
  rw [readValue, e]
  rfl

/-- A body whose first byte after white space cannot begin a JSON value is a
syntax error, whatever follows. -/
theorem readValue_not_value (ws : Bytes) (c : Nat) (rest : Bytes)
    (h : ws.all isSpace = true) (hs : isSpace c = false) (hv : startsValue c = false) :
    readValue (ws ++ c :: rest) = .error .SyntaxError := by
  rw [readValue, scanFrom_space ws h, scanFrom_cons]
  simp [startsValue, isDigit] at hv
  obtain ⟨h1, h2, h3, h4, h5, h6, h7, h8⟩ := hv
  have h9 : ¬ (0x31 ≤ c ∧ c ≤ 0x39) := by omega
  have h10 : ¬ c = 0x30 := by omega
  simp only [Scanner.next, stateBeginValue, hs, h1, h2, h3, h4, h6, h7, h8, h9, h10,
    if_false, Bool.false_eq_true, resume]

/-- Inside a number at the top level the scan ends in a number or an error. -/
theorem inTopNumber_not_obj (q : Bytes) :
    ∀ (s : Scanner), s.inTopNumber = true → ∀ kvs, scanFrom s q ≠ .ok (.obj kvs) := by
  induction q with
  | nil =>
    intro s hs kvs
    obtain ⟨step, ps⟩ := s
    cases ps with
    | cons p ps => simp [Scanner.inTopNumber] at hs
    | nil =>
      cases step <;> simp [Scanner.inTopNumber] at hs <;>
        simp [scanFrom, Scanner.eof]
  | cons c q ih =>
    intro s hs kvs
    obtain ⟨step, ps⟩ := s
    cases ps with
    | cons p ps => simp [Scanner.inTopNumber] at hs
    | nil =>
      rw [scanFrom_cons]
      cases step <;> simp [Scanner.inTopNumber] at hs <;>
        simp only [Scanner.next, state0, stateESign, endNumber, endValue] <;>
        split_ifs <;>
        first
          | (simp only [resume]; exact ih _ (by rfl) kvs)
          | simp [resume]

/-- A body cut short inside an object: if some continuation of the input is
read as an object, the input itself is read as that object or runs into the end
of the input. -/
theorem scanFrom_prefix (p : Bytes) :
    ∀ (s : Scanner) (q : Bytes) (kvs : List (Bytes × JSON)),
      scanFrom s (p ++ q) = .ok (.obj kvs) →
      scanFrom s p = .ok (.obj kvs) ∨ scanFrom s p = .error .EOF ∨
        scanFrom s p = .error .ErrUnexpectedEOF := by
  induction p with
  | nil =>
    intro s q kvs h
    right
    have hn : s.inTopNumber = false := by
      cases hc : s.inTopNumber with
      | false => rfl
      | true => exact absurd h (inTopNumber_not_obj q s hc kvs)
    obtain ⟨step, ps⟩ := s
    cases ps with
    | nil => cases step <;> simp [Scanner.inTopNumber] at hn <;> simp [scanFrom, Scanner.eof]
    | cons p ps => simp [scanFrom, Scanner.eof]
  | cons c p ih =>
    intro s q kvs h
    rw [List.cons_append, scanFrom_cons] at h
    rw [scanFrom_cons]
    match hn : s.next c with
    | .continue s1 =>
      rw [hn] at h
      exact ih s1 q kvs h
    | .finish v =>
      rw [hn] at h
      exact Or.inl h
    | .error =>
      rw [hn] at h
      simp [resume] at h

/-- A truncated object body is `io.EOF` or `io.ErrUnexpectedEOF`. -/
theorem readValue_truncated (p q : Bytes) (kvs : List (Bytes × JSON))
    (h : readValue (p ++ q) = .ok (.obj kvs)) (hp : readValue p ≠ .ok (.obj kvs)) :
    readValue p = .error .EOF ∨ readValue p = .error .ErrUnexpectedEOF := by
  rcases scanFrom_prefix p ⟨.BeginValue, []⟩ q kvs h with h1 | h1
  · exact absurd h1 hp
  · exact h1

/-- The text `null` after white space is read as the value null, whatever
follows it. -/
theorem readValue_null (ws rest : Bytes) (h : ws.all isSpace = true) :
    readValue (ws ++ ascii "null" ++ rest) = .ok .null := by
  have e : ascii "null" = [0x6E, 0x75, 0x6C, 0x6C] := by decide
  rw [readValue, List.append_assoc, scanFrom_space ws h, e]
  simp [scanFrom_cons, Scanner.next, stateBeginValue, isSpace, resume, endValue]

/-- What each decoder does with the first value of the body: it fails when the
value is rejected for its response type, succeeds otherwise, and leaves the
response as it was when the value is null. -/
theorem Decode_members (body : Bytes) (v : JSON) (hv : readValue body = .ok v) :
    (rejectsStruct ObservationResponse.badMember v = true →
        ∃ e, ObservationResponse.Decode body {} = .error e) ∧
      (rejectsStruct CreationResponse.badMember v = true →
        ∃ e, CreationResponse.Decode body {} = .error e) ∧
      (rejectsStruct UpdateResponse.badMember v = true →
        ∃ e, UpdateResponse.Decode body {} = .error e) ∧
      (rejectsStruct DeletionResponse.badMember v = true →
        ∃ e, DeletionResponse.Decode body {} = .error e) ∧
      (rejectsStruct ObservationResponse.badMember v = false →
        ∃ o, ObservationResponse.Decode body {} = .ok o) ∧
      (rejectsStruct CreationResponse.badMember v = false →
        ∃ o, CreationResponse.Decode body {} = .ok o) ∧
      (rejectsStruct UpdateResponse.badMember v = false →
        ∃ o, UpdateResponse.Decode body {} = .ok o) ∧
      (rejectsStruct DeletionResponse.badMember v = false →
        ∃ o, DeletionResponse.Decode body {} = .ok o) ∧
      (v = .null →
        ObservationResponse.Decode body {} = .ok {} ∧
        CreationResponse.Decode body {} = .ok {} ∧
        UpdateResponse.Decode body {} = .ok {} ∧
        DeletionResponse.Decode body {} = .ok {}) := by
  simp only [ObservationResponse.Decode, CreationResponse.Decode, UpdateResponse.Decode,
    DeletionResponse.Decode, hv]
  refine ⟨decodeStruct_rejects _ _ ObservationResponse_setField_bad v {},
    decodeStruct_rejects _ _ CreationResponse_setField_bad v {},
    decodeStruct_rejects _ _ UpdateResponse_setField_bad v {},
    decodeStruct_rejects _ _ DeletionResponse_setField_bad v {},
    decodeStruct_accepts _ _ ObservationResponse_setField_good v {},
    decodeStruct_accepts _ _ CreationResponse_setField_good v {},
    decodeStruct_accepts _ _ UpdateResponse_setField_good v {},
    decodeStruct_accepts _ _ DeletionResponse_setField_good v {}, ?_⟩
  intro hn
  subst hn
  exact ⟨rfl, rfl, rfl, rfl⟩

/-- The four operations fail with the decode error of the scanner. -/
theorem failsWith_of_readValue (c : ControllerClient) (mg : Managed)
    (payload : Bytes) (resp : Response)
    (hmg : marshalRequest mg = some payload)
    (hresp : ∀ path, c.client ⟨"POST", c.endpoint ++ path, "application/json", payload⟩
      = .ok resp)
    (e : DecodeError) (he : readValue resp.Body = .error e) : c.failsWith mg e := by
  obtain ⟨h1, h2, h3, h4⟩ := (Decode_rejects resp.Body).1 e he
  unfold ControllerClient.failsWith
  rw [Observe_of_response c mg payload resp hmg (hresp _),
    Create_of_response c mg payload resp hmg (hresp _),
    Update_of_response c mg payload resp hmg (hresp _),
    Delete_of_response c mg payload resp hmg (hresp _), h1, h2, h3, h4]
  exact ⟨rfl, rfl, rfl, rfl, rfl, rfl, rfl⟩

/-- C6 (amended): the bodies on which the ControllerClient operations return a
decode failure, and the one kind of non-object body on which they do not.
For every answered request:
(1) a body the scanner rejects makes Observe, Create, Update and Delete each
return that decode failure with the zero result; such are (2) a body of white
space alone, the empty body among them, (3) a body whose first byte after
white space cannot begin a JSON value, and (4) a body cut short before its
object closes;
(5) a body whose first value is an array, string, number or boolean makes each
operation return a type error with the zero result;
(6) a body whose first value is an object binding a field of the response type
of the operation, at the top or inside its `external...` member or its
`connectionDetails`, to a non-null value of the wrong type makes that
operation, Observe, Create, Update or Delete alike, return a decode failure
with the zero result;
(7) no other body does: on every other body each operation returns a nil
error;
(8) in particular a body whose first value is `null`, that is white space, the
text `null` and whatever follows, is accepted by each operation, which returns
the zero result with a nil error.
(9) One body of each kind, for each response type. -/
theorem malformed_body_is_decode_failure (c : ControllerClient) (mg : Managed)
    (payload : Bytes) (resp : Response)
    (hmg : marshalRequest mg = some payload)
    (hresp : ∀ path, c.client ⟨"POST", c.endpoint ++ path, "application/json", payload⟩
      = .ok resp) :
    (∀ e, readValue resp.Body = .error e → c.failsWith mg e) ∧
      (resp.Body.all isSpace = true → c.failsWith mg .EOF) ∧
      (∀ ws b rest, resp.Body = ws ++ b :: rest → ws.all isSpace = true →
        isSpace b = false → startsValue b = false → c.failsWith mg .SyntaxError) ∧
      (∀ q kvs, readValue (resp.Body ++ q) = .ok (.obj kvs) →
        readValue resp.Body ≠ .ok (.obj kvs) →
        c.failsWith mg .EOF ∨ c.failsWith mg .ErrUnexpectedEOF) ∧
      (∀ v, readValue resp.Body = .ok v → v.notObject = true →
        c.failsWith mg .UnmarshalTypeError) ∧
      (∀ v, readValue resp.Body = .ok v →
        (rejectsStruct ObservationResponse.badMember v = true →
          (∃ e, (c.Observe mg).err = some (.decode e)) ∧ (c.Observe mg).value = {}) ∧
        (rejectsStruct CreationResponse.badMember v = true →
          (∃ e, (c.Create mg).err = some (.decode e)) ∧ (c.Create mg).value = {}) ∧
        (rejectsStruct UpdateResponse.badMember v = true →
          (∃ e, (c.Update mg).err = some (.decode e)) ∧ (c.Update mg).value = {}) ∧
        (rejectsStruct DeletionResponse.badMember v = true →
          ∃ e, (c.Delete mg).err = some (.decode e))) ∧
      (∀ v, readValue resp.Body = .ok v →
        (rejectsStruct ObservationResponse.badMember v = false → (c.Observe mg).err = none) ∧
        (rejectsStruct CreationResponse.badMember v = false → (c.Create mg).err = none) ∧
        (rejectsStruct UpdateResponse.badMember v = false → (c.Update mg).err = none) ∧
        (rejectsStruct DeletionResponse.badMember v = false → (c.Delete mg).err = none)) ∧
      (readValue resp.Body = .ok .null →
        (c.Observe mg).err = none ∧ (c.Observe mg).value = {} ∧
        (c.Create mg).err = none ∧ (c.Create mg).value = {} ∧
        (c.Update mg).err = none ∧ (c.Update mg).value = {} ∧
        (c.Delete mg).err = none) ∧
      (∀ ws rest, resp.Body = ws ++ ascii "null" ++ rest → ws.all isSpace = true →
        (c.Observe mg).err = none ∧ (c.Observe mg).value = {} ∧
        (c.Create mg).err = none ∧ (c.Create mg).value = {} ∧
        (c.Update mg).err = none ∧ (c.Update mg).value = {} ∧
        (c.Delete mg).err = none) ∧
      ObservationResponse.Decode [] {} = .error .EOF ∧
      ObservationResponse.Decode (ascii "\x7b\"externalObservation\":\x7b\"resourceEx") {}
        = .error .ErrUnexpectedEOF ∧
      ObservationResponse.Decode (ascii "<html>Bad Gateway</html>") {}
        = .error .SyntaxError ∧
      ObservationResponse.Decode
          (ascii "\x7b\"externalObservation\":\x7b\"resourceExists\":\"yes\"\x7d\x7d") {}
        = .error .UnmarshalTypeError ∧
      ObservationResponse.Decode (ascii "[]") {} = .error .UnmarshalTypeError ∧
      ObservationResponse.Decode (ascii "\"ok\"") {} = .error .UnmarshalTypeError ∧
      UpdateResponse.Decode (ascii "\x7b\"externalUpdate\":7\x7d") {}
        = .error .UnmarshalTypeError ∧
      UpdateResponse.Decode
          (ascii "\x7b\"externalUpdate\":\x7b\"connectionDetails\":\x7b\"user\":\"!\"\x7d\x7d\x7d")
          {}
        = .error .CorruptInputError ∧
      CreationResponse.Decode
          (ascii "\x7b\"externalCreation\":\x7b\"connectionDetails\":\x7b\"user\":[256]\x7d\x7d\x7d")
          {}
        = .error .UnmarshalTypeError ∧
      CreationResponse.Decode (ascii "\x7b\"errMessage\":false\x7d") {}
        = .error .UnmarshalTypeError ∧
      DeletionResponse.Decode (ascii "\x7b\"errMessage\":404\x7d") {}
        = .error .UnmarshalTypeError ∧
      DeletionResponse.Decode (ascii "\x7b\"errMessage\":\"gone\"") {}
        = .error .ErrUnexpectedEOF := by
  have hobs := Observe_of_response c mg payload resp hmg (hresp _)
  have hcre := Create_of_response c mg payload resp hmg (hresp _)
  have hupd := Update_of_response c mg payload resp hmg (hresp _)
  have hdel := Delete_of_response c mg payload resp hmg (hresp _)
  have hfail := failsWith_of_readValue c mg payload resp hmg hresp
  have hnull : readValue resp.Body = .ok .null →
      (c.Observe mg).err = none ∧ (c.Observe mg).value = {} ∧
      (c.Create mg).err = none ∧ (c.Create mg).value = {} ∧
      (c.Update mg).err = none ∧ (c.Update mg).value = {} ∧
      (c.Delete mg).err = none := by
    intro hv
    obtain ⟨h1, h2, h3, h4⟩ := (Decode_members resp.Body .null hv).2.2.2.2.2.2.2.2 rfl
    rw [hobs, hcre, hupd, hdel, h1, h2, h3, h4]
    exact ⟨rfl, rfl, rfl, rfl, rfl, rfl, rfl⟩
  refine ⟨hfail, ?_, ?_, ?_, ?_, ?_, ?_, hnull, ?_, by decide, by decide, by decide,
    by decide, by decide, by decide, by decide, by decide, by decide, by decide, by decide,
    by decide⟩
  · intro hws
    exact hfail .EOF (readValue_space resp.Body hws)
  · intro ws b rest hb hws hs hv
    exact hfail .SyntaxError (hb ▸ readValue_not_value ws b rest hws hs hv)
  · intro q kvs hq hp
    rcases readValue_truncated resp.Body q kvs hq hp with h | h
    · exact Or.inl (hfail .EOF h)
    · exact Or.inr (hfail .ErrUnexpectedEOF h)
  · intro v hv hno
    obtain ⟨h1, h2, h3, h4⟩ := (Decode_rejects resp.Body).2 v hv hno
    unfold ControllerClient.failsWith
    rw [hobs, hcre, hupd, hdel, h1, h2, h3, h4]
    exact ⟨rfl, rfl, rfl, rfl, rfl, rfl, rfl⟩
  · intro v hv
    obtain ⟨h1, h2, h3, h4, _⟩ := Decode_members resp.Body v hv
    refine ⟨fun h => ?_, fun h => ?_, fun h => ?_, fun h => ?_⟩
    · obtain ⟨e, he⟩ := h1 h
      rw [hobs, he]
      exact ⟨⟨e, rfl⟩, rfl⟩
    · obtain ⟨e, he⟩ := h2 h
      rw [hcre, he]
      exact ⟨⟨e, rfl⟩, rfl⟩
    · obtain ⟨e, he⟩ := h3 h
      rw [hupd, he]
      exact ⟨⟨e, rfl⟩, rfl⟩
    · obtain ⟨e, he⟩ := h4 h
      rw [hdel, he]
      exact ⟨e, rfl⟩
  · intro v hv
    obtain ⟨_, _, _, _, h1, h2, h3, h4, _⟩ := Decode_members resp.Body v hv
    refine ⟨fun h => ?_, fun h => ?_, fun h => ?_, fun h => ?_⟩
    · obtain ⟨o, ho⟩ := h1 h
      rw [hobs, ho]
    · obtain ⟨o, ho⟩ := h2 h
      rw [hcre, ho]
    · obtain ⟨o, ho⟩ := h3 h
      rw [hupd, ho]
    · obtain ⟨o, ho⟩ := h4 h
      rw [hdel, ho]
  · intro ws rest hb hws
    exact hnull (hb ▸ readValue_null ws rest hws)

theorem malformed_body_is_decode_failure_witness :
    (((fixedClient 200 []).Observe sampleManaged).err = some (.decode .EOF) ∧
      ((fixedClient 200 []).Observe sampleManaged).value = {} ∧
      ((fixedClient 200 []).Create sampleManaged).err = some (.decode .EOF) ∧
      ((fixedClient 200 []).Create sampleManaged).value = {} ∧
      ((fixedClient 200 []).Update sampleManaged).err = some (.decode .EOF) ∧
      ((fixedClient 200 []).Update sampleManaged).value = {} ∧
      ((fixedClient 200 []).Delete sampleManaged).err = some (.decode .EOF)) ∧
      ((∃ e, ((fixedClient 200 (ascii "\x7b\"externalUpdate\":7\x7d")).Update sampleManaged).err
          = some (.decode e)) ∧
        ((fixedClient 200 (ascii "\x7b\"externalUpdate\":7\x7d")).Update sampleManaged).value
          = {}) ∧
      (∃ e, ((fixedClient 200 (ascii "\x7b\"errMessage\":404\x7d")).Delete sampleManaged).err
          = some (.decode e)) ∧
      (((fixedClient 200 (ascii " null\n")).Observe sampleManaged).err = none ∧
        ((fixedClient 200 (ascii " null\n")).Observe sampleManaged).value = {} ∧
        ((fixedClient 200 (ascii " null\n")).Create sampleManaged).err = none ∧
        ((fixedClient 200 (ascii " null\n")).Create sampleManaged).value = {} ∧
        ((fixedClient 200 (ascii " null\n")).Update sampleManaged).err = none ∧
        ((fixedClient 200 (ascii " null\n")).Update sampleManaged).value = {} ∧
        ((fixedClient 200 (ascii " null\n")).Delete sampleManaged).err = none) :=
  ⟨(malformed_body_is_decode_failure (fixedClient 200 []) sampleManaged samplePayload
      ⟨200, []⟩ (by decide) (fun _ => rfl)).1 .EOF rfl,
    ((malformed_body_is_decode_failure
      (fixedClient 200 (ascii "\x7b\"externalUpdate\":7\x7d")) sampleManaged samplePayload
      ⟨200, ascii "\x7b\"externalUpdate\":7\x7d"⟩ (by decide) (fun _ => rfl)).2.2.2.2.2.1
      (.obj [(ascii "externalUpdate", .num [0x37])]) rfl).2.2.1 rfl,
    ((malformed_body_is_decode_failure
      (fixedClient 200 (ascii "\x7b\"errMessage\":404\x7d")) sampleManaged samplePayload
      ⟨200, ascii "\x7b\"errMessage\":404\x7d"⟩ (by decide) (fun _ => rfl)).2.2.2.2.2.1
      (.obj [(ascii "errMessage", .num [0x34, 0x30, 0x34])]) rfl).2.2.2 rfl,
    (malformed_body_is_decode_failure (fixedClient 200 (ascii " null\n")) sampleManaged
      samplePayload ⟨200, ascii " null\n"⟩ (by decide) (fun _ => rfl)).2.2.2.2.2.2.2.2.1
      [0x20] [0x0A] rfl rfl⟩

end Crisscross
